import Mathlib

/-!
# Verification of the speech-service audio pipeline

Shallow embedding of `ringbuffer.h` (the frame ring buffer), `tts_receiver.h`,
`resampler.cc` (the sample-rate converter, over an abstract libresample) and
`earcon_manager.cc` (the earcon mixer), followed by theorems about them.

Conventions of the embedding
* C++ `int` is `Int`; `/` and `%` are the truncating `Int.tdiv` and `Int.tmod`.
  In `RingBuffer.Write` and `RingBuffer.Read` the product
  `len * channel_count_` is the mathematical one: they are the methods on the
  calls whose product fits an `int`, as it does for every frame count up to
  the capacity. `RingBuffer.Write32` and `RingBuffer.Read32` are the methods
  for every `int` frame count: there the product keeps its low 32 bits.
* A pointer to an array is a `List`; `a[i]` is `a.getD i default` for a read
  and `a.set i v` for a store; `p + k` on a pointer is `List.drop k`.
* The elements of `new T[n]` are `n` default values (0 for samples); nothing
  proved here depends on what they are, except where a theorem shows them
  being read.
* Samples of type `int16_t` are `Int`; a store of an `int` into an `int16_t`
  goes through `toInt16`.
* A loop `for (int i = 0; i < n; i++)` runs `n.toNat` times; it is a function
  recursive on the number of remaining iterations, or a fold over
  `List.range n.toNat`.
* A call of `exit(code)` is `Except.error (Abort.exit code)`.
-/

set_option linter.unusedSectionVars false
set_option linter.unusedVariables false

namespace tts_service

/-! ## ringbuffer.h -/

/-- The fields of `RingBuffer<T>` (the mutex is left out: every method holds it
for its whole body, so each method is one atomic step). -/
structure RingBuffer (T : Type) where
  buffer_ : List T
  finished_ : Bool
  capacity_ : Int
  frame_capacity_ : Int
  channel_count_ : Int
  read_pos_ : Int
  write_pos_ : Int
deriving DecidableEq

namespace RingBuffer

variable {T : Type} [Inhabited T]

/-- Embeds `RingBuffer<T>::Reset`. -/
def Reset (rb : RingBuffer T) : RingBuffer T :=
  { rb with finished_ := false, read_pos_ := -1, write_pos_ := 0 }

/-- The constructor `RingBuffer<T>::RingBuffer(threading, frame_capacity,
channel_count)`: allocates `capacity_` elements and calls `Reset`. -/
def new (frame_capacity channel_count : Int) : RingBuffer T :=
  Reset
    { buffer_ := List.replicate (frame_capacity * channel_count).toNat default
      finished_ := false
      capacity_ := frame_capacity * channel_count
      frame_capacity_ := frame_capacity
      channel_count_ := channel_count
      read_pos_ := 0
      write_pos_ := 0 }

/-- Embeds `GetFrameCapacity`. -/
def GetFrameCapacity (rb : RingBuffer T) : Int := rb.frame_capacity_

/-- Embeds `GetChannelCount`. -/
def GetChannelCount (rb : RingBuffer T) : Int := rb.channel_count_

/-- The number of free samples as `WriteAvail` and `Write` compute it
(`avail` just before the division by `channel_count_`). -/
def writeAvailSamples (rb : RingBuffer T) : Int :=
  let avail := if rb.read_pos_ ≠ -1 then rb.read_pos_ - rb.write_pos_ else rb.capacity_
  if avail < 0 then avail + rb.capacity_ else avail

/-- Embeds `RingBuffer<T>::WriteAvail`. -/
def WriteAvail (rb : RingBuffer T) : Int :=
  Int.tdiv (writeAvailSamples rb) rb.channel_count_

/-- The copy loop of `Write`: `n` iterations left, `i` the loop index. -/
def writeLoop (capacity_ : Int) (data : List T) :
    Nat → Nat → List T → Int → List T × Int
  | 0, _, buffer_, write_pos_ => (buffer_, write_pos_)
  | n + 1, i, buffer_, write_pos_ =>
    writeLoop capacity_ data n (i + 1)
      (buffer_.set write_pos_.toNat (data.getD i default))
      (Int.tmod (write_pos_ + 1) capacity_)

/-- Embeds `RingBuffer<T>::Write(data, len)`: the returned flag and the buffer after
the call. -/
def Write (rb : RingBuffer T) (data : List T) (len : Int) : Bool × RingBuffer T :=
  if rb.finished_ then (false, rb)
  else
    let len := len * rb.channel_count_
    if len > writeAvailSamples rb then (false, rb)
    else
      let read_pos := if rb.read_pos_ = -1 then rb.write_pos_ else rb.read_pos_
      let r := writeLoop rb.capacity_ data len.toNat 0 rb.buffer_ rb.write_pos_
      (true, { rb with read_pos_ := read_pos, buffer_ := r.1, write_pos_ := r.2 })

/-- Embeds `RingBuffer<T>::MarkFinished`. -/
def MarkFinished (rb : RingBuffer T) : RingBuffer T :=
  { rb with finished_ := true }

/-- The number of stored samples as `Read` computes it (`avail` before the
comparison with `len`). -/
def readAvailSamples (rb : RingBuffer T) : Int :=
  if rb.read_pos_ = -1 then 0
  else
    let avail := rb.write_pos_ - rb.read_pos_
    if avail ≤ 0 then avail + rb.capacity_ else avail

/-- Embeds `RingBuffer<T>::ReadAvail`. -/
def ReadAvail (rb : RingBuffer T) : Int :=
  if rb.read_pos_ = -1 then 0
  else
    let avail := rb.write_pos_ - rb.read_pos_
    let avail := if avail ≤ 0 then avail + rb.capacity_ else avail
    Int.tdiv avail rb.channel_count_

/-- The copy loop of `Read`: `n` iterations left, `i` the loop index, `data`
the caller's array. -/
def readLoop (capacity_ : Int) (buffer_ : List T) :
    Nat → Nat → List T → Int → List T × Int
  | 0, _, data, read_pos_ => (data, read_pos_)
  | n + 1, i, data, read_pos_ =>
    readLoop capacity_ buffer_ n (i + 1)
      (data.set i (buffer_.getD read_pos_.toNat default))
      (Int.tmod (read_pos_ + 1) capacity_)

/-- Embeds `RingBuffer<T>::Read(data, len)`: the returned flag, the buffer after the
call and the caller's array after the call. -/
def Read (rb : RingBuffer T) (data : List T) (len : Int) :
    Bool × RingBuffer T × List T :=
  let len := len * rb.channel_count_
  if len > readAvailSamples rb then (false, rb, data)
  else
    let r := readLoop rb.capacity_ rb.buffer_ len.toNat 0 data rb.read_pos_
    let read_pos := if r.2 = rb.write_pos_ then -1 else r.2
    (true, { rb with read_pos_ := read_pos }, r.1)

/-- Embeds `RingBuffer<T>::IsFinished`. -/
def IsFinished (rb : RingBuffer T) : Bool := rb.finished_

/-- The value that `len *= channel_count_` leaves in the `int` variable `len`:
the low 32 bits of the product, read as a signed number (C++ leaves the
overflow of a signed product undefined; this is what the compiled code
computes). -/
def mulInt (a b : Int) : Int := (a * b + 2147483648) % 4294967296 - 2147483648

/-- Embeds `RingBuffer<T>::Write(data, len)` for every `int` argument `len`: the
statements of `Write`, with the product of `len *= channel_count_` kept in an
`int`. It is `Write` for every call whose product fits an `int`. -/
def Write32 (rb : RingBuffer T) (data : List T) (len : Int) : Bool × RingBuffer T :=
  if rb.finished_ then (false, rb)
  else
    let len := mulInt len rb.channel_count_
    if len > writeAvailSamples rb then (false, rb)
    else
      let read_pos := if rb.read_pos_ = -1 then rb.write_pos_ else rb.read_pos_
      let r := writeLoop rb.capacity_ data len.toNat 0 rb.buffer_ rb.write_pos_
      (true, { rb with read_pos_ := read_pos, buffer_ := r.1, write_pos_ := r.2 })

/-- Embeds `RingBuffer<T>::Read(data, len)` for every `int` argument `len`: the
statements of `Read`, with the product of `len *= channel_count_` kept in an
`int`. It is `Read` for every call whose product fits an `int`. -/
def Read32 (rb : RingBuffer T) (data : List T) (len : Int) :
    Bool × RingBuffer T × List T :=
  let len := mulInt len rb.channel_count_
  if len > readAvailSamples rb then (false, rb, data)
  else
    let r := readLoop rb.capacity_ rb.buffer_ len.toNat 0 data rb.read_pos_
    let read_pos := if r.2 = rb.write_pos_ then -1 else r.2
    (true, { rb with read_pos_ := read_pos }, r.1)

/-! ### Calls, call sequences and the stored samples -/

/-- One call on a ring buffer, with its arguments (`data` is the caller's
array, `len` the frame count). -/
inductive Op (T : Type) where
  | write (data : List T) (len : Int)
  | read (data : List T) (len : Int)
  | markFinished
  | reset

/-- The buffer after one call. -/
def step (rb : RingBuffer T) : Op T → RingBuffer T
  | .write data len => (Write rb data len).2
  | .read data len => (Read rb data len).2.1
  | .markFinished => MarkFinished rb
  | .reset => Reset rb

/-- The buffer after a sequence of calls. -/
def run (rb : RingBuffer T) (ops : List (Op T)) : RingBuffer T :=
  ops.foldl step rb

/-- The call is a `Write` or a `Read`. -/
def Op.isWriteOrRead : Op T → Bool
  | .write _ _ => true
  | .read _ _ => true
  | _ => false

/-- The call is not a `Reset`. -/
def Op.isNotReset : Op T → Bool
  | .reset => false
  | _ => true

/-- The `j`-th oldest stored sample: the element `j` places after `read_pos_`,
counted around the end of the array. -/
def sampleAt (rb : RingBuffer T) (j : Nat) : T :=
  rb.buffer_.getD ((rb.read_pos_ + (j : Int)) % rb.capacity_).toNat default

/-- The stored samples, oldest first. -/
def contents (rb : RingBuffer T) : List T :=
  (List.range (readAvailSamples rb).toNat).map (sampleAt rb)

/-- The positions of a buffer are those of a buffer of `frame_capacity_`
frames of `channel_count_` samples: the array has `capacity_` elements, the
positions are inside it and on frame boundaries, and `read_pos_` may be -1. -/
def WF (rb : RingBuffer T) : Prop :=
  0 < rb.channel_count_ ∧ 0 < rb.frame_capacity_ ∧
  rb.capacity_ = rb.frame_capacity_ * rb.channel_count_ ∧
  rb.buffer_.length = rb.capacity_.toNat ∧
  0 ≤ rb.write_pos_ ∧ rb.write_pos_ < rb.capacity_ ∧ rb.channel_count_ ∣ rb.write_pos_ ∧
  (rb.read_pos_ = -1 ∨
    (0 ≤ rb.read_pos_ ∧ rb.read_pos_ < rb.capacity_ ∧ rb.channel_count_ ∣ rb.read_pos_))

/-- A sequence of `Write` and `Read` calls of non-empty chunks in which every
`Write` passes exactly `len` frames with `len ≤ WriteAvail()` and every `Read`
asks for `len ≤ ReadAvail()` frames into an array of exactly `len` frames. -/
def Chunked (rb : RingBuffer T) : List (Op T) → Prop
  | [] => True
  | .write data len :: ops =>
    1 ≤ len ∧ len ≤ WriteAvail rb ∧ data.length = (len * rb.channel_count_).toNat ∧
      Chunked (Write rb data len).2 ops
  | .read data len :: ops =>
    1 ≤ len ∧ len ≤ ReadAvail rb ∧ data.length = (len * rb.channel_count_).toNat ∧
      Chunked (Read rb data len).2.1 ops
  | _ :: _ => False

/-- The samples passed to the `Write` calls of a sequence, in call order. -/
def written : List (Op T) → List T
  | [] => []
  | .write data _ :: ops => data ++ written ops
  | _ :: ops => written ops

/-- The arrays filled by the `Read` calls of a sequence run from `rb`, in call
order. -/
def readBack (rb : RingBuffer T) : List (Op T) → List T
  | [] => []
  | .read data len :: ops =>
    (Read rb data len).2.2 ++ readBack (Read rb data len).2.1 ops
  | op :: ops => readBack (step rb op) ops

/-- Every `Write` and `Read` call of a sequence run from `rb` returned true. -/
def allSucceed (rb : RingBuffer T) : List (Op T) → Bool
  | [] => true
  | .write data len :: ops =>
    (Write rb data len).1 && allSucceed (Write rb data len).2 ops
  | .read data len :: ops =>
    (Read rb data len).1 && allSucceed (Read rb data len).2.1 ops
  | op :: ops => allSucceed (step rb op) ops

end RingBuffer

/-! ## tts_receiver.h, resampler.cc, earcon_manager.cc -/

/-- The enum `tts_callback_status`. -/
inductive tts_callback_status where
  | TTS_CALLBACK_CONTINUE
  | TTS_CALLBACK_HALT
  | TTS_CALLBACK_ERROR
deriving DecidableEq

/-- The ways a call ends without returning to its caller: `exit(code)`, or the
iteration budget of a loop whose termination depends on outside code ran out. -/
inductive Abort where
  | exit (code : Int)
  | fuel
deriving DecidableEq

/-- The interface `TtsDataReceiver` over a receiver whose fields are `D`. -/
structure TtsDataReceiver (D : Type) where
  Receive : D → Int → Int → List Int → Int → Except Abort (D × tts_callback_status)
  Done : D → Except Abort (D × tts_callback_status)

/-- The store of an `int` into an `int16_t`: the value modulo 2^16, as a signed
number. -/
def toInt16 (v : Int) : Int := (v + 32768) % 65536 - 32768

/-- The two clipping statements `if (value > 32767) value = 32767;
if (value < -32768) value = -32768;`. -/
def clip (value : Int) : Int :=
  let value := if value > 32767 then 32767 else value
  if value < -32768 then -32768 else value

/-- The outside library libresample and the conversions between `int` and
`float`: `F` stands for `float`, `H` for the state behind the handle.
`resample_process handle factor inBuffer inBufferLen lastFlag outBuffer
outBufferLen` gives the new state, the returned count, `inBufferUsed` and the
output array. The factor `dest_rate * 1.0 / source_rate` is kept as the pair
`(dest_rate, source_rate)`. -/
structure Libresample (H F : Type) where
  ofInt16 : Int → F
  toInt : F → Int
  resample_open : Int → Int × Int → Int × Int → H
  resample_process : H → Int × Int → List F → Int → Int → List F → Int →
    H × Int × Int × List F

/-- The fields of `Resampler` (the destination is passed to the methods). -/
structure Resampler (H F : Type) where
  source_rate_ : Int
  dest_rate_ : Int
  factor_ : Int × Int
  buffer_size_ : Int
  resample_handle_ : H
  in_floats_ : List F
  out_floats_ : List F
  out_int16s_ : List Int

namespace Resampler

variable {H F D : Type}

/-- The constructor `Resampler::Resampler`. -/
def new (lib : Libresample H F) (source_rate dest_rate buffer_size : Int) :
    Resampler H F :=
  { source_rate_ := source_rate
    dest_rate_ := dest_rate
    factor_ := (dest_rate, source_rate)
    buffer_size_ := buffer_size
    resample_handle_ := lib.resample_open 0 (dest_rate, source_rate) (dest_rate, source_rate)
    in_floats_ := List.replicate buffer_size.toNat (lib.ofInt16 0)
    out_floats_ := List.replicate buffer_size.toNat (lib.ofInt16 0)
    out_int16s_ := List.replicate buffer_size.toNat 0 }

/-- Embeds `Resampler::ProcessInFloats`; the result carries the new `*input_index`. -/
def ProcessInFloats (lib : Libresample H F) (destination_ : TtsDataReceiver D)
    (r : Resampler H F) (d : D) (num_samples : Int) (final_padding : Bool)
    (input_index : Int) :
    Except Abort (Resampler H F × D × Int × tts_callback_status) :=
  if final_padding && num_samples != 0 then .error (.exit (-1))
  else
    let last_flag : Int := if final_padding then 1 else 0
    let p := lib.resample_process r.resample_handle_ r.factor_
      (r.in_floats_.drop input_index.toNat) (num_samples - input_index) last_flag
      r.out_floats_ r.buffer_size_
    let out_samples := p.2.1
    let in_buffer_used := p.2.2.1
    let out_floats := p.2.2.2
    let out_int16s := (List.range out_samples.toNat).foldl
      (fun o i => o.set i (toInt16 (clip (lib.toInt (out_floats.getD i (lib.ofInt16 0))))))
      r.out_int16s_
    match destination_.Receive d r.dest_rate_ 1 out_int16s out_samples with
    | .error e => .error e
    | .ok (d, callback_status) =>
      .ok ({ r with resample_handle_ := p.1, out_floats_ := out_floats,
                    out_int16s_ := out_int16s },
           d, input_index + in_buffer_used, callback_status)

/-- The `while (input_index < num_samples_to_process)` loop of `ProcessBuffer`. -/
def processBufferLoop (lib : Libresample H F) (destination_ : TtsDataReceiver D)
    (num_samples_to_process : Int) :
    Nat → Resampler H F → D → Int → Except Abort (Resampler H F × D × tts_callback_status)
  | 0, r, d, input_index =>
    if input_index < num_samples_to_process then .error .fuel
    else .ok (r, d, .TTS_CALLBACK_CONTINUE)
  | fuel + 1, r, d, input_index =>
    if input_index < num_samples_to_process then
      match ProcessInFloats lib destination_ r d num_samples_to_process false input_index with
      | .error e => .error e
      | .ok (r, d, input_index, callback_status) =>
        if callback_status ≠ .TTS_CALLBACK_CONTINUE then .ok (r, d, callback_status)
        else processBufferLoop lib destination_ num_samples_to_process fuel r d input_index
    else .ok (r, d, .TTS_CALLBACK_CONTINUE)

/-- Embeds `Resampler::ProcessBuffer`. -/
def ProcessBuffer (lib : Libresample H F) (destination_ : TtsDataReceiver D)
    (fuel : Nat) (r : Resampler H F) (d : D) (data : List Int)
    (num_samples_to_process : Int) :
    Except Abort (Resampler H F × D × tts_callback_status) :=
  let in_floats := (List.range num_samples_to_process.toNat).foldl
    (fun a i => a.set i (lib.ofInt16 (data.getD i 0))) r.in_floats_
  processBufferLoop lib destination_ num_samples_to_process fuel
    { r with in_floats_ := in_floats } d 0

/-- The `for (;;)` loop of `Resampler::Receive`; `input_pointer` is what is left
of the input. -/
def receiveLoop (lib : Libresample H F) (destination_ : TtsDataReceiver D) (fuel : Nat) :
    Nat → Resampler H F → D → List Int → Int →
      Except Abort (Resampler H F × D × tts_callback_status)
  | 0, r, d, _, num_samples_remaining =>
    let num_samples_to_process :=
      if num_samples_remaining > r.buffer_size_ then r.buffer_size_ else num_samples_remaining
    if num_samples_to_process = 0 then .ok (r, d, .TTS_CALLBACK_CONTINUE) else .error .fuel
  | n + 1, r, d, input_pointer, num_samples_remaining =>
    let num_samples_to_process :=
      if num_samples_remaining > r.buffer_size_ then r.buffer_size_ else num_samples_remaining
    if num_samples_to_process = 0 then .ok (r, d, .TTS_CALLBACK_CONTINUE)
    else
      match ProcessBuffer lib destination_ fuel r d input_pointer num_samples_to_process with
      | .error e => .error e
      | .ok (r, d, callback_status) =>
        if callback_status ≠ .TTS_CALLBACK_CONTINUE then .ok (r, d, callback_status)
        else receiveLoop lib destination_ fuel n r d
          (input_pointer.drop num_samples_to_process.toNat)
          (num_samples_remaining - num_samples_to_process)

/-- Embeds `Resampler::Receive`. Both loops get the iteration budget `fuel`. -/
def Receive (lib : Libresample H F) (destination_ : TtsDataReceiver D) (fuel : Nat)
    (r : Resampler H F) (d : D) (rate num_channels : Int) (data : List Int)
    (num_samples : Int) : Except Abort (Resampler H F × D × tts_callback_status) :=
  if num_channels ≠ 1 then .error (.exit (-1))
  else if rate ≠ r.source_rate_ then .error (.exit (-1))
  else receiveLoop lib destination_ fuel fuel r d data num_samples

/-- Embeds `Resampler::Done`. -/
def Done (lib : Libresample H F) (destination_ : TtsDataReceiver D)
    (r : Resampler H F) (d : D) : Except Abort (Resampler H F × D × tts_callback_status) :=
  match ProcessInFloats lib destination_ r d 0 true 0 with
  | .error e => .error e
  | .ok (r, d, _, callback_status) =>
    if callback_status ≠ .TTS_CALLBACK_CONTINUE then .ok (r, d, callback_status)
    else
      match destination_.Done d with
      | .error e => .error e
      | .ok (d, callback_status) => .ok (r, d, callback_status)

end Resampler

/-- The struct `Earcon`. -/
structure Earcon where
  frame_count : Int
  data : List Int
  is_playing : Bool
  position : Int
  loop : Bool
deriving DecidableEq

/-- The fields of `EarconManager`. -/
structure EarconManager where
  earcons_ : List Earcon
  rate_ : Int
  channels_ : Int
deriving DecidableEq

namespace EarconReceiver

/-- Embeds `EarconReceiver::Receive`; the receiver's only field is the earcon it
fills. -/
def Receive (earcon_ : Earcon) (_rate num_channels : Int) (data : List Int)
    (num_samples : Int) : Earcon × tts_callback_status :=
  let count :=
    if num_samples > earcon_.frame_count - earcon_.position then
      earcon_.frame_count - earcon_.position
    else num_samples
  let stored := (List.range (count * num_channels).toNat).foldl
    (fun a i => a.set (num_channels * earcon_.position + i).toNat (data.getD i 0))
    earcon_.data
  let position := earcon_.position + num_samples
  ({ earcon_ with data := stored, position := position },
   if position = earcon_.frame_count then .TTS_CALLBACK_HALT else .TTS_CALLBACK_CONTINUE)

/-- Embeds `EarconReceiver::Done`. -/
def Done (earcon_ : Earcon) : Earcon × tts_callback_status :=
  (earcon_, .TTS_CALLBACK_HALT)

/-- The class `EarconReceiver` as a `TtsDataReceiver`. -/
def receiver : TtsDataReceiver Earcon :=
  { Receive := fun e rate num_channels data num_samples =>
      .ok (Receive e rate num_channels data num_samples)
    Done := fun e => .ok (Done e) }

end EarconReceiver

namespace EarconManager

/-- The constructor `EarconManager::EarconManager`. -/
def new (output_frame_rate output_channels : Int) : EarconManager :=
  { earcons_ := [], rate_ := output_frame_rate, channels_ := output_channels }

/-- The channel conversion of `LoadEarcon` (the array `new_data`, or
`exit(0)`). -/
def convertChannels (channels_ frame_count : Int) (data : List Int)
    (source_channels : Int) : Except Abort (List Int) :=
  let new_data := List.replicate (frame_count * channels_).toNat (0 : Int)
  if source_channels = 1 ∧ channels_ = 2 then
    .ok ((List.range frame_count.toNat).foldl
      (fun a i => (a.set (2 * i) (data.getD i 0)).set (2 * i + 1) (data.getD i 0)) new_data)
  else if source_channels = 2 ∧ channels_ = 1 then
    .ok ((List.range frame_count.toNat).foldl
      (fun a i => a.set i
        (toInt16 (Int.tdiv (data.getD (2 * i) 0 + data.getD (2 * i + 1) 0) 2))) new_data)
  else if source_channels = channels_ then
    .ok ((List.range (frame_count * channels_).toNat).foldl
      (fun a i => a.set i (data.getD i 0)) new_data)
  else .error (.exit 0)

/-- Embeds `EarconManager::LoadEarcon`: the returned id and the manager after the
call. The new earcon is the last element of `earcons_`. -/
def LoadEarcon {H F : Type} (lib : Libresample H F) (fuel : Nat) (m : EarconManager)
    (frame_count : Int) (data : List Int) (source_channels source_rate : Int)
    (loop : Bool) : Except Abort (Int × EarconManager) :=
  let earcon_id : Int := m.earcons_.length
  match convertChannels m.channels_ frame_count data source_channels with
  | .error e => .error e
  | .ok new_data =>
    let earcon : Earcon :=
      { frame_count := 0, data := [], is_playing := false, position := 0, loop := loop }
    if source_rate = m.rate_ then
      let earcon := { earcon with frame_count := frame_count, data := new_data }
      .ok (earcon_id, { m with earcons_ := m.earcons_ ++ [earcon] })
    else
      let new_size := Int.tdiv (frame_count * m.rate_) source_rate
      let earcon := { earcon with
        frame_count := new_size
        data := List.replicate (new_size * m.channels_).toNat (0 : Int) }
      let resampler := Resampler.new lib source_rate m.rate_ new_size
      match Resampler.Receive lib EarconReceiver.receiver fuel resampler earcon
          source_rate m.channels_ data frame_count with
      | .error e => .error e
      | .ok (resampler, earcon, _) =>
        match Resampler.Done lib EarconReceiver.receiver resampler earcon with
        | .error e => .error e
        | .ok (_, earcon, _) =>
          let earcon := { earcon with frame_count := earcon.position, position := 0 }
          .ok (earcon_id, { m with earcons_ := m.earcons_ ++ [earcon] })

/-- Embeds `EarconManager::Play`. -/
def Play (m : EarconManager) (earcon_id : Int) : EarconManager :=
  let earcons := m.earcons_.modify
    (fun e => { e with is_playing := true, position := 0 }) earcon_id.toNat
  { m with earcons_ := earcons }

/-- Embeds `EarconManager::Stop`. -/
def Stop (m : EarconManager) (earcon_id : Int) : EarconManager :=
  let earcons := m.earcons_.modify (fun e => { e with is_playing := false }) earcon_id.toNat
  { m with earcons_ := earcons }

/-- Embeds `EarconManager::StopAll`. -/
def StopAll (m : EarconManager) : EarconManager :=
  { m with earcons_ := m.earcons_.map (fun e => { e with is_playing := false }) }

/-- Embeds `EarconManager::IsPlaying`. -/
def IsPlaying (m : EarconManager) (earcon_id : Int) : Bool :=
  match m.earcons_.get? earcon_id.toNat with
  | some e => e.is_playing
  | none => false

/-- Embeds `EarconManager::IsAnythingPlaying`. -/
def IsAnythingPlaying (m : EarconManager) : Bool :=
  m.earcons_.any (fun e => e.is_playing)

/-- The body of the loop over the earcons in `FillAudioBuffer`, for one
earcon: the earcon and the caller's array afterwards. -/
def fillOne (channels_ frame_count : Int) (e : Earcon) (data : List Int) :
    Earcon × List Int :=
  if !e.is_playing then (e, data)
  else
    let count :=
      if frame_count > e.frame_count - e.position then e.frame_count - e.position
      else frame_count
    let mixed := (List.range (count * channels_).toNat).foldl
      (fun d j => d.set j
        (toInt16 (clip (d.getD j 0 + e.data.getD (channels_ * e.position + j).toNat 0))))
      data
    let position := e.position + count
    ({ e with position := position,
              is_playing := if position = e.frame_count then false else e.is_playing },
     mixed)

/-- The loop over `earcons_` in `FillAudioBuffer`, in index order. -/
def fillLoop (channels_ frame_count : Int) : List Earcon → List Int → List Earcon × List Int
  | [], data => ([], data)
  | e :: es, data =>
    let r := fillOne channels_ frame_count e data
    let rest := fillLoop channels_ frame_count es r.2
    (r.1 :: rest.1, rest.2)

/-- Embeds `EarconManager::FillAudioBuffer`: the manager and the caller's array after
the call, or `exit(-1)`. -/
def FillAudioBuffer (m : EarconManager) (data : List Int) (frame_count channel_count : Int) :
    Except Abort (EarconManager × List Int) :=
  if channel_count ≠ m.channels_ then .error (.exit (-1))
  else
    let r := fillLoop m.channels_ frame_count m.earcons_ data
    .ok ({ m with earcons_ := r.1 }, r.2)

/-! ### The mix as the specification words it -/

/-- A sample fits an `int16_t`. -/
def IsInt16 (v : Int) : Prop := -32768 ≤ v ∧ v ≤ 32767

/-- The specification's account of what one clip does to the caller's array in
a call for `n` frames: a playing clip at position `p` with `F` frames has its
samples from frame `p` on added, with saturation, into the first
`k = min (F - p) n` frames; the samples from frame `k` on, and every sample
when the clip is not playing, stay as they are. -/
def mixedWith (channels n : Int) (buf : List Int) (e : Earcon) : List Int :=
  if e.is_playing then
    (List.range buf.length).map (fun j : Nat =>
      if (j : Int) < min (e.frame_count - e.position) n * channels then
        max (-32768) (min 32767
          (buf.getD j 0 + e.data.getD (channels * e.position + (j : Int)).toNat 0))
      else buf.getD j 0)
  else buf

/-- The specification's account of what a call for `n` frames does to one
clip: a playing clip at position `p` with `F` frames moves to
`p + k`, `k = min (F - p) n`, and stays playing exactly when `p + k < F`; a
clip that is not playing stays as it is. -/
def advanced (n : Int) (e : Earcon) : Earcon :=
  if e.is_playing then
    { e with
      position := e.position + min (e.frame_count - e.position) n
      is_playing := decide (e.position + min (e.frame_count - e.position) n < e.frame_count) }
  else e

/-! ### Concrete clips and managers for the checks at concrete inputs -/

/-- A mono clip of three frames, playing from its start. -/
def clipA : Earcon :=
  { frame_count := 3, data := [30000, -30000, 5], is_playing := true, position := 0,
    loop := false }

/-- A mono clip of four frames, playing from its second frame. -/
def clipB : Earcon :=
  { frame_count := 4, data := [1, 30000, -30000, 7], is_playing := true, position := 1,
    loop := false }

/-- A stereo manager with a playing clip that has one frame left, a clip that
is not playing, and a playing clip with three frames left. -/
def mixer3 : EarconManager :=
  { earcons_ :=
      [{ frame_count := 2, data := [1, 2, 3, 4], is_playing := true, position := 1,
         loop := false },
       { frame_count := 1, data := [50, 60], is_playing := false, position := 0,
         loop := false },
       { frame_count := 3, data := [10, 20, 30, 40, 50, 60], is_playing := true,
         position := 0, loop := true }],
    rate_ := 16000, channels_ := 2 }

end EarconManager

/-! ## tts_engine.h, tts_engine.cc -/

/-- The enum `tts_gender`. -/
inductive tts_gender where
  | TTS_UNSPECIFIED_GENDER
  | TTS_MALE
  | TTS_FEMALE
deriving DecidableEq

/-- The enum `tts_quality`. -/
inductive tts_quality where
  | TTS_UNSPECIFIED_QUALITY
  | TTS_EXPERIMENTAL_QUALITY
  | TTS_LOW_QUALITY
  | TTS_NORMAL_QUALITY
  | TTS_HIGH_QUALITY
deriving DecidableEq

/-- The struct `TtsVoice`. -/
structure TtsVoice where
  name : String
  language : String
  engine : String
  sample_rate : Int
  quality : tts_quality
  region : String
  gender : tts_gender
  age : Int
deriving DecidableEq

/-- The characters of `s.c_str()`: those before the first NUL. -/
def c_str (s : String) : List Char :=
  s.toList.takeWhile (fun c => c ≠ Char.ofNat 0)

/-- The test `strcasecmp(a.c_str(), b.c_str()) == 0` in the C locale: the two
C strings are equal once `A`..`Z` are turned into lower case. -/
def strcasecmpEq (a b : String) : Bool :=
  (c_str a).map Char.toLower = (c_str b).map Char.toLower

/-- What `TtsEngine::GetVoiceIndex` uses of an engine: its voices, voice `i`
being `*GetVoiceInfo(i)` for `0 ≤ i < GetVoiceCount()`. -/
structure TtsEngine where
  voices : List TtsVoice

namespace TtsEngine

/-- Embeds `TtsEngine::GetVoiceCount`. -/
def GetVoiceCount (e : TtsEngine) : Int := e.voices.length

/-- Embeds `TtsEngine::VoiceMatches`. -/
def VoiceMatches (voice pattern : TtsVoice) : Bool :=
  (pattern.name.isEmpty || strcasecmpEq voice.name pattern.name)
  && (pattern.language.isEmpty || strcasecmpEq voice.language pattern.language)
  && (pattern.engine.isEmpty || strcasecmpEq voice.engine pattern.engine)
  && (pattern.sample_rate == 0 || voice.sample_rate == pattern.sample_rate)
  && (pattern.quality == .TTS_UNSPECIFIED_QUALITY || voice.quality == pattern.quality)
  && (pattern.region.isEmpty || strcasecmpEq voice.region pattern.region)
  && (pattern.gender == .TTS_UNSPECIFIED_GENDER || voice.gender == pattern.gender)
  && (pattern.age == 0 || voice.age == pattern.age)

/-- The loop of `GetVoiceIndex` from index `i` on, `voices` being the voices
`i`, `i + 1`, ... -/
def voiceIndexFrom (voice_options : TtsVoice) : List TtsVoice → Int → Int
  | [], _ => -1
  | voice :: voices, i =>
    if VoiceMatches voice voice_options then i
    else voiceIndexFrom voice_options voices (i + 1)

/-- Embeds `TtsEngine::GetVoiceIndex`. -/
def GetVoiceIndex (e : TtsEngine) (voice_options : TtsVoice) : Int :=
  voiceIndexFrom voice_options e.voices 0

end TtsEngine

/-! ## audio_output.h, tts_service.h, tts_service.cc -/

/-- The enum `tts_status`. -/
inductive tts_status where
  | TTS_IDLE
  | TTS_BUSY
  | TTS_ERROR
deriving DecidableEq

/-- The struct `UtteranceOptions`. A `Runnable*` is the identity of the
callback object, `none` for `NULL`; `voice_options` is `none` for `NULL`. -/
structure UtteranceOptions where
  completion : Option Nat
  voice_options : Option TtsVoice
  rate : Float
  pitch : Float
  volume : Float

/-- The copy constructor `UtteranceOptions(const UtteranceOptions&)`. -/
def UtteranceOptions.copy (options : UtteranceOptions) : UtteranceOptions :=
  { completion := options.completion
    voice_options :=
      match options.voice_options with
      | some voice => some voice
      | none => none
    rate := options.rate
    pitch := options.pitch
    volume := options.volume }

/-- The class `Utterance`. -/
structure Utterance where
  text : String
  voice_index : Int
  options : Option UtteranceOptions

/-- What the getters of the interface `AudioOutput` return. -/
structure AudioOutput where
  sample_rate : Int
  channel_count : Int
  chunk_size_in_frames : Int
  total_buffer_size_in_frames : Int
deriving DecidableEq

/-- The fields of `TtsService`. The mutex is left out, every method being one
step; `signals_` counts the calls of `cond_var_->Signal()`. The two objects
behind `ring_buffer_` and `earcon_manager_` exist from `StartService` on;
before, the fields hold placeholders that no method reads while the service
is not running. -/
structure TtsService where
  engine_ : TtsEngine
  audio_output_ : AudioOutput
  ring_buffer_ : RingBuffer Int
  current_utterance_ : Option Utterance
  earcon_manager_ : EarconManager
  audio_buffer_size_ : Int
  stop_when_finished_ : Bool
  utterances_ : List Utterance
  service_running_ : Bool
  utterance_running_ : Bool
  signals_ : Nat

namespace TtsService

/-- The constructor `TtsService::TtsService`. -/
def new (engine : TtsEngine) (audio_output : AudioOutput) : TtsService :=
  { engine_ := engine
    audio_output_ := audio_output
    ring_buffer_ := RingBuffer.new 0 0
    current_utterance_ := none
    earcon_manager_ := EarconManager.new 0 0
    audio_buffer_size_ := 0
    stop_when_finished_ := false
    utterances_ := []
    service_running_ := false
    utterance_running_ := false
    signals_ := 0 }

/-- Embeds `TtsService::StartService`; `audio_init` is whether `audio_output_->Init`
succeeded, `engine_init` whether `engine_->Init()` returned `TTS_SUCCESS`. -/
def StartService (audio_init engine_init : Bool) (s : TtsService) : Bool × TtsService :=
  if !audio_init then (false, s)
  else
    let s := { s with
      audio_buffer_size_ := s.audio_output_.chunk_size_in_frames
      ring_buffer_ := RingBuffer.new s.audio_output_.total_buffer_size_in_frames
        s.audio_output_.channel_count }
    if !engine_init then (false, s)
    else
      (true, { s with
        earcon_manager_ :=
          EarconManager.new s.audio_output_.sample_rate s.audio_output_.channel_count
        service_running_ := true })

/-- Embeds `TtsService::Speak`; `options` is `none` for `NULL`. The result is `none`
when the call dereferences the null pointer. -/
def Speak (s : TtsService) (text : String) (options : Option UtteranceOptions) :
    Option TtsService :=
  if !s.service_running_ then some s
  else
    let voice_index : Int :=
      match options with
      | none => 0
      | some o =>
        match o.voice_options with
        | none => 0
        | some voice_options =>
          if s.engine_.GetVoiceIndex voice_options = -1 then 0
          else s.engine_.GetVoiceIndex voice_options
    match options with
    | none => none
    | some o =>
      let utterance : Utterance :=
        { text := text, voice_index := voice_index, options := some o.copy }
      some { s with utterances_ := s.utterances_ ++ [utterance], signals_ := s.signals_ + 1 }

/-- The loop `while (!utterances_.empty()) { delete utterances_.front();
utterances_.pop_front(); }`. -/
def discardAll : List Utterance → List Utterance
  | [] => []
  | _ :: utterances => discardAll utterances

/-- Embeds `TtsService::Stop`. -/
def Stop (s : TtsService) : TtsService :=
  if !s.service_running_ then s
  else
    { s with
      ring_buffer_ := s.ring_buffer_.Reset
      utterances_ := discardAll s.utterances_
      utterance_running_ := false
      signals_ := s.signals_ + 1 }

/-- Embeds `TtsService::PlayEarcon`. -/
def PlayEarcon (s : TtsService) (earcon_id : Int) : TtsService :=
  { s with earcon_manager_ := s.earcon_manager_.Play earcon_id }

/-- Embeds `TtsService::StopEarcon`. -/
def StopEarcon (s : TtsService) (earcon_id : Int) : TtsService :=
  { s with earcon_manager_ := s.earcon_manager_.Stop earcon_id }

/-- Embeds `TtsService::StopAllEarcons`. -/
def StopAllEarcons (s : TtsService) : TtsService :=
  { s with earcon_manager_ := s.earcon_manager_.StopAll }

/-- Embeds `TtsService::GetStatus`: the returned status and the service after the
call. -/
def GetStatus (s : TtsService) : tts_status × TtsService :=
  if !s.service_running_ then (.TTS_ERROR, s)
  else if s.utterances_.isEmpty && !s.utterance_running_ then (.TTS_IDLE, s)
  else (.TTS_BUSY, s)

/-- Embeds `TtsService::SetStopWhenFinished`. -/
def SetStopWhenFinished (s : TtsService) (stop_when_finished : Bool) : TtsService :=
  { s with stop_when_finished_ := stop_when_finished }

/-- The channel conversion of `Receive` for mono input: the two nested loops
that store `data[i]` at `output_data[output_index++]` once for every output
channel. The state is `(output_data, output_index)`. -/
def duplicateChannels (data : List Int) (num_frames output_num_channels : Int) : List Int :=
  ((List.range num_frames.toNat).foldl
    (fun (st : List Int × Nat) i =>
      (List.range output_num_channels.toNat).foldl
        (fun (st : List Int × Nat) _ => (st.1.set st.2 (data.getD i 0), st.2 + 1)) st)
    (List.replicate (num_frames * output_num_channels).toNat (0 : Int), 0)).1

/-- The loop `while (ring_buffer_->WriteAvail() < num_frames)` of `Receive`.
What the other threads do to the service while this one waits on the condition
variable is the function `wait`. The result is the service after the loop and
whether the loop returned `TTS_CALLBACK_HALT`. -/
def waitForRoom (wait : TtsService → TtsService) (num_frames : Int) :
    Nat → TtsService → Except Abort (Bool × TtsService)
  | 0, s =>
    if s.ring_buffer_.WriteAvail < num_frames then .error .fuel else .ok (false, s)
  | fuel + 1, s =>
    if s.ring_buffer_.WriteAvail < num_frames then
      let s := wait s
      if s.service_running_ == false || s.utterance_running_ == false then .ok (true, s)
      else waitForRoom wait num_frames fuel s
    else .ok (false, s)

/-- Embeds `TtsService::Receive`: the returned status and the service after the
call. -/
def Receive (wait : TtsService → TtsService) (fuel : Nat) (s : TtsService)
    (_rate num_channels : Int) (data : List Int) (num_frames : Int) :
    Except Abort (tts_callback_status × TtsService) :=
  if s.service_running_ == false || s.utterance_running_ == false then
    .ok (.TTS_CALLBACK_HALT, s)
  else if num_frames = 0 then .ok (.TTS_CALLBACK_CONTINUE, s)
  else
    let output_num_channels := s.audio_output_.channel_count
    if output_num_channels ≠ s.ring_buffer_.GetChannelCount then .error (.exit (-1))
    else
      let converted : Except Abort (Option (List Int)) :=
        if num_channels ≠ output_num_channels then
          if num_channels = 1 ∧ output_num_channels > 1 then
            .ok (some (duplicateChannels data num_frames output_num_channels))
          else .error (.exit 1)
        else .ok none
      match converted with
      | .error e => .error e
      | .ok output_data =>
        match waitForRoom wait num_frames fuel s with
        | .error e => .error e
        | .ok (true, s) => .ok (.TTS_CALLBACK_HALT, s)
        | .ok (false, s) =>
          let r :=
            match output_data with
            | some output_data => s.ring_buffer_.Write output_data num_frames
            | none => s.ring_buffer_.Write data num_frames
          if !r.1 then .error (.exit 0)
          else .ok (.TTS_CALLBACK_CONTINUE, { s with ring_buffer_ := r.2 })

/-- Embeds `TtsService::Done`. -/
def Done (s : TtsService) : tts_callback_status × TtsService :=
  (.TTS_CALLBACK_HALT, { s with current_utterance_ := none })

/-- The value of `copy_len` in `FillAudioBuffer`. -/
def copy_len (s : TtsService) (frame_count : Int) : Int :=
  let avail := s.ring_buffer_.ReadAvail
  if s.ring_buffer_.IsFinished then
    if avail < frame_count then avail else frame_count
  else
    if avail ≥ frame_count then frame_count else 0

/-- The first part of `FillAudioBuffer`, up to the call of the earcon manager:
`copy_len` frames are read from the ring buffer into `samples` and the rest of
the request is set to 0. The result is the ring buffer and `samples`
afterwards. -/
def drain (s : TtsService) (samples : List Int) (frame_count channel_count : Int) :
    RingBuffer Int × List Int :=
  let copy_len := copy_len s frame_count
  let r := s.ring_buffer_.Read samples copy_len
  let samples := (List.range (frame_count * channel_count - copy_len * channel_count).toNat).foldl
    (fun a k => a.set (copy_len * channel_count + (k : Int)).toNat 0) r.2.2
  (r.2.1, samples)

/-- Embeds `TtsService::FillAudioBuffer`: the returned flag, the service and the
caller's array after the call. -/
def FillAudioBuffer (s : TtsService) (samples : List Int) (frame_count channel_count : Int) :
    Except Abort (Bool × TtsService × List Int) :=
  let d := drain s samples frame_count channel_count
  match s.earcon_manager_.FillAudioBuffer d.2 frame_count channel_count with
  | .error e => .error e
  | .ok (earcon_manager, samples) =>
    let s := { s with ring_buffer_ := d.1, earcon_manager_ := earcon_manager }
    if s.stop_when_finished_ then
      .ok (!s.ring_buffer_.IsFinished || s.earcon_manager_.IsAnythingPlaying, s, samples)
    else .ok (true, s, samples)

/-- What `StartService` establishes and every method keeps: the ring buffer is
a well-formed buffer that is not marked finished (no method of the service
calls `MarkFinished`), and the ring buffer and the earcon manager have the
channel count of the audio output. -/
def Started (s : TtsService) : Prop :=
  s.ring_buffer_.WF ∧ s.ring_buffer_.finished_ = false ∧
  s.ring_buffer_.channel_count_ = s.audio_output_.channel_count ∧
  s.earcon_manager_.channels_ = s.audio_output_.channel_count

/-! ### Concrete services for the checks at concrete inputs -/

/-- A started service on a mono audio output with room for four frames, with
no voices and no earcons. -/
def service4 : TtsService :=
  (StartService true true
    (new { voices := [] }
      { sample_rate := 16000, channel_count := 1, chunk_size_in_frames := 2,
        total_buffer_size_in_frames := 4 })).2

/-- The service `service4` with one frame, the sample 5, in its ring buffer. -/
def servicePartly : TtsService :=
  { service4 with ring_buffer_ := (service4.ring_buffer_.Write [5] 1).2 }

/-- The service `service4` with its ring buffer full: the frames 1, 2, 3, 4. -/
def serviceFull : TtsService :=
  { service4 with ring_buffer_ := (service4.ring_buffer_.Write [1, 2, 3, 4] 4).2 }

/-- The service `service4` while an utterance is being synthesized. -/
def serviceSpeaking : TtsService :=
  { service4 with utterance_running_ := true }

/-- A started service on a stereo audio output with room for four frames,
while an utterance is being synthesized, with two voices. -/
def serviceStereo : TtsService :=
  { (StartService true true
      (new
        { voices :=
            [{ name := "lp", language := "en-GB", engine := "pico", sample_rate := 16000,
               quality := .TTS_NORMAL_QUALITY, region := "", gender := .TTS_FEMALE,
               age := 0 },
             { name := "us", language := "en-US", engine := "pico", sample_rate := 16000,
               quality := .TTS_NORMAL_QUALITY, region := "", gender := .TTS_FEMALE,
               age := 0 }] }
        { sample_rate := 44100, channel_count := 2, chunk_size_in_frames := 2,
          total_buffer_size_in_frames := 4 })).2 with
    utterance_running_ := true }

/-- Utterance options with a completion callback and a voice pattern that
names only the language, in another case than the engine's voices do. -/
def optionsUS : UtteranceOptions :=
  { completion := some 7
    voice_options := some
      { name := "", language := "EN-us", engine := "", sample_rate := 0,
        quality := .TTS_UNSPECIFIED_QUALITY, region := "", gender := .TTS_UNSPECIFIED_GENDER,
        age := 0 }
    rate := 2
    pitch := 1
    volume := 1 }

/-- A resampling library that produces nothing, for calls that do not
resample. -/
def silentLib : Libresample Unit Int :=
  { ofInt16 := fun v => v
    toInt := fun v => v
    resample_open := fun _ _ _ => ()
    resample_process := fun h _ _ _ _ out _ => (h, 0, 0, out) }

end TtsService

/-! ## The default voice, the chunks of the converter, recorded calls -/

/-- The constructor `TtsVoice::TtsVoice()`: every field has its default value. -/
def TtsVoice.new : TtsVoice :=
  { name := "", language := "", engine := "", sample_rate := 0,
    quality := .TTS_UNSPECIFIED_QUALITY, region := "", gender := .TTS_UNSPECIFIED_GENDER,
    age := 0 }

/-- One call made to a `TtsDataReceiver`: `Receive` with its arguments (of the
array, the `num_samples` first elements), or `Done`. -/
inductive Call where
  | receive (rate num_channels : Int) (data : List Int) (num_samples : Int)
  | done
deriving DecidableEq

/-- The receiver `destination_` with a record of the calls made to it, the
oldest first. -/
def recorded {D : Type} (destination_ : TtsDataReceiver D) : TtsDataReceiver (D × List Call) :=
  { Receive := fun s rate num_channels data num_samples =>
      match destination_.Receive s.1 rate num_channels data num_samples with
      | .error e => .error e
      | .ok (d, status) =>
        .ok ((d, s.2 ++ [.receive rate num_channels (data.take num_samples.toNat) num_samples]),
             status)
    Done := fun s =>
      match destination_.Done s.1 with
      | .error e => .error e
      | .ok (d, status) => .ok ((d, s.2 ++ [.done]), status) }

namespace Resampler

variable {H F D : Type}

/-- The chunks the specification speaks of, for `num_samples` input samples
and a working buffer of `B` samples: there are `⌈num_samples / B⌉` chunks, and
chunk `k` starts at input sample `k * B` and has `min B (num_samples - k * B)`
samples. A chunk is given as the array its first sample starts and its
size. -/
def chunks (B : Nat) (data : List Int) (num_samples : Nat) : List (List Int × Int) :=
  (List.range ((num_samples + B - 1) / B)).map
    (fun k => (data.drop (k * B), ((min B (num_samples - k * B) : Nat) : Int)))

/-- Feeding chunks to `ProcessBuffer` in order, as the specification words it:
the first chunk whose status is not `TTS_CALLBACK_CONTINUE` ends the call with
that status and the chunks after it are not processed; when there is no such
chunk the status is `TTS_CALLBACK_CONTINUE`. -/
def feedChunks (lib : Libresample H F) (destination_ : TtsDataReceiver D) (fuel : Nat) :
    List (List Int × Int) → Resampler H F → D →
      Except Abort (Resampler H F × D × tts_callback_status)
  | [], r, d => .ok (r, d, .TTS_CALLBACK_CONTINUE)
  | chunk :: rest, r, d =>
    match ProcessBuffer lib destination_ fuel r d chunk.1 chunk.2 with
    | .error e => .error e
    | .ok (r, d, callback_status) =>
      if callback_status ≠ .TTS_CALLBACK_CONTINUE then .ok (r, d, callback_status)
      else feedChunks lib destination_ fuel rest r d

/-- The call of `resample_process` that `ProcessInFloats(0, true, &input_index)`
makes with `input_index` 0: no input sample (`inBufferLen` is 0) and
`lastFlag` is 1. -/
def finalStep (lib : Libresample H F) (r : Resampler H F) : H × Int × Int × List F :=
  lib.resample_process r.resample_handle_ r.factor_ r.in_floats_ 0 1 r.out_floats_
    r.buffer_size_

/-- The array `out_int16s_` after the loop of `ProcessInFloats` has clipped the
samples put out by `finalStep` into it. -/
def finalArray (lib : Libresample H F) (r : Resampler H F) : List Int :=
  (List.range (finalStep lib r).2.1.toNat).foldl
    (fun o i => o.set i
      (toInt16 (clip (lib.toInt ((finalStep lib r).2.2.2.getD i (lib.ofInt16 0))))))
    r.out_int16s_

end Resampler

/-- A stand-in for libresample at twice the source rate: every input sample is
put out twice, as far as the output array has room, and the final call puts
out one closing sample of silence. -/
def tailLib : Libresample Unit Int :=
  { ofInt16 := fun v => v
    toInt := fun v => v
    resample_open := fun _ _ _ => ()
    resample_process := fun h _ inBuffer inBufferLen lastFlag outBuffer outBufferLen =>
      if lastFlag = 1 then (h, 1, 0, outBuffer.set 0 0)
      else
        let k := min inBufferLen.toNat (outBufferLen.toNat / 2)
        (h, 2 * (k : Int), (k : Int),
          (List.range (2 * k)).map (fun i => inBuffer.getD (i / 2) 0) ++ outBuffer.drop (2 * k)) }

namespace EarconManager

/-- The value `max(-32768, min(32767, v))`. -/
def clamp (v : Int) : Int := max (-32768) (min 32767 v)

/-- The samples that the clips active at sample `j` of a call for `n` frames
contribute to it, in the order of the clips: a clip is active at `j` when it
is playing and `j` lies in the first `min (F - p) n` frames. -/
def activeSamples (channels n : Int) (es : List Earcon) (j : Nat) : List Int :=
  es.filterMap (fun e =>
    if e.is_playing = true ∧ (j : Int) < min (e.frame_count - e.position) n * channels then
      some (e.data.getD (channels * e.position + (j : Int)).toNat 0)
    else none)

/-- A playing mono clip of one frame with the sample `v`. -/
def oneSample (v : Int) : Earcon :=
  { frame_count := 1, data := [v], is_playing := true, position := 0, loop := false }

end EarconManager

namespace TtsService

/-- The places where the worker thread can be between two of its steps in
`Run`: about to enter the loop body, blocked in `cond_var_->Wait`, past
`if (!current_utterance_) continue;` with an utterance to synthesize, or
returned from `Run`. -/
inductive RunPoint where
  | loop_top
  | waiting
  | synthesizing
  | returned
deriving DecidableEq

/-- The statements of the loop of `Run` after the `Wait` statement, up to and
including `if (!current_utterance_) continue;`: what the worker does when it
goes on from `Wait`, or when it has not waited. -/
def Run_locked (s : TtsService) : RunPoint × TtsService :=
  if s.service_running_ == false then
    (.returned, { s with utterances_ := discardAll s.utterances_ })
  else
    let s :=
      match s.current_utterance_, s.utterances_ with
      | none, utterance :: utterances =>
        { s with current_utterance_ := some utterance, utterances_ := utterances }
      | _, _ => s
    let s := { s with utterance_running_ := true }
    if s.current_utterance_.isNone then (.loop_top, s) else (.synthesizing, s)

/-- The loop of `Run` from the top of its body: the worker blocks in `Wait`
when the queue is empty and the service runs, and goes on otherwise. -/
def Run_top (s : TtsService) : RunPoint × TtsService :=
  if s.utterances_.isEmpty && s.service_running_ == true then (.waiting, s)
  else Run_locked s

/-- Embeds `TtsService::Run` from its start to the first point where the worker
blocks, has an utterance to synthesize, or returns. -/
def Run (s : TtsService) : RunPoint × TtsService :=
  if !s.service_running_ then (.returned, s) else Run_top s

/-- The worker, blocked in `Wait`, is woken up: it goes on after the `Wait`
statement and, when it has no utterance, around the loop to its top. -/
def Run_woken (s : TtsService) : RunPoint × TtsService :=
  let r := Run_locked s
  if r.1 = .loop_top then Run_top r.2 else r

end TtsService

/-! ## earcon_manager.cc: loading a WAV file -/

namespace EarconManager

/-- The value of an expression of type `unsigned int` or `uint32_t`: the
mathematical value modulo 2^32. -/
def toUInt32 (v : Int) : Int := v % 4294967296

/-- The conversion of an `unsigned int` to `int`: the value modulo 2^32, as a
signed number. -/
def toInt32 (v : Int) : Int := (v + 2147483648) % 4294967296 - 2147483648

/-- The byte `data[i]` of the array `data` read from the file, as an unsigned
number; `none` when `i` is outside the array. -/
def readU8 (data : List Nat) (i : Int) : Option Int :=
  if 0 ≤ i then (data.get? i.toNat).map (fun b => ((b % 256 : Nat) : Int)) else none

/-- The `uint16_t` at `&data[i]` (the bytes are in little-endian order);
`none` when one of its bytes is outside the array. -/
def readU16 (data : List Nat) (i : Int) : Option Int :=
  match readU8 data i, readU8 data (i + 1) with
  | some b0, some b1 => some (b0 + 256 * b1)
  | _, _ => none

/-- The `uint32_t` at `&data[i]`; `none` when one of its bytes is outside the
array. -/
def readU32 (data : List Nat) (i : Int) : Option Int :=
  match readU16 data i, readU16 data (i + 2) with
  | some lo, some hi => some (lo + 65536 * hi)
  | _, _ => none

/-- The `count` values `p[0] .. p[count - 1]` of the `int16_t` pointer
`p = &data[start]`; `none` when one of their bytes is outside the array. -/
def readSamples (data : List Nat) (start : Int) : Nat → Option (List Int)
  | 0 => some []
  | count + 1 =>
    match readSamples data start count, readU16 data (start + 2 * (count : Int)) with
    | some samples, some v => some (samples ++ [toInt16 v])
    | _, _ => none

/-- Embeds `FourCharUInt32`: the four characters of `str`, read as one
`uint32_t`. -/
def FourCharUInt32 (str : String) : Int :=
  match str.toList.map (fun c => (c.toNat : Int)) with
  | [c0, c1, c2, c3] => c0 + 256 * c1 + 65536 * c2 + 16777216 * c3
  | _ => 0

/-- The local variables of `LoadEarconFromWavFile` during the walk over the
chunks (`bitrate`, which is assigned and never read, is left out). -/
structure WavWalk where
  channels : Int
  rate : Int
  frames : Int
  audio_data : List Int
  pos : Int
deriving DecidableEq

/-- Where the walk over the chunks is after a step: it goes on with new values
of the variables, it has jumped to `err`, it has read outside the array
`data` (undefined behaviour), or its iteration budget is used up. -/
inductive WalkResult where
  | next (w : WavWalk)
  | err
  | undefined
  | fuel
deriving DecidableEq

/-- A read on which the rest of a step depends: outside the array the step is
undefined. -/
def withRead {α : Type} (v : Option α) (k : α → WalkResult) : WalkResult :=
  match v with
  | some x => k x
  | none => .undefined

/-- The test `filelen - pos < chunk_bytes` of the walk, negated: the chunk is
accepted. The subtraction is done in `unsigned int`. -/
def chunkAccepted (filelen pos chunk_bytes : Int) : Bool :=
  !decide (toUInt32 (filelen - pos) < chunk_bytes)

/-- The body of the loop `while (filelen - pos >= 8)` of
`LoadEarconFromWavFile`. -/
def chunkStep (data : List Nat) (filelen : Int) (w : WavWalk) : WalkResult :=
  withRead (readU32 data w.pos) fun label =>
  withRead (readU32 data (w.pos + 4)) fun chunk_bytes =>
  if !chunkAccepted filelen w.pos chunk_bytes then .err
  else if label = FourCharUInt32 "fmt " then
    if chunk_bytes < 16 then .err
    else if chunk_bytes > 1024 then .err
    else
      withRead (readU16 data (w.pos + 8)) fun format =>
      if format ≠ 1 then .err
      else
        withRead (readU16 data (w.pos + 8 + 2)) fun channels =>
        if channels < 1 ∨ channels > 2 then .err
        else
          withRead (readU16 data (w.pos + 8 + 14)) fun bits_per_sample =>
          if bits_per_sample ≠ 16 then .err
          else
            withRead (readU32 data (w.pos + 8 + 4)) fun samplerate =>
            let expected_byterate :=
              toUInt32 (toUInt32 (samplerate * channels) * bits_per_sample) / 8
            withRead (readU32 data (w.pos + 8 + 8)) fun byterate =>
            if byterate ≠ expected_byterate then .err
            else
              withRead (readU16 data (w.pos + 8 + 12)) fun block_align =>
              if block_align ≠ Int.tdiv (channels * bits_per_sample) 8 then .err
              else
                .next { w with
                  rate := toInt32 samplerate
                  channels := channels
                  pos := toInt32 (w.pos + chunk_bytes + 8) }
  else if label = FourCharUInt32 "data" then
    if w.rate = 0 ∨ w.channels = 0 then .err
    else
      let new_frames := toInt32 (chunk_bytes / toUInt32 (2 * w.channels))
      withRead (readSamples data (w.pos + 8) (new_frames * w.channels).toNat)
        fun new_audio_data =>
        .next { w with
          audio_data := w.audio_data.take (w.frames * w.channels).toNat ++ new_audio_data
          frames := w.frames + new_frames
          pos := toInt32 (w.pos + chunk_bytes + 8) }
  else .next { w with pos := toInt32 (w.pos + chunk_bytes + 8) }

/-- The loop `while (filelen - pos >= 8)`: `next w` is the end of the loop with
the variables `w`. -/
def walk (data : List Nat) (filelen : Int) : Nat → WavWalk → WalkResult
  | 0, w => if toUInt32 (filelen - w.pos) ≥ 8 then .fuel else .next w
  | fuel + 1, w =>
    if toUInt32 (filelen - w.pos) ≥ 8 then
      match chunkStep data filelen w with
      | .next w => walk data filelen fuel w
      | r => r
    else .next w

/-- Embeds `EarconManager::LoadEarconFromWavFile`. The file at `path` is `file`: its
bytes, or `none` when it cannot be opened; `fread` reads all of it. The result
is `none` when the call reads outside the array `data` (undefined behaviour),
and else the returned id and the manager after the call, or how the call ended
without returning. Over a file of fewer than 2^31 - 8 bytes the walk takes at
most one turn for every 8 bytes, so its budget of `filelen` turns is not used
up. -/
def LoadEarconFromWavFile {H F : Type} (lib : Libresample H F) (fuel : Nat)
    (m : EarconManager) (file : Option (List Nat)) (loop : Bool) :
    Option (Except Abort (Int × EarconManager)) :=
  match file with
  | none => some (.ok (-1, m))
  | some bytes =>
    let filelen := toUInt32 bytes.length
    if filelen < 40 then some (.ok (-1, m))
    else
      let data := bytes.take filelen.toNat
      match readU32 data 0, readU32 data 8 with
      | some riff, some wave =>
        if riff ≠ FourCharUInt32 "RIFF" ∨ wave ≠ FourCharUInt32 "WAVE" then some (.ok (-1, m))
        else
          match walk data filelen filelen.toNat
              { channels := 0, rate := 0, frames := 0, audio_data := [0], pos := 12 } with
          | .undefined => none
          | .fuel => some (.error .fuel)
          | .err => some (.ok (-1, m))
          | .next w =>
            if w.frames ≠ 0 ∧ w.channels ≠ 0 ∧ w.rate ≠ 0 then
              some (LoadEarcon lib fuel m w.frames w.audio_data w.channels w.rate loop)
            else some (.ok (-1, m))
      | _, _ => none

/-- The bytes of a string of ASCII characters. -/
def ascii (s : String) : List Nat := s.toList.map Char.toNat

/-- The 12 bytes of a RIFF/WAVE header followed by a format chunk of 16 bytes:
PCM (format 1), one channel, 8000 Hz, byte rate 16000, block align 2, 16 bits
per sample. -/
def wavHeader : List Nat :=
  ascii "RIFF" ++ [40, 0, 0, 0] ++ ascii "WAVE" ++
  ascii "fmt " ++ [16, 0, 0, 0] ++
  [1, 0, 1, 0, 64, 31, 0, 0, 128, 62, 0, 0, 2, 0, 16, 0]

/-- A file of 48 bytes that was cut short: after the header and the format
chunk, a data chunk that declares 8 bytes, of which 4 (the samples 1 and 2)
are in the file. -/
def wavCutData : List Nat :=
  wavHeader ++ ascii "data" ++ [8, 0, 0, 0] ++ [1, 0, 2, 0]

/-- A file of 48 bytes with no data chunk that was cut short: after the header
and the format chunk, a `LIST` chunk that declares 8 bytes, of which 4 are in
the file. -/
def wavCutList : List Nat :=
  wavHeader ++ ascii "LIST" ++ [8, 0, 0, 0] ++ [73, 78, 70, 79]

/-- A complete file of 48 bytes: the header, the format chunk and a data chunk
with the two samples 1 and -2. -/
def wavTwoSamples : List Nat :=
  wavHeader ++ ascii "data" ++ [4, 0, 0, 0] ++ [1, 0, 254, 255]

/-- A file of 48 bytes whose format chunk declares 268435456 Hz (2^28) with a
byte rate of 0, followed by a data chunk with the two samples 1 and -2. -/
def wavWrappedRate : List Nat :=
  ascii "RIFF" ++ [40, 0, 0, 0] ++ ascii "WAVE" ++
  ascii "fmt " ++ [16, 0, 0, 0] ++
  [1, 0, 1, 0, 0, 0, 0, 16, 0, 0, 0, 0, 2, 0, 16, 0] ++
  ascii "data" ++ [4, 0, 0, 0] ++ [1, 0, 254, 255]

end EarconManager

/-! ## nacl_main.cc -/

namespace NaClTtsInstance

/-- The constant `kMethodArgumentSeperator`. -/
def kMethodArgumentSeperator : Char := ':'

/-- The value of `message.size() - 1`, computed in `size_t` (32 bits under
Native Client): it is 2^32 - 1 for the empty message. -/
def sizeMinusOne (size : Nat) : Nat := (size + 4294967295) % 4294967296

/-- The loop `for (size_t i = 0; i <= message.size(); i++)` of `HandleMessage`
from index `i` on. A `std::string` is the list of its characters, and
`message[message.size()]` is the NUL character. The state is `method_name`,
`args` and `arg`; the result is `none` when the iteration budget is used
up. -/
def handleLoop (message : List Char) :
    Nat → Nat → List Char × List (List Char) × List Char →
      Option (List Char × List (List Char) × List Char)
  | 0, i, st => if i ≤ message.length then none else some st
  | fuel + 1, i, (method_name, args, arg) =>
    if i ≤ message.length then
      if i < sizeMinusOne message.length ∧ message.getD i (Char.ofNat 0) = '\\' then
        handleLoop message fuel (i + 1 + 1)
          (method_name, args, arg ++ [message.getD (i + 1) (Char.ofNat 0)])
      else if i = message.length ∨ message.getD i (Char.ofNat 0) = kMethodArgumentSeperator then
        if method_name.isEmpty then handleLoop message fuel (i + 1) (arg, args, [])
        else handleLoop message fuel (i + 1) (method_name, args ++ [arg], [])
      else
        handleLoop message fuel (i + 1)
          (method_name, args, arg ++ [message.getD i (Char.ofNat 0)])
    else some (method_name, args, arg)

/-- Embeds `NaClTtsInstance::HandleMessage` for a string message, up to the dispatch
on the method name: the `method_name` and the `args` that the dispatch gets.
The loop makes at most `message.size() + 1` turns. -/
def HandleMessage (message : List Char) : Option (List Char × List (List Char)) :=
  (handleLoop message (message.length + 1) 0 ([], [], [])).map (fun st => (st.1, st.2.1))

/-- The escaping of the specification: every `:` and every backslash of a
field is preceded by a backslash. -/
def escapeField (field : List Char) : List Char :=
  field.flatMap (fun c => if c = ':' ∨ c = '\\' then ['\\', c] else [c])

/-- The message of the specification for a method name and arguments: the
escaped fields, joined with `:`. -/
def encodeMessage (method_name : List Char) (args : List (List Char)) : List Char :=
  List.intercalate [':'] ((method_name :: args).map escapeField)

end NaClTtsInstance

/-! ## Theorems: the ring buffer -/

namespace RingBuffer

variable {T : Type} [Inhabited T]

theorem emod_cases {c x : Int} (h0 : 0 ≤ x) (h1 : x < 2 * c) :
    x % c = if x < c then x else x - c := by
  split_ifs with h
  · exact Int.emod_eq_of_lt h0 h
  · rw [Int.emod_eq_sub_self_emod]
    exact Int.emod_eq_of_lt (by omega) (by omega)

theorem tmod_next {c p : Int} (hc : 0 < c) (h0 : 0 ≤ p) :
    Int.tmod (p + 1) c = (p + 1) % c :=
  Int.tmod_eq_emod (by omega) (by omega)

theorem emod_shift (c p : Int) (k : Nat) :
    ((p + 1) % c + (k : Int)) % c = (p + ((k + 1 : Nat) : Int)) % c := by
  rw [Int.emod_add_emod]
  congr 1
  push_cast
  ring

theorem emod_range {c : Int} (hc : 0 < c) (x : Int) : 0 ≤ x % c ∧ x % c < c :=
  ⟨Int.emod_nonneg x (by omega), Int.emod_lt_of_pos x hc⟩

/-- Two offsets less than the capacity apart land on different elements. -/
theorem slot_ne {c p : Int} (hc : 0 < c) {i j : Int} (hij : i < j) (hj : j < i + c) :
    ((p + i) % c).toNat ≠ ((p + j) % c).toNat := by
  intro h
  have hi := emod_range hc (p + i)
  have hj2 := emod_range hc (p + j)
  have h2 : (p + j) % c = (p + i) % c := by omega
  rw [Int.emod_eq_emod_iff_emod_sub_eq_zero] at h2
  have h3 : (p + j - (p + i)) % c = j - i := by
    have : p + j - (p + i) = j - i := by ring
    rw [this]
    exact Int.emod_eq_of_lt (by omega) (by omega)
  omega

theorem writeLoop_pos {c : Int} (hc : 0 < c) (data : List T) :
    ∀ (n i : Nat) (buf : List T) (w : Int), 0 ≤ w → w < c →
      (writeLoop c data n i buf w).2 = (w + (n : Int)) % c
  | 0, _, _, w, h0, h1 => by
    simp [writeLoop, Int.emod_eq_of_lt h0 h1]
  | n + 1, i, buf, w, h0, h1 => by
    have hr := emod_range hc (w + 1)
    rw [writeLoop, tmod_next hc h0, writeLoop_pos hc data n _ _ _ hr.1 hr.2, emod_shift]

theorem writeLoop_length (c : Int) (data : List T) :
    ∀ (n i : Nat) (buf : List T) (w : Int),
      (writeLoop c data n i buf w).1.length = buf.length
  | 0, _, _, _ => by simp [writeLoop]
  | n + 1, i, buf, w => by
    rw [writeLoop, writeLoop_length c data n]
    simp

/-- The copy loop of `Write` leaves alone every element that is not one of the
`n` elements from `write_pos_` on. -/
theorem writeLoop_getD_old {c : Int} (hc : 0 < c) (data : List T) (q : Nat) (d : T) :
    ∀ (n i : Nat) (buf : List T) (w : Int), 0 ≤ w → w < c →
      (∀ j : Nat, j < n → ((w + (j : Int)) % c).toNat ≠ q) →
      (writeLoop c data n i buf w).1.getD q d = buf.getD q d
  | 0, _, _, _, _, _, _ => by simp [writeLoop]
  | n + 1, i, buf, w, h0, h1, hq => by
    have hr := emod_range hc (w + 1)
    rw [writeLoop, tmod_next hc h0,
      writeLoop_getD_old hc data q d n _ _ _ hr.1 hr.2]
    · have h := hq 0 (by omega)
      simp only [Nat.cast_zero, add_zero, Int.emod_eq_of_lt h0 h1] at h
      simp [List.getD_eq_getElem?_getD, List.getElem?_set, h]
    · intro j hj
      rw [emod_shift]
      exact hq (j + 1) (by omega)

/-- The copy loop of `Write` stores `data[i + j]` in the `j`-th element from
`write_pos_` on. -/
theorem writeLoop_getD_new {c : Int} (hc : 0 < c) (data : List T) (d : T) :
    ∀ (n i : Nat) (buf : List T) (w : Int), 0 ≤ w → w < c → (n : Int) ≤ c →
      buf.length = c.toNat → ∀ j : Nat, j < n →
      (writeLoop c data n i buf w).1.getD ((w + (j : Int)) % c).toNat d =
        data.getD (i + j) default
  | 0, _, _, _, _, _, _, _, j, hj => by omega
  | n + 1, i, buf, w, h0, h1, hn, hlen, j, hj => by
    have hr := emod_range hc (w + 1)
    rw [writeLoop, tmod_next hc h0]
    cases j with
    | zero =>
      rw [writeLoop_getD_old hc data _ d n _ _ _ hr.1 hr.2]
      · have hw : w.toNat < buf.length := by omega
        simp [Int.emod_eq_of_lt h0 h1, List.getD_eq_getElem?_getD, List.getElem?_set, hw]
      · intro j hj2
        rw [emod_shift]
        have := slot_ne (p := w) hc (i := 0) (j := ((j + 1 : Nat) : Int))
          (by push_cast; omega) (by push_cast; omega)
        simpa using this.symm
    | succ j =>
      have := writeLoop_getD_new hc data d n (i + 1) (buf.set w.toNat (data.getD i default))
        ((w + 1) % c) hr.1 hr.2 (by push_cast at hn; omega) (by simpa using hlen) j (by omega)
      rw [emod_shift] at this
      rw [this]
      congr 1
      omega

theorem take_succ_set {α : Type} (l : List α) (i : Nat) (v : α) (h : i < l.length) :
    (l.set i v).take (i + 1) = l.take i ++ [v] := by
  induction l generalizing i with
  | nil => simp at h
  | cons a l ih =>
    cases i with
    | zero => simp
    | succ i =>
      simp only [List.length_cons, Nat.add_lt_add_iff_right] at h
      simp [ih i h]

theorem readLoop_pos {c : Int} (hc : 0 < c) (buf : List T) :
    ∀ (n i : Nat) (data : List T) (p : Int), 0 ≤ p → p < c →
      (readLoop c buf n i data p).2 = (p + (n : Int)) % c
  | 0, _, _, p, h0, h1 => by
    simp [readLoop, Int.emod_eq_of_lt h0 h1]
  | n + 1, i, data, p, h0, h1 => by
    have hr := emod_range hc (p + 1)
    rw [readLoop, tmod_next hc h0, readLoop_pos hc buf n _ _ _ hr.1 hr.2, emod_shift]

theorem readLoop_zero (c : Int) (buf : List T) (i : Nat) (data : List T) (p : Int) :
    readLoop c buf 0 i data p = (data, p) := rfl

/-- The copy loop of `Read` fills the `n` elements of the caller's array from
index `i` on with the `n` elements of the buffer from `read_pos_` on, counted
around the end, and leaves the rest of the caller's array alone. -/
theorem readLoop_out {c : Int} (hc : 0 < c) (buf : List T) :
    ∀ (n i : Nat) (data : List T) (p : Int), 0 ≤ p → p < c → i + n ≤ data.length →
      (readLoop c buf n i data p).1 =
        data.take i ++ (List.range n).map
          (fun j : Nat => buf.getD ((p + (j : Int)) % c).toNat default) ++ data.drop (i + n)
  | 0, i, data, p, _, _, _ => by simp [readLoop]
  | n + 1, i, data, p, h0, h1, hlen => by
    have hr := emod_range hc (p + 1)
    rw [readLoop, tmod_next hc h0,
      readLoop_out hc buf n (i + 1) _ _ hr.1 hr.2 (by simpa using (by omega : i + 1 + n ≤ data.length))]
    have e1 : (data.set i (buf.getD p.toNat default)).take (i + 1) =
        data.take i ++ [buf.getD p.toNat default] := take_succ_set data i _ (by omega)
    have e2 : (data.set i (buf.getD p.toNat default)).drop (i + 1 + n) =
        data.drop (i + (n + 1)) := by
      rw [List.drop_set_of_lt _ _ (by omega)]
      congr 1
      omega
    have e3 : (List.range n).map
          (fun j : Nat => buf.getD (((p + 1) % c + (j : Int)) % c).toNat default) =
        (List.range n).map
          ((fun j : Nat => buf.getD ((p + (j : Int)) % c).toNat default) ∘ Nat.succ) := by
      apply List.map_congr_left
      intro j _
      simp only [Function.comp, emod_shift, Nat.succ_eq_add_one]
    rw [e1, e2, e3, List.range_succ_eq_map, List.map_cons, List.map_map]
    simp only [List.append_assoc, List.singleton_append, List.cons_append, Nat.cast_zero,
      add_zero, Int.emod_eq_of_lt h0 h1, List.nil_append]

/-! ### The calls, case by case -/

theorem Write_fail (rb : RingBuffer T) (data : List T) (len : Int)
    (h : rb.finished_ = true ∨ writeAvailSamples rb < len * rb.channel_count_) :
    Write rb data len = (false, rb) := by
  unfold Write
  rcases h with h | h
  · simp [h]
  · by_cases hfin : rb.finished_ = true
    · simp [hfin]
    · simp [hfin, h]

theorem Write_ok (rb : RingBuffer T) (data : List T) (len : Int)
    (hf : rb.finished_ = false) (h : len * rb.channel_count_ ≤ writeAvailSamples rb) :
    Write rb data len =
      (true, { rb with
        read_pos_ := if rb.read_pos_ = -1 then rb.write_pos_ else rb.read_pos_
        buffer_ := (writeLoop rb.capacity_ data (len * rb.channel_count_).toNat 0
          rb.buffer_ rb.write_pos_).1
        write_pos_ := (writeLoop rb.capacity_ data (len * rb.channel_count_).toNat 0
          rb.buffer_ rb.write_pos_).2 }) := by
  unfold Write
  simp [hf, not_lt.mpr h]

theorem Read_fail (rb : RingBuffer T) (data : List T) (len : Int)
    (h : readAvailSamples rb < len * rb.channel_count_) :
    Read rb data len = (false, rb, data) := by
  unfold Read
  simp [h]

theorem Read_ok (rb : RingBuffer T) (data : List T) (len : Int)
    (h : len * rb.channel_count_ ≤ readAvailSamples rb) :
    Read rb data len =
      (true,
       { rb with read_pos_ :=
          if (readLoop rb.capacity_ rb.buffer_ (len * rb.channel_count_).toNat 0 data
              rb.read_pos_).2 = rb.write_pos_ then -1
          else (readLoop rb.capacity_ rb.buffer_ (len * rb.channel_count_).toNat 0 data
              rb.read_pos_).2 },
       (readLoop rb.capacity_ rb.buffer_ (len * rb.channel_count_).toNat 0 data
          rb.read_pos_).1) := by
  unfold Read
  simp [not_lt.mpr h]

/-! ### The sample counts of a well-formed buffer -/

theorem readAvailSamples_spec {rb : RingBuffer T} (h : WF rb) (hr : rb.read_pos_ ≠ -1) :
    1 ≤ readAvailSamples rb ∧ readAvailSamples rb ≤ rb.capacity_ ∧
      rb.write_pos_ = (rb.read_pos_ + readAvailSamples rb) % rb.capacity_ := by
  obtain ⟨_, _, _, _, hw0, hw1, _, hrd⟩ := h
  rcases hrd with hrd | ⟨hr0, hr1, _⟩
  · exact absurd hrd hr
  · unfold readAvailSamples
    simp only [hr, if_false]
    split_ifs with hle
    · refine ⟨by omega, by omega, ?_⟩
      rw [emod_cases (by omega) (by omega)]
      split_ifs <;> omega
    · refine ⟨by omega, by omega, ?_⟩
      rw [emod_cases (by omega) (by omega)]
      split_ifs <;> omega

theorem readAvailSamples_empty {rb : RingBuffer T} (hr : rb.read_pos_ = -1) :
    readAvailSamples rb = 0 := by
  simp [readAvailSamples, hr]

theorem readAvailSamples_bounds {rb : RingBuffer T} (h : WF rb) :
    0 ≤ readAvailSamples rb ∧ readAvailSamples rb ≤ rb.capacity_ := by
  by_cases hr : rb.read_pos_ = -1
  · rw [readAvailSamples_empty hr]
    obtain ⟨_, _, _, _, hw0, hw1, _, _⟩ := h
    omega
  · have := readAvailSamples_spec h hr
    omega

theorem writeAvailSamples_eq {rb : RingBuffer T} (h : WF rb) :
    writeAvailSamples rb = rb.capacity_ - readAvailSamples rb := by
  obtain ⟨_, _, _, _, hw0, hw1, _, hrd⟩ := h
  unfold writeAvailSamples readAvailSamples
  rcases hrd with hrd | ⟨hr0, hr1, _⟩
  · simp only [hrd, ne_eq, not_true_eq_false, if_false, if_true]
    split_ifs <;> omega
  · have hr : rb.read_pos_ ≠ -1 := by omega
    simp only [hr, ne_eq, not_false_eq_true, if_true, if_false]
    split_ifs <;> omega

/-- The count `Read` computes from two positions `m` elements apart. -/
theorem avail_of_offset {c r w m : Int} (hr0 : 0 ≤ r) (hr1 : r < c) (hm0 : 1 ≤ m)
    (hm1 : m ≤ c) (hw : w = (r + m) % c) :
    (if w - r ≤ 0 then w - r + c else w - r) = m := by
  rw [emod_cases (by omega) (by omega)] at hw
  split_ifs at hw ⊢ <;> omega

theorem dvd_emod_of {n c x : Int} (h0 : 0 ≤ x) (h1 : x < 2 * c) (hc : n ∣ c) (hx : n ∣ x) :
    n ∣ x % c := by
  rw [emod_cases h0 h1]
  split_ifs
  · exact hx
  · exact Int.dvd_sub hx hc

theorem dvd_toNat {n x : Int} (hx : n ∣ x) : n ∣ ((x.toNat : Nat) : Int) := by
  rcases le_total 0 x with h | h
  · rw [Int.toNat_of_nonneg h]
    exact hx
  · rw [Int.toNat_eq_zero.mpr h]
    simp

theorem WF_dvd_capacity {rb : RingBuffer T} (h : WF rb) : rb.channel_count_ ∣ rb.capacity_ := by
  obtain ⟨_, _, hc, _⟩ := h
  rw [hc]
  exact Dvd.intro_left _ rfl

theorem WF_capacity_pos {rb : RingBuffer T} (h : WF rb) : 0 < rb.capacity_ := by
  obtain ⟨hn, hC, hc, _⟩ := h
  rw [hc]
  exact Int.mul_pos hC hn

theorem Write_WF {rb : RingBuffer T} (h : WF rb) (data : List T) (len : Int) :
    WF (Write rb data len).2 := by
  by_cases hf : rb.finished_ = true ∨ writeAvailSamples rb < len * rb.channel_count_
  · rw [Write_fail rb data len hf]
    exact h
  · have hf1 : rb.finished_ = false := by
      cases hfin : rb.finished_ <;> simp_all
    have hL : len * rb.channel_count_ ≤ writeAvailSamples rb := by omega
    rw [Write_ok rb data len hf1 hL]
    have hcap := WF_capacity_pos h
    have hdvd := WF_dvd_capacity h
    have hb := readAvailSamples_bounds h
    have hwa := writeAvailSamples_eq h
    obtain ⟨h1, h2, h3, h4, hw0, hw1, hwd, hrd⟩ := h
    have hk : (((len * rb.channel_count_).toNat : Nat) : Int) ≤ rb.capacity_ := by omega
    have hr := emod_range hcap (rb.write_pos_ + ((len * rb.channel_count_).toNat : Nat))
    refine ⟨h1, h2, h3, ?_, ?_, ?_, ?_, ?_⟩
    · simp only [writeLoop_length]
      exact h4
    · simp only [writeLoop_pos hcap data _ _ _ _ hw0 hw1]
      exact hr.1
    · simp only [writeLoop_pos hcap data _ _ _ _ hw0 hw1]
      exact hr.2
    · simp only [writeLoop_pos hcap data _ _ _ _ hw0 hw1]
      exact dvd_emod_of (by omega) (by omega) hdvd
        (Int.dvd_add hwd (dvd_toNat (Dvd.intro_left _ rfl)))
    · right
      rcases hrd with hrd | hrd
      · simp only [hrd, if_true]
        exact ⟨hw0, hw1, hwd⟩
      · have : rb.read_pos_ ≠ -1 := by omega
        simp only [this, if_false]
        exact hrd

theorem Read_WF {rb : RingBuffer T} (h : WF rb) (data : List T) (len : Int) :
    WF (Read rb data len).2.1 := by
  by_cases hf : readAvailSamples rb < len * rb.channel_count_
  · rw [Read_fail rb data len hf]
    exact h
  · have hL : len * rb.channel_count_ ≤ readAvailSamples rb := by omega
    rw [Read_ok rb data len hL]
    have hcap := WF_capacity_pos h
    have hdvd := WF_dvd_capacity h
    have hb := readAvailSamples_bounds h
    obtain ⟨h1, h2, h3, h4, hw0, hw1, hwd, hrd⟩ := h
    refine ⟨h1, h2, h3, h4, hw0, hw1, hwd, ?_⟩
    rcases hrd with hrd | ⟨hr0, hr1, hr2⟩
    · left
      have h0 : (len * rb.channel_count_).toNat = 0 := by
        rw [readAvailSamples_empty hrd] at hL
        omega
      simp only [h0, readLoop_zero, hrd]
      split_ifs <;> rfl
    · simp only
      split_ifs with heq
      · left; rfl
      · right
        have hk : (((len * rb.channel_count_).toNat : Nat) : Int) ≤ rb.capacity_ := by omega
        have hr := emod_range hcap (rb.read_pos_ + ((len * rb.channel_count_).toNat : Nat))
        simp only [readLoop_pos hcap _ _ _ _ _ hr0 hr1]
        exact ⟨hr.1, hr.2, dvd_emod_of (by omega) (by omega) hdvd
          (Int.dvd_add hr2 (dvd_toNat (Dvd.intro_left _ rfl)))⟩

theorem step_WF {rb : RingBuffer T} (h : WF rb) (op : Op T) : WF (step rb op) := by
  cases op with
  | write data len => exact Write_WF h data len
  | read data len => exact Read_WF h data len
  | markFinished => exact h
  | reset =>
    obtain ⟨h1, h2, h3, h4, _, _, _, _⟩ := h
    exact ⟨h1, h2, h3, h4, le_refl 0, by
      show (0 : Int) < rb.capacity_
      rw [h3]; exact Int.mul_pos h2 h1, dvd_zero _, Or.inl rfl⟩

theorem run_WF {rb : RingBuffer T} (h : WF rb) (ops : List (Op T)) : WF (run rb ops) := by
  induction ops generalizing rb with
  | nil => exact h
  | cons op ops ih => exact ih (step_WF h op)

theorem new_WF {C N : Int} (hC : 1 ≤ C) (hN : 1 ≤ N) : WF (new C N : RingBuffer T) := by
  refine ⟨by simpa [new, Reset] using hN, by simpa [new, Reset] using hC, rfl, ?_, le_refl 0, ?_,
    dvd_zero _, Or.inl rfl⟩
  · simp [new, Reset]
  · show (0 : Int) < C * N
    exact Int.mul_pos (by omega) (by omega)

/-! ### The stored samples across a call -/

theorem map_getD_range {α : Type} (data : List α) (d : α) (k : Nat) (hk : k ≤ data.length) :
    (List.range k).map (fun j => data.getD j d) = data.take k := by
  apply List.ext_getElem
  · simp [hk]
  · intro i h1 h2
    simp only [List.length_map, List.length_range] at h1
    simp [List.getD_eq_getElem?_getD, List.getElem?_eq_getElem (by omega : i < data.length)]

theorem drop_map_range {β : Type} (f : Nat → β) (a b : Nat) :
    ((List.range (a + b)).map f).drop a = (List.range b).map (fun j => f (a + j)) := by
  rw [List.range_add, List.map_append, List.drop_left' (by simp), List.map_map]
  rfl

theorem take_map_range {β : Type} (f : Nat → β) (a b : Nat) :
    ((List.range (a + b)).map f).take a = (List.range a).map f := by
  rw [List.range_add, List.map_append, List.take_left' (by simp)]

theorem contents_length (rb : RingBuffer T) :
    (contents rb).length = (readAvailSamples rb).toNat := by
  simp [contents]

/-- A successful `Write` that is not a zero-frame write into an empty buffer
appends the samples passed to it to the stored samples. -/
theorem Write_contents {rb : RingBuffer T} (h : WF rb) (hf : rb.finished_ = false)
    (data : List T) (len : Int) (h0 : 0 ≤ len)
    (hL : len * rb.channel_count_ ≤ writeAvailSamples rb)
    (hne : 1 ≤ len ∨ rb.read_pos_ ≠ -1) :
    readAvailSamples (Write rb data len).2 = readAvailSamples rb + len * rb.channel_count_ ∧
    ((len * rb.channel_count_).toNat ≤ data.length →
      contents (Write rb data len).2 =
        contents rb ++ data.take (len * rb.channel_count_).toNat) := by
  have hcap := WF_capacity_pos h
  have hb := readAvailSamples_bounds h
  have hwa := writeAvailSamples_eq h
  have hN : 0 < rb.channel_count_ := h.1
  have hLnn : 0 ≤ len * rb.channel_count_ := Int.mul_nonneg h0 (by omega)
  have hL1 : 1 ≤ len → 1 ≤ len * rb.channel_count_ := fun hl => by nlinarith
  generalize hLdef : len * rb.channel_count_ = L at *
  generalize hmdef : readAvailSamples rb = m at *
  have hw0 : 0 ≤ rb.write_pos_ := h.2.2.2.2.1
  have hw1 : rb.write_pos_ < rb.capacity_ := h.2.2.2.2.2.1
  have hlen : rb.buffer_.length = rb.capacity_.toNat := h.2.2.2.1
  -- the position the stored samples start at, after the call
  obtain ⟨r₀, hr₀def, hr₀0, hr₀1, hwr, hm1⟩ : ∃ r₀ : Int,
      (if rb.read_pos_ = -1 then rb.write_pos_ else rb.read_pos_) = r₀ ∧ 0 ≤ r₀ ∧
      r₀ < rb.capacity_ ∧ rb.write_pos_ = (r₀ + m) % rb.capacity_ ∧
      (rb.read_pos_ = -1 → m = 0) := by
    by_cases hr : rb.read_pos_ = -1
    · refine ⟨rb.write_pos_, by simp [hr], hw0, hw1, ?_, fun _ => ?_⟩
      · rw [← hmdef, readAvailSamples_empty hr, add_zero, Int.emod_eq_of_lt hw0 hw1]
      · rw [← hmdef, readAvailSamples_empty hr]
    · have hs := readAvailSamples_spec h hr
      rw [hmdef] at hs
      rcases h.2.2.2.2.2.2.2 with hrd | ⟨hr0, hr1, _⟩
      · exact absurd hrd hr
      · exact ⟨rb.read_pos_, by simp [hr], hr0, hr1, hs.2.2, fun h' => absurd h' hr⟩
  have hmL : 1 ≤ m + L := by
    rcases hne with hne | hne
    · have := hL1 hne; omega
    · have := (readAvailSamples_spec h hne).1; omega
  have hcast : ((L.toNat : Nat) : Int) = L := Int.toNat_of_nonneg hLnn
  have hwp : (writeLoop rb.capacity_ data L.toNat 0 rb.buffer_ rb.write_pos_).2 =
      (r₀ + (m + L)) % rb.capacity_ := by
    rw [writeLoop_pos hcap data _ _ _ _ hw0 hw1, hcast, hwr, Int.emod_add_emod, add_assoc]
  have hras : readAvailSamples (Write rb data len).2 = m + L := by
    rw [Write_ok rb data len hf (by rw [hLdef]; exact hL), hLdef]
    unfold readAvailSamples
    simp only [hr₀def]
    rw [if_neg (by omega : ¬ r₀ = -1)]
    exact avail_of_offset hr₀0 hr₀1 hmL (by omega) hwp
  refine ⟨hras, ?_⟩
  intro hd
  unfold contents
  rw [hras, hmdef, (by omega : (m + L).toNat = m.toNat + L.toNat), List.range_add,
    List.map_append, List.map_map]
  congr 1
  · apply List.map_congr_left
    intro j hj
    have hjm : (j : Int) < m := by
      have := List.mem_range.mp hj
      omega
    have hr : rb.read_pos_ ≠ -1 := fun h' => by
      have := hm1 h'
      omega
    rw [Write_ok rb data len hf (by rw [hLdef]; exact hL), hLdef]
    have hr₀ : r₀ = rb.read_pos_ := by rw [← hr₀def]; simp [hr]
    unfold sampleAt
    simp only [hr, if_false]
    apply writeLoop_getD_old hcap data _ _ _ _ _ _ hw0 hw1
    intro j' hj2
    rw [hwr, Int.emod_add_emod, hr₀, add_assoc]
    exact (slot_ne hcap (by omega) (by omega)).symm
  · rw [← map_getD_range data default L.toNat hd]
    apply List.map_congr_left
    intro j hj
    have hjm : j < L.toNat := List.mem_range.mp hj
    rw [Write_ok rb data len hf (by rw [hLdef]; exact hL), hLdef]
    unfold sampleAt
    simp only [Function.comp, hr₀def]
    have := writeLoop_getD_new hcap data default L.toNat 0 rb.buffer_ rb.write_pos_ hw0 hw1
      (by omega) hlen j hjm
    rw [hwr, Int.emod_add_emod, add_assoc] at this
    rw [Nat.zero_add] at this
    rw [← this]
    congr 3
    push_cast
    rw [Int.toNat_of_nonneg hb.1]

/-- A successful `Read` fills the first `len` frames of the caller's array with
the oldest stored samples, in order, and leaves the rest of the array alone. -/
theorem Read_out {rb : RingBuffer T} (h : WF rb) (data : List T) (len : Int)
    (hL : len * rb.channel_count_ ≤ readAvailSamples rb)
    (hd : (len * rb.channel_count_).toNat ≤ data.length) :
    (Read rb data len).1 = true ∧
    (Read rb data len).2.2 = (contents rb).take (len * rb.channel_count_).toNat ++
      data.drop (len * rb.channel_count_).toNat := by
  have hcap := WF_capacity_pos h
  have hb := readAvailSamples_bounds h
  rw [Read_ok rb data len hL]
  refine ⟨rfl, ?_⟩
  simp only
  generalize len * rb.channel_count_ = L at *
  by_cases hz : L.toNat = 0
  · simp [hz, readLoop_zero]
  · have hr : rb.read_pos_ ≠ -1 := fun h' => by
      rw [readAvailSamples_empty h'] at hL
      omega
    rcases h.2.2.2.2.2.2.2 with hrd | ⟨hr0, hr1, _⟩
    · exact absurd hrd hr
    · rw [readLoop_out hcap rb.buffer_ L.toNat 0 data rb.read_pos_ hr0 hr1 (by omega)]
      unfold contents
      have hsplit : (readAvailSamples rb).toNat =
          L.toNat + ((readAvailSamples rb).toNat - L.toNat) := by omega
      rw [hsplit, take_map_range]
      simp only [List.take_zero, List.nil_append, Nat.zero_add]
      rfl

/-- A successful `Read` that is not a zero-frame read from a full buffer
removes exactly the samples it returns from the stored samples. -/
theorem Read_contents {rb : RingBuffer T} (h : WF rb) (data : List T) (len : Int)
    (h0 : 0 ≤ len) (hL : len * rb.channel_count_ ≤ readAvailSamples rb)
    (hne : 1 ≤ len ∨ readAvailSamples rb < rb.capacity_) :
    readAvailSamples (Read rb data len).2.1 = readAvailSamples rb - len * rb.channel_count_ ∧
    contents (Read rb data len).2.1 = (contents rb).drop (len * rb.channel_count_).toNat := by
  have hcap := WF_capacity_pos h
  have hb := readAvailSamples_bounds h
  have hN : 0 < rb.channel_count_ := h.1
  have hLnn : 0 ≤ len * rb.channel_count_ := Int.mul_nonneg h0 (by omega)
  have hL1 : 1 ≤ len → 1 ≤ len * rb.channel_count_ := fun hl => by nlinarith
  have hw0 : 0 ≤ rb.write_pos_ := h.2.2.2.2.1
  have hw1 : rb.write_pos_ < rb.capacity_ := h.2.2.2.2.2.1
  rw [Read_ok rb data len hL]
  generalize hLdef : len * rb.channel_count_ = L at *
  simp only
  by_cases hz : L = 0
  · -- nothing is read and the buffer is not full: the state stays as it is
    have hlt : readAvailSamples rb < rb.capacity_ := by
      rcases hne with hne | hne
      · have := hL1 hne; omega
      · exact hne
    have hsame : (if rb.read_pos_ = rb.write_pos_ then (-1 : Int) else rb.read_pos_) =
        rb.read_pos_ := by
      split_ifs with heq
      · by_cases hr : rb.read_pos_ = -1
        · exact hr.symm
        · exfalso
          have : readAvailSamples rb = rb.capacity_ := by
            unfold readAvailSamples
            rw [if_neg hr]
            simp [heq]
          omega
      · rfl
    subst hz
    simp only [Int.toNat_zero, readLoop_zero, hsame, sub_zero, List.drop_zero]
    trivial
  · have hr : rb.read_pos_ ≠ -1 := fun h' => by
      rw [readAvailSamples_empty h'] at hL
      omega
    have hs := readAvailSamples_spec h hr
    generalize hmdef : readAvailSamples rb = m at *
    have hcast : ((L.toNat : Nat) : Int) = L := Int.toNat_of_nonneg hLnn
    rcases h.2.2.2.2.2.2.2 with hrd | ⟨hr0, hr1, _⟩
    · exact absurd hrd hr
    · have hrp : (readLoop rb.capacity_ rb.buffer_ L.toNat 0 data rb.read_pos_).2 =
          (rb.read_pos_ + L) % rb.capacity_ := by
        rw [readLoop_pos hcap _ _ _ _ _ hr0 hr1, hcast]
      rw [hrp]
      have hrng := emod_range hcap (rb.read_pos_ + L)
      by_cases hall : L = m
      · -- everything stored is read: the buffer becomes empty
        have heq : (rb.read_pos_ + L) % rb.capacity_ = rb.write_pos_ := by
          rw [hall]; exact hs.2.2.symm
        rw [if_pos heq]
        constructor
        · rw [readAvailSamples_empty rfl]; omega
        · unfold contents
          rw [readAvailSamples_empty rfl, hmdef, hall]
          simp
      · have hne2 : (rb.read_pos_ + L) % rb.capacity_ ≠ rb.write_pos_ := by
          intro heq
          rw [hs.2.2] at heq
          have := slot_ne (p := rb.read_pos_) hcap (i := L) (j := m) (by omega) (by omega)
          rw [heq] at this
          exact this rfl
        rw [if_neg hne2]
        have hwr : rb.write_pos_ = ((rb.read_pos_ + L) % rb.capacity_ + (m - L)) % rb.capacity_ := by
          rw [Int.emod_add_emod, hs.2.2]
          congr 1
          ring
        have hras : readAvailSamples
            { rb with read_pos_ := (rb.read_pos_ + L) % rb.capacity_ } = m - L := by
          unfold readAvailSamples
          simp only
          rw [if_neg (by omega)]
          exact avail_of_offset hrng.1 hrng.2 (by omega) (by omega) hwr
        refine ⟨hras, ?_⟩
        unfold contents
        rw [hras, hmdef]
        have hsplit : m.toNat = L.toNat + (m - L).toNat := by omega
        rw [hsplit, drop_map_range]
        apply List.map_congr_left
        intro j _
        unfold sampleAt
        simp only
        rw [Int.emod_add_emod]
        congr 3
        push_cast
        rw [hcast]
        ring

/-! ### Frames -/

theorem readAvailSamples_dvd {rb : RingBuffer T} (h : WF rb) :
    rb.channel_count_ ∣ readAvailSamples rb := by
  have hdvd := WF_dvd_capacity h
  obtain ⟨_, _, _, _, _, _, hwd, hrd⟩ := h
  unfold readAvailSamples
  rcases hrd with hrd | ⟨_, _, hr2⟩
  · simp [hrd]
  · have hr : rb.read_pos_ ≠ -1 := by omega
    simp only [hr, if_false]
    split_ifs
    · exact Int.dvd_add (Int.dvd_sub hwd hr2) hdvd
    · exact Int.dvd_sub hwd hr2

theorem ReadAvail_eq_tdiv (rb : RingBuffer T) :
    ReadAvail rb = Int.tdiv (readAvailSamples rb) rb.channel_count_ := by
  unfold ReadAvail readAvailSamples
  by_cases hr : rb.read_pos_ = -1
  · simp [hr]
  · simp only [hr, if_false]

theorem ReadAvail_mul {rb : RingBuffer T} (h : WF rb) :
    ReadAvail rb * rb.channel_count_ = readAvailSamples rb := by
  have hb := readAvailSamples_bounds h
  have hN : 0 < rb.channel_count_ := h.1
  rw [ReadAvail_eq_tdiv, Int.tdiv_eq_ediv hb.1 (by omega)]
  exact Int.ediv_mul_cancel (readAvailSamples_dvd h)

theorem WriteAvail_mul {rb : RingBuffer T} (h : WF rb) :
    WriteAvail rb * rb.channel_count_ = writeAvailSamples rb := by
  have hb := readAvailSamples_bounds h
  have hN : 0 < rb.channel_count_ := h.1
  have hwa := writeAvailSamples_eq h
  unfold WriteAvail
  rw [Int.tdiv_eq_ediv (by omega) (by omega)]
  apply Int.ediv_mul_cancel
  rw [hwa]
  exact Int.dvd_sub (WF_dvd_capacity h) (readAvailSamples_dvd h)

theorem frames_le_iff {rb : RingBuffer T} (h : WF rb) (len a : Int) :
    len * rb.channel_count_ ≤ a * rb.channel_count_ ↔ len ≤ a :=
  ⟨fun hle => le_of_mul_le_mul_right hle h.1, fun hle => Int.mul_le_mul_of_nonneg_right hle (le_of_lt h.1)⟩

/-- The call `Write` changes at most the array and the two positions. -/
theorem Write_frame (rb : RingBuffer T) (data : List T) (len : Int) :
    (Write rb data len).2.finished_ = rb.finished_ ∧
    (Write rb data len).2.frame_capacity_ = rb.frame_capacity_ ∧
    (Write rb data len).2.channel_count_ = rb.channel_count_ ∧
    (Write rb data len).2.capacity_ = rb.capacity_ := by
  by_cases hf : rb.finished_ = true ∨ writeAvailSamples rb < len * rb.channel_count_
  · rw [Write_fail rb data len hf]
    exact ⟨rfl, rfl, rfl, rfl⟩
  · have hf1 : rb.finished_ = false := by
      cases hfin : rb.finished_ <;> simp_all
    rw [Write_ok rb data len hf1 (by omega)]
    exact ⟨rfl, rfl, rfl, rfl⟩

/-- The call `Read` changes at most `read_pos_`. -/
theorem Read_frame (rb : RingBuffer T) (data : List T) (len : Int) :
    (Read rb data len).2.1.finished_ = rb.finished_ ∧
    (Read rb data len).2.1.frame_capacity_ = rb.frame_capacity_ ∧
    (Read rb data len).2.1.channel_count_ = rb.channel_count_ ∧
    (Read rb data len).2.1.capacity_ = rb.capacity_ ∧
    (Read rb data len).2.1.buffer_ = rb.buffer_ ∧
    (Read rb data len).2.1.write_pos_ = rb.write_pos_ := by
  by_cases hf : readAvailSamples rb < len * rb.channel_count_
  · rw [Read_fail rb data len hf]
    exact ⟨rfl, rfl, rfl, rfl, rfl, rfl⟩
  · rw [Read_ok rb data len (by omega)]
    exact ⟨rfl, rfl, rfl, rfl, rfl, rfl⟩

theorem Write_finished (rb : RingBuffer T) (data : List T) (len : Int) :
    (Write rb data len).2.finished_ = rb.finished_ := (Write_frame rb data len).1

theorem Read_finished (rb : RingBuffer T) (data : List T) (len : Int) :
    (Read rb data len).2.1.finished_ = rb.finished_ := (Read_frame rb data len).1

theorem step_geometry (rb : RingBuffer T) (op : Op T) :
    (step rb op).frame_capacity_ = rb.frame_capacity_ ∧
    (step rb op).channel_count_ = rb.channel_count_ ∧
    (step rb op).capacity_ = rb.capacity_ := by
  cases op with
  | write data len => exact (Write_frame rb data len).2
  | read data len =>
    have h := Read_frame rb data len
    exact ⟨h.2.1, h.2.2.1, h.2.2.2.1⟩
  | markFinished => exact ⟨rfl, rfl, rfl⟩
  | reset => exact ⟨rfl, rfl, rfl⟩

theorem run_geometry (rb : RingBuffer T) (ops : List (Op T)) :
    (run rb ops).frame_capacity_ = rb.frame_capacity_ ∧
    (run rb ops).channel_count_ = rb.channel_count_ ∧
    (run rb ops).capacity_ = rb.capacity_ := by
  induction ops generalizing rb with
  | nil => exact ⟨rfl, rfl, rfl⟩
  | cons op ops ih =>
    have h1 := ih (step rb op)
    have h2 := step_geometry rb op
    exact ⟨h1.1.trans h2.1, h1.2.1.trans h2.2.1, h1.2.2.trans h2.2.2⟩

theorem run_unfinished (rb : RingBuffer T) (ops : List (Op T))
    (hops : ∀ op ∈ ops, Op.isWriteOrRead op = true) (hf : rb.finished_ = false) :
    (run rb ops).finished_ = false := by
  induction ops generalizing rb with
  | nil => exact hf
  | cons op ops ih =>
    apply ih (step rb op) (fun o ho => hops o (List.mem_cons_of_mem _ ho))
    have hop := hops op (List.mem_cons_self _ _)
    cases op with
    | write data len => exact (Write_finished rb data len).trans hf
    | read data len => exact (Read_finished rb data len).trans hf
    | markFinished => simp [Op.isWriteOrRead] at hop
    | reset => simp [Op.isWriteOrRead] at hop

theorem run_finished (rb : RingBuffer T) (ops : List (Op T))
    (hops : ∀ op ∈ ops, Op.isNotReset op = true) (hf : rb.finished_ = true) :
    (run rb ops).finished_ = true := by
  induction ops generalizing rb with
  | nil => exact hf
  | cons op ops ih =>
    apply ih (step rb op) (fun o ho => hops o (List.mem_cons_of_mem _ ho))
    have hop := hops op (List.mem_cons_self _ _)
    cases op with
    | write data len => exact (Write_finished rb data len).trans hf
    | read data len => exact (Read_finished rb data len).trans hf
    | markFinished => rfl
    | reset => simp [Op.isNotReset] at hop

theorem Write_true_iff (rb : RingBuffer T) (data : List T) (len : Int) :
    (Write rb data len).1 = true ↔
      (rb.finished_ = false ∧ len * rb.channel_count_ ≤ writeAvailSamples rb) := by
  by_cases hf : rb.finished_ = true ∨ writeAvailSamples rb < len * rb.channel_count_
  · rw [Write_fail rb data len hf]
    rcases hf with hf | hf
    · simp [hf]
    · simp only [Bool.false_eq_true, false_iff, not_and, not_le]
      exact fun _ => hf
  · have hf1 : rb.finished_ = false := by
      cases hfin : rb.finished_ <;> simp_all
    have hL : len * rb.channel_count_ ≤ writeAvailSamples rb := by omega
    rw [Write_ok rb data len hf1 hL]
    simp [hf1, hL]

theorem Read_true_iff (rb : RingBuffer T) (data : List T) (len : Int) :
    (Read rb data len).1 = true ↔ len * rb.channel_count_ ≤ readAvailSamples rb := by
  by_cases hf : readAvailSamples rb < len * rb.channel_count_
  · rw [Read_fail rb data len hf]
    simp only [Bool.false_eq_true, false_iff, not_le]
    exact hf
  · have hL : len * rb.channel_count_ ≤ readAvailSamples rb := by omega
    rw [Read_ok rb data len hL]
    simp [hL]

/-! ### The claims about the ring buffer -/

/-- With products that fit an `int` (the methods `Write` and `Read`): on a
buffer of `C ≥ 1` frames of `N ≥ 1` channels, in every state reached from the
constructor by `Write` and `Read` calls, a `Write` of `W` frames returns true
exactly when `WriteAvail() ≥ W` just before the call. -/
theorem Write_succeeds_iff_WriteAvail (C N : Int) (hC : 1 ≤ C) (hN : 1 ≤ N)
    (ops : List (Op T)) (hops : ∀ op ∈ ops, Op.isWriteOrRead op = true)
    (data : List T) (W : Int) (hW : 0 ≤ W) :
    (Write (run (new C N) ops) data W).1 = true ↔ W ≤ WriteAvail (run (new C N) ops) := by
  have hwf : WF (run (new C N : RingBuffer T) ops) := run_WF (new_WF hC hN) ops
  have hf := run_unfinished (new C N : RingBuffer T) ops hops rfl
  rw [Write_true_iff, ← WriteAvail_mul hwf, frames_le_iff hwf]
  simp [hf]

/-- With products that fit an `int` (the methods `Write` and `Read`), the
occupancy invariant: in every state reached from the constructor (`C ≥ 1`,
`N ≥ 1`) by `Write`, `Read`, `MarkFinished` and `Reset` calls, `ReadAvail()` and
`WriteAvail()` are between 0 and `C` and add up to `C`. -/
theorem occupancy_invariant (C N : Int) (hC : 1 ≤ C) (hN : 1 ≤ N) (ops : List (Op T)) :
    0 ≤ ReadAvail (run (new C N : RingBuffer T) ops) ∧
    ReadAvail (run (new C N : RingBuffer T) ops) ≤ C ∧
    0 ≤ WriteAvail (run (new C N : RingBuffer T) ops) ∧
    WriteAvail (run (new C N : RingBuffer T) ops) ≤ C ∧
    ReadAvail (run (new C N : RingBuffer T) ops) +
      WriteAvail (run (new C N : RingBuffer T) ops) = C := by
  have hwf : WF (run (new C N : RingBuffer T) ops) := run_WF (new_WF hC hN) ops
  have hg := run_geometry (new C N : RingBuffer T) ops
  have hb := readAvailSamples_bounds hwf
  have hwa := writeAvailSamples_eq hwf
  have hr := ReadAvail_mul hwf
  have hw := WriteAvail_mul hwf
  have hcap : (run (new C N : RingBuffer T) ops).capacity_ = C * N := hg.2.2
  have hch : (run (new C N : RingBuffer T) ops).channel_count_ = N := hg.2.1
  rw [hch] at hr hw
  rw [hcap] at hb hwa
  generalize ReadAvail (run (new C N : RingBuffer T) ops) = ra at *
  generalize WriteAvail (run (new C N : RingBuffer T) ops) = wa at *
  have hsum : (ra + wa) * N = C * N := by rw [add_mul, hr, hw, hwa]; ring
  have hsum2 : ra + wa = C := Int.eq_of_mul_eq_mul_right (by omega) hsum
  have hra : 0 ≤ ra := by
    by_contra hneg
    have : ra * N < 0 := Int.mul_neg_of_neg_of_pos (by omega) (by omega)
    omega
  have hwa0 : 0 ≤ wa := by
    by_contra hneg
    have : wa * N < 0 := Int.mul_neg_of_neg_of_pos (by omega) (by omega)
    omega
  omega

/-- C5. All-or-nothing failure: `Write` returns false exactly when the buffer
is finished or the frames do not fit, and then the buffer is unchanged; `Read`
returns false exactly when more samples are asked for than are stored, and then
the buffer and the caller's array are unchanged. -/
theorem failure_changes_nothing (rb : RingBuffer T) (data : List T) (len : Int) :
    ((Write rb data len).1 = false ↔
        (rb.finished_ = true ∨ writeAvailSamples rb < len * rb.channel_count_)) ∧
    ((Write rb data len).1 = false → (Write rb data len).2 = rb) ∧
    ((Read rb data len).1 = false ↔ readAvailSamples rb < len * rb.channel_count_) ∧
    ((Read rb data len).1 = false →
        (Read rb data len).2.1 = rb ∧ (Read rb data len).2.2 = data) := by
  have hW := Write_true_iff rb data len
  have hR := Read_true_iff rb data len
  refine ⟨?_, ?_, ?_, ?_⟩
  · cases hw : (Write rb data len).1
    · simp only [true_iff]
      rw [hw] at hW
      by_contra hcon
      simp only [not_or, Bool.not_eq_true, not_lt] at hcon
      exact absurd (hW.mpr hcon) (by simp)
    · simp only [Bool.true_eq_false, false_iff, not_or, Bool.not_eq_true, not_lt]
      rw [hw] at hW
      exact hW.mp rfl
  · intro hw
    have : rb.finished_ = true ∨ writeAvailSamples rb < len * rb.channel_count_ := by
      by_contra hcon
      simp only [not_or, Bool.not_eq_true, not_lt] at hcon
      rw [hW.mpr hcon] at hw
      exact absurd hw (by simp)
    rw [Write_fail rb data len this]
  · cases hr : (Read rb data len).1
    · simp only [true_iff]
      rw [hr] at hR
      by_contra hcon
      exact absurd (hR.mpr (by omega)) (by simp)
    · simp only [Bool.true_eq_false, false_iff, not_lt]
      rw [hr] at hR
      exact hR.mp rfl
  · intro hr
    have : readAvailSamples rb < len * rb.channel_count_ := by
      by_contra hcon
      rw [hR.mpr (by omega)] at hr
      exact absurd hr (by simp)
    rw [Read_fail rb data len this]
    exact ⟨rfl, rfl⟩

/-! ### Round trip -/

theorem written_append (l₁ l₂ : List (Op T)) :
    written (l₁ ++ l₂) = written l₁ ++ written l₂ := by
  induction l₁ with
  | nil => rfl
  | cons op l₁ ih =>
    cases op <;> simp [written, ih]

theorem Chunked_take {rb : RingBuffer T} {ops : List (Op T)} (h : Chunked rb ops) (k : Nat) :
    Chunked rb (ops.take k) := by
  induction ops generalizing rb k with
  | nil => simpa using h
  | cons op ops ih =>
    cases k with
    | zero => simp [Chunked]
    | succ k =>
      cases op with
      | write data len =>
        simp only [Chunked, List.take_succ_cons] at h ⊢
        exact ⟨h.1, h.2.1, h.2.2.1, ih h.2.2.2 k⟩
      | read data len =>
        simp only [Chunked, List.take_succ_cons] at h ⊢
        exact ⟨h.1, h.2.1, h.2.2.1, ih h.2.2.2 k⟩
      | markFinished => simp [Chunked] at h
      | reset => simp [Chunked] at h

/-- Along a chunked sequence of writes and reads every call succeeds, and what
was stored plus what is written equals what is read back plus what is still
stored. -/
theorem round_trip_aux {rb : RingBuffer T} (h : WF rb) (hf : rb.finished_ = false)
    (ops : List (Op T)) (hc : Chunked rb ops) :
    allSucceed rb ops = true ∧
    contents rb ++ written ops = readBack rb ops ++ contents (run rb ops) := by
  induction ops generalizing rb with
  | nil => simp [allSucceed, written, readBack, run]
  | cons op ops ih =>
    have hN : 0 < rb.channel_count_ := h.1
    cases op with
    | write data len =>
      simp only [Chunked] at hc
      obtain ⟨h1, h2, h3, h4⟩ := hc
      have hL : len * rb.channel_count_ ≤ writeAvailSamples rb := by
        rw [← WriteAvail_mul h]
        exact (frames_le_iff h _ _).mpr h2
      have hok := (Write_true_iff rb data len).mpr ⟨hf, hL⟩
      have hcont := (Write_contents h hf data len (by omega) hL (Or.inl h1)).2 (le_of_eq h3.symm)
      have hrec := ih (Write_WF h data len) ((Write_finished rb data len).trans hf) h4
      rw [hcont, ← h3, List.take_length] at hrec
      simp only [allSucceed, written, readBack, run, List.foldl_cons, step, hok, Bool.true_and]
      refine ⟨hrec.1, ?_⟩
      rw [← List.append_assoc]
      exact hrec.2
    | read data len =>
      simp only [Chunked] at hc
      obtain ⟨h1, h2, h3, h4⟩ := hc
      have hL : len * rb.channel_count_ ≤ readAvailSamples rb := by
        rw [← ReadAvail_mul h]
        exact (frames_le_iff h _ _).mpr h2
      have hok := (Read_true_iff rb data len).mpr hL
      have hout := (Read_out h data len hL (le_of_eq h3.symm)).2
      have hcont := (Read_contents h data len (by omega) hL (Or.inl h1)).2
      have hrec := ih (Read_WF h data len) ((Read_finished rb data len).trans hf) h4
      rw [hcont] at hrec
      rw [← h3, List.drop_length, List.append_nil] at hout
      simp only [allSucceed, written, readBack, run, List.foldl_cons, step, hok, Bool.true_and]
      refine ⟨hrec.1, ?_⟩
      simp only [run] at hrec
      rw [hout, List.append_assoc, ← hrec.2, ← List.append_assoc, h3, List.take_append_drop]
    | markFinished => simp [Chunked] at hc
    | reset => simp [Chunked] at hc

theorem contents_new (C N : Int) : contents (new C N : RingBuffer T) = [] := by
  simp [contents, readAvailSamples, new, Reset]

/-- C3. Round trip (FIFO). From a fresh buffer (`C ≥ 1`, `N ≥ 1`), along every
sequence of `Write` calls of non-empty chunks no larger than `WriteAvail()` and
`Read` calls of non-empty chunks no larger than `ReadAvail()`: every call
returns true; after every number `k` of calls the samples read back so far are
a prefix of all the samples written by the sequence; the samples written are
the samples read back followed by the samples still stored; and once nothing
is left to read, the samples read back are exactly the samples written. -/
theorem round_trip_fifo (C N : Int) (hC : 1 ≤ C) (hN : 1 ≤ N) (ops : List (Op T))
    (hc : Chunked (new C N) ops) :
    allSucceed (new C N) ops = true ∧
    (∀ k : Nat, readBack (new C N) (ops.take k) <+: written ops) ∧
    written ops = readBack (new C N) ops ++ contents (run (new C N) ops) ∧
    (ReadAvail (run (new C N) ops) = 0 → readBack (new C N) ops = written ops) := by
  have hwf : WF (new C N : RingBuffer T) := new_WF hC hN
  have hmain := round_trip_aux hwf rfl ops hc
  rw [contents_new, List.nil_append] at hmain
  refine ⟨hmain.1, ?_, hmain.2, ?_⟩
  · intro k
    have hk := (round_trip_aux hwf rfl (ops.take k) (Chunked_take hc k)).2
    rw [contents_new, List.nil_append] at hk
    have hsplit : written ops = written (ops.take k) ++ written (ops.drop k) := by
      rw [← written_append, List.take_append_drop]
    rw [hsplit, hk, List.append_assoc]
    exact List.prefix_append _ _
  · intro hra
    have hfin : WF (run (new C N : RingBuffer T) ops) := run_WF hwf ops
    have hz : readAvailSamples (run (new C N : RingBuffer T) ops) = 0 := by
      rw [← ReadAvail_mul hfin, hra, zero_mul]
    have hnil : contents (run (new C N : RingBuffer T) ops) = [] := by
      simp [contents, hz]
    rw [hmain.2, hnil, List.append_nil]

/-- C3, at a concrete sequence on a buffer of two stereo frames whose positions
wrap around. -/
theorem round_trip_fifo_witness :
    ((1 : Int) ≤ 2 ∧ (1 : Int) ≤ 2) ∧
    Chunked (new 2 2 : RingBuffer Int)
      [.write [1, 2, 3, 4] 2, .read [0, 0] 1, .write [5, 6] 1, .read [0, 0, 0, 0] 2] ∧
    readBack (new 2 2 : RingBuffer Int)
      [.write [1, 2, 3, 4] 2, .read [0, 0] 1, .write [5, 6] 1, .read [0, 0, 0, 0] 2] =
      [1, 2, 3, 4, 5, 6] :=
  have hc : Chunked (new 2 2 : RingBuffer Int)
      [.write [1, 2, 3, 4] 2, .read [0, 0] 1, .write [5, 6] 1, .read [0, 0, 0, 0] 2] := by
    simp only [Chunked]
    decide
  ⟨by decide, hc, (round_trip_fifo 2 2 (by decide) (by decide) _ hc).2.2.2 (by decide)⟩

/-! ### Zero-frame calls, and the calls apart from them -/

/-- A successful `Write` that is not a zero-frame write into an empty buffer
moves `len` frames from `WriteAvail()` to `ReadAvail()`. -/
theorem Write_avail {rb : RingBuffer T} (h : WF rb) (hf : rb.finished_ = false)
    (data : List T) (len : Int) (h0 : 0 ≤ len) (hle : len ≤ WriteAvail rb)
    (hne : 1 ≤ len ∨ rb.read_pos_ ≠ -1) :
    (Write rb data len).1 = true ∧
    ReadAvail (Write rb data len).2 = ReadAvail rb + len ∧
    WriteAvail (Write rb data len).2 = WriteAvail rb - len := by
  have hL : len * rb.channel_count_ ≤ writeAvailSamples rb := by
    rw [← WriteAvail_mul h]
    exact (frames_le_iff h _ _).mpr hle
  have hwf := Write_WF h data len
  have hras := (Write_contents h hf data len h0 hL hne).1
  have hg := (Write_frame rb data len).2.2
  have hN : 0 < rb.channel_count_ := h.1
  have e1 := ReadAvail_mul hwf
  have e2 := WriteAvail_mul hwf
  rw [writeAvailSamples_eq hwf] at e2
  rw [hg.1] at e1 e2
  rw [hg.2, hras, ← ReadAvail_mul h] at e2
  rw [hras, ← ReadAvail_mul h] at e1
  have e3 := WriteAvail_mul h
  rw [writeAvailSamples_eq h, ← ReadAvail_mul h] at e3
  refine ⟨(Write_true_iff rb data len).mpr ⟨hf, hL⟩, ?_, ?_⟩
  · apply Int.eq_of_mul_eq_mul_right (by omega : rb.channel_count_ ≠ 0)
    rw [e1]; ring
  · apply Int.eq_of_mul_eq_mul_right (by omega : rb.channel_count_ ≠ 0)
    rw [e2, sub_mul, e3]; ring

/-- A successful `Read` that is not a zero-frame read from a full buffer moves
`len` frames from `ReadAvail()` to `WriteAvail()`. -/
theorem Read_avail {rb : RingBuffer T} (h : WF rb) (data : List T) (len : Int)
    (h0 : 0 ≤ len) (hle : len ≤ ReadAvail rb)
    (hne : 1 ≤ len ∨ ReadAvail rb < rb.frame_capacity_) :
    (Read rb data len).1 = true ∧
    ReadAvail (Read rb data len).2.1 = ReadAvail rb - len ∧
    WriteAvail (Read rb data len).2.1 = WriteAvail rb + len := by
  have hL : len * rb.channel_count_ ≤ readAvailSamples rb := by
    rw [← ReadAvail_mul h]
    exact (frames_le_iff h _ _).mpr hle
  have hN : 0 < rb.channel_count_ := h.1
  have hne2 : 1 ≤ len ∨ readAvailSamples rb < rb.capacity_ := by
    rcases hne with hne | hne
    · exact Or.inl hne
    · right
      rw [← ReadAvail_mul h, h.2.2.1]
      exact Int.mul_lt_mul_of_pos_right hne hN
  have hwf := Read_WF h data len
  have hras := (Read_contents h data len h0 hL hne2).1
  have hg := (Read_frame rb data len).2.2
  have e1 := ReadAvail_mul hwf
  have e2 := WriteAvail_mul hwf
  rw [writeAvailSamples_eq hwf] at e2
  rw [hg.1] at e1 e2
  rw [hg.2.1, hras, ← ReadAvail_mul h] at e2
  rw [hras, ← ReadAvail_mul h] at e1
  have e3 := WriteAvail_mul h
  rw [writeAvailSamples_eq h, ← ReadAvail_mul h] at e3
  refine ⟨(Read_true_iff rb data len).mpr hL, ?_, ?_⟩
  · apply Int.eq_of_mul_eq_mul_right (by omega : rb.channel_count_ ≠ 0)
    rw [e1]; ring
  · apply Int.eq_of_mul_eq_mul_right (by omega : rb.channel_count_ ≠ 0)
    rw [e2, add_mul, e3]; ring

/-- C2, the code at the failing input. On a fresh buffer of 3 stereo frames
`Write(data, 0)` returns true; before the call `ReadAvail()` is 0 and
`WriteAvail()` is 3, after it `ReadAvail()` is 3 and `WriteAvail()` is 0: the
empty buffer has become a full one, and a `Read` of 3 frames then succeeds and
returns the 6 never-written elements of the array. -/
theorem Write_zero_frames_on_empty_buffer :
    (Write (new 3 2 : RingBuffer Int) [] 0).1 = true ∧
    ReadAvail (new 3 2 : RingBuffer Int) = 0 ∧
    WriteAvail (new 3 2 : RingBuffer Int) = 3 ∧
    ReadAvail (Write (new 3 2 : RingBuffer Int) [] 0).2 = 3 ∧
    WriteAvail (Write (new 3 2 : RingBuffer Int) [] 0).2 = 0 ∧
    Read (Write (new 3 2 : RingBuffer Int) [] 0).2 [9, 9, 9, 9, 9, 9] 3 =
      (true, new 3 2, [0, 0, 0, 0, 0, 0]) := by
  decide

/-- C6, the code at the failing input. On a buffer of 3 stereo frames filled by
one `Write` of 3 frames, `Read(out, 0)` returns true; before the call
`ReadAvail()` is 3 and `WriteAvail()` is 0, after it `ReadAvail()` is 0 and
`WriteAvail()` is 3: the 6 stored samples are no longer stored. -/
theorem Read_zero_frames_on_full_buffer :
    (Read (Write (new 3 2 : RingBuffer Int) [1, 2, 3, 4, 5, 6] 3).2 [] 0).1 = true ∧
    ReadAvail (Write (new 3 2 : RingBuffer Int) [1, 2, 3, 4, 5, 6] 3).2 = 3 ∧
    WriteAvail (Write (new 3 2 : RingBuffer Int) [1, 2, 3, 4, 5, 6] 3).2 = 0 ∧
    contents (Write (new 3 2 : RingBuffer Int) [1, 2, 3, 4, 5, 6] 3).2 = [1, 2, 3, 4, 5, 6] ∧
    ReadAvail (Read (Write (new 3 2 : RingBuffer Int) [1, 2, 3, 4, 5, 6] 3).2 [] 0).2.1 = 0 ∧
    WriteAvail (Read (Write (new 3 2 : RingBuffer Int) [1, 2, 3, 4, 5, 6] 3).2 [] 0).2.1 = 3 ∧
    contents (Read (Write (new 3 2 : RingBuffer Int) [1, 2, 3, 4, 5, 6] 3).2 [] 0).2.1 = [] := by
  decide

/-! ### The finished flag -/

/-- C7. After `MarkFinished()` on a buffer in any state reached from the
constructor, and after any further `Write`, `Read` and `MarkFinished` calls
`later` (none for "immediately"): `IsFinished()` is true; `MarkFinished` itself
left `ReadAvail()` and the stored samples as they were; every `Write` returns
false and leaves the buffer as it is; a `Read` of `n ≤ ReadAvail()` frames
returns true and fills the caller's array with the oldest stored samples in
order. -/
theorem MarkFinished_then (C N : Int) (hC : 1 ≤ C) (hN : 1 ≤ N) (ops later : List (Op T))
    (hl : ∀ op ∈ later, Op.isNotReset op = true)
    (rb rb' : RingBuffer T) (hrb : rb = run (new C N) ops)
    (hrb' : rb' = run (MarkFinished rb) later) :
    IsFinished (MarkFinished rb) = true ∧
    ReadAvail (MarkFinished rb) = ReadAvail rb ∧
    contents (MarkFinished rb) = contents rb ∧
    IsFinished rb' = true ∧
    (∀ (data : List T) (W : Int), Write rb' data W = (false, rb')) ∧
    (∀ (data : List T) (n : Int), n ≤ ReadAvail rb' → (n * N).toNat ≤ data.length →
      (Read rb' data n).1 = true ∧
      (Read rb' data n).2.2 = (contents rb').take (n * N).toNat ++ data.drop (n * N).toNat) := by
  have hwf : WF rb := by rw [hrb]; exact run_WF (new_WF hC hN) ops
  have hwf' : WF rb' := by
    rw [hrb']
    exact run_WF (step_WF hwf Op.markFinished) later
  have hfin : rb'.finished_ = true := by
    rw [hrb']
    exact run_finished _ later hl rfl
  have hch : rb'.channel_count_ = N := by
    rw [hrb', (run_geometry _ later).2.1]
    show rb.channel_count_ = N
    rw [hrb, (run_geometry _ ops).2.1]
    rfl
  refine ⟨rfl, rfl, rfl, hfin, fun data W => Write_fail rb' data W (Or.inl hfin), ?_⟩
  intro data n hn hd
  have hL : n * rb'.channel_count_ ≤ readAvailSamples rb' := by
    rw [← ReadAvail_mul hwf']
    exact (frames_le_iff hwf' _ _).mpr hn
  have := Read_out hwf' data n hL (by rw [hch]; exact hd)
  rw [hch] at this
  exact this

/-- C7, at a concrete buffer: two mono frames are written, the buffer is marked
finished, one frame is read; then `IsFinished()` is true, a `Write` of one
frame fails and a `Read` of the last frame returns it. -/
theorem MarkFinished_then_witness :
    ((1 : Int) ≤ 2 ∧ (1 : Int) ≤ 1) ∧
    IsFinished (run (MarkFinished (run (new 2 1 : RingBuffer Int) [.write [7, 8] 2]))
      [.read [0] 1]) = true ∧
    (Write (run (MarkFinished (run (new 2 1 : RingBuffer Int) [.write [7, 8] 2]))
      [.read [0] 1]) [9] 1).1 = false ∧
    (Read (run (MarkFinished (run (new 2 1 : RingBuffer Int) [.write [7, 8] 2]))
      [.read [0] 1]) [0] 1).2.2 = [8] :=
  have h := MarkFinished_then 2 1 (by decide) (by decide) [.write [7, 8] 2] [.read [0] 1]
    (by decide) (run (new 2 1 : RingBuffer Int) [.write [7, 8] 2])
    (run (MarkFinished (run (new 2 1 : RingBuffer Int) [.write [7, 8] 2])) [.read [0] 1])
    rfl rfl
  ⟨by decide, h.2.2.2.1, by rw [h.2.2.2.2.1 [9] 1],
    ((h.2.2.2.2.2 [0] 1 (by decide) (by decide)).2).trans (by decide)⟩

/-- At a concrete buffer: after one frame is written into a buffer of two
stereo frames, a `Write` of one frame succeeds and one frame is free. -/
theorem Write_succeeds_iff_WriteAvail_witness :
    ((1 : Int) ≤ 2 ∧ (1 : Int) ≤ 2 ∧ (0 : Int) ≤ 1) ∧
    ((Write (run (new 2 2 : RingBuffer Int) [.write [1, 2] 1]) [3, 4] 1).1 = true ↔
      1 ≤ WriteAvail (run (new 2 2 : RingBuffer Int) [.write [1, 2] 1])) :=
  ⟨by decide, Write_succeeds_iff_WriteAvail 2 2 (by decide) (by decide) [.write [1, 2] 1]
    (by decide) [3, 4] 1 (by decide)⟩

/-- The occupancy at a concrete buffer of three stereo frames after a write, a
read, a reset and a zero-frame write. -/
theorem occupancy_invariant_witness :
    ((1 : Int) ≤ 3 ∧ (1 : Int) ≤ 2) ∧
    ReadAvail (run (new 3 2 : RingBuffer Int)
      [.write [1, 2, 3, 4] 2, .read [0, 0] 1, .markFinished, .reset, .write [] 0]) +
    WriteAvail (run (new 3 2 : RingBuffer Int)
      [.write [1, 2, 3, 4] 2, .read [0, 0] 1, .markFinished, .reset, .write [] 0]) = 3 :=
  ⟨by decide, (occupancy_invariant 3 2 (by decide) (by decide)
    [.write [1, 2, 3, 4] 2, .read [0, 0] 1, .markFinished, .reset, .write [] 0]).2.2.2.2⟩

/-- C5, at concrete calls: a `Write` of two frames into a buffer of one frame
and a `Read` of one frame from an empty buffer return false and change
nothing. -/
theorem failure_changes_nothing_witness :
    (Write (new 1 1 : RingBuffer Int) [1, 2] 2).1 = false ∧
    (Write (new 1 1 : RingBuffer Int) [1, 2] 2).2 = new 1 1 ∧
    (Read (new 1 1 : RingBuffer Int) [5, 5] 2).1 = false ∧
    (Read (new 1 1 : RingBuffer Int) [5, 5] 2).2.1 = new 1 1 ∧
    (Read (new 1 1 : RingBuffer Int) [5, 5] 2).2.2 = [5, 5] :=
  have h := failure_changes_nothing (new 1 1 : RingBuffer Int) [1, 2] 2
  have h' := failure_changes_nothing (new 1 1 : RingBuffer Int) [5, 5] 2
  ⟨by decide, h.2.1 (by decide), by decide, (h'.2.2.2 (by decide)).1, (h'.2.2.2 (by decide)).2⟩

end RingBuffer

/-! ## Theorems: the earcon mixer -/

namespace EarconManager

/-- Clipping and then storing into an `int16_t` is clamping to
`[-32768, 32767]`: the store never wraps. -/
theorem toInt16_clip (v : Int) : toInt16 (clip v) = max (-32768) (min 32767 v) := by
  unfold toInt16 clip
  simp only [max_def, min_def]
  split_ifs <;> omega

/-- A loop that replaces element `j` by a function of `j` and of the element,
for `j` below `K`. -/
theorem foldl_set_range (g : Nat → Int → Int) (K : Nat) (data : List Int) :
    (List.range K).foldl (fun d j => d.set j (g j (d.getD j 0))) data =
      (List.range data.length).map
        (fun j => if j < K then g j (data.getD j 0) else data.getD j 0) := by
  induction K with
  | zero =>
    simp only [List.range_zero, List.foldl_nil, Nat.not_lt_zero, if_false]
    rw [RingBuffer.map_getD_range data 0 data.length (le_refl _), List.take_length]
  | succ K ih =>
    rw [List.range_succ, List.foldl_append, ih]
    simp only [List.foldl_cons, List.foldl_nil]
    apply List.ext_getElem
    · simp
    · intro i h1 h2
      simp only [List.length_map, List.length_range] at h2
      simp only [List.getElem_set, List.getElem_map, List.getElem_range,
        List.getD_eq_getElem?_getD]
      by_cases hK : K = i
      · subst hK
        simp [h2]
      · simp only [hK, if_false]
        have : (i < K + 1) ↔ (i < K) := by omega
        simp only [this]

/-- The body of the loop of `FillAudioBuffer` does to one clip and to the
caller's array what the specification says. -/
theorem fillOne_eq (channels n : Int) (e : Earcon) (buf : List Int) (hn : 0 ≤ n)
    (hp : e.position ≤ e.frame_count) :
    fillOne channels n e buf = (advanced n e, mixedWith channels n buf e) := by
  unfold fillOne advanced mixedWith
  cases hplay : e.is_playing
  · simp
  · simp only [Bool.not_true, Bool.false_eq_true, if_false, if_true]
    have hcount : (if n > e.frame_count - e.position then e.frame_count - e.position else n) =
        min (e.frame_count - e.position) n := by
      simp only [min_def]
      split_ifs <;> omega
    rw [hcount]
    generalize hk : min (e.frame_count - e.position) n = k
    have hk0 : 0 ≤ k := by rw [← hk]; exact le_min (by omega) hn
    have hk1 : k ≤ e.frame_count - e.position := by rw [← hk]; exact min_le_left _ _
    congr 1
    · have : (if e.position + k = e.frame_count then false else true) =
          decide (e.position + k < e.frame_count) := by
        split_ifs with h
        · simp [h]
        · simp only [true_eq_decide_iff]; omega
      rw [this]
    · rw [foldl_set_range (fun j v =>
        toInt16 (clip (v + e.data.getD (channels * e.position + (j : Int)).toNat 0)))]
      apply List.map_congr_left
      intro j _
      have : (j < (k * channels).toNat) ↔ ((j : Int) < k * channels) := by omega
      simp only [this, toInt16_clip]

theorem fillLoop_eq (channels n : Int) (hn : 0 ≤ n) :
    ∀ (es : List Earcon) (buf : List Int),
      (∀ e ∈ es, 0 ≤ e.position ∧ e.position ≤ e.frame_count) →
      fillLoop channels n es buf =
        (es.map (advanced n), es.foldl (mixedWith channels n) buf)
  | [], _, _ => rfl
  | e :: es, buf, h => by
    have he := h e (List.mem_cons_self _ _)
    rw [fillLoop, fillOne_eq channels n e buf hn he.2,
      fillLoop_eq channels n hn es _ (fun x hx => h x (List.mem_cons_of_mem _ hx))]
    rfl

theorem mixedWith_length (channels n : Int) (buf : List Int) (e : Earcon) :
    (mixedWith channels n buf e).length = buf.length := by
  unfold mixedWith
  split_ifs <;> simp

theorem mixedWith_getD (channels n : Int) (buf : List Int) (e : Earcon)
    (he : e.is_playing = true) (j : Nat) (hj : j < buf.length) :
    (mixedWith channels n buf e).getD j 0 =
      if (j : Int) < min (e.frame_count - e.position) n * channels then
        max (-32768) (min 32767
          (buf.getD j 0 + e.data.getD (channels * e.position + (j : Int)).toNat 0))
      else buf.getD j 0 := by
  unfold mixedWith
  simp only [he, if_true]
  rw [List.getD_eq_getElem?_getD, List.getElem?_eq_getElem (by simpa using hj)]
  simp

theorem getD_isInt16 (l : List Int) (h : ∀ v ∈ l, IsInt16 v) (i : Nat) :
    IsInt16 (l.getD i 0) := by
  by_cases hi : i < l.length
  · rw [List.getD_eq_getElem?_getD, List.getElem?_eq_getElem hi]
    exact h _ (List.getElem_mem hi)
  · rw [List.getD_eq_getElem?_getD, List.getElem?_eq_none (by omega)]
    exact ⟨by decide, by decide⟩

/-- C8. Saturating mix of two clips. In a manager whose clips are `a` and `b`,
both playing with at least `n` frames left, `FillAudioBuffer` on a zero-filled
array of `n` frames returns normally, and every sample `j` of the result is the
integer sum of the two clips' samples clamped to `[-32768, 32767]`: it fits an
`int16_t`, it is 32767 when the sum is above 32767 and -32768 when the sum is
below -32768. -/
theorem two_clips_mix_saturates (rate ch n : Int) (a b : Earcon)
    (ha : a.is_playing = true) (hb : b.is_playing = true) (hn : 0 ≤ n)
    (hpa : 0 ≤ a.position) (hpb : 0 ≤ b.position)
    (hra : n ≤ a.frame_count - a.position) (hrb : n ≤ b.frame_count - b.position)
    (hda : ∀ v ∈ a.data, IsInt16 v) :
    ∃ (m' : EarconManager) (buf' : List Int),
      FillAudioBuffer { earcons_ := [a, b], rate_ := rate, channels_ := ch }
        (List.replicate (n * ch).toNat 0) n ch = .ok (m', buf') ∧
      buf'.length = (n * ch).toNat ∧
      ∀ j : Nat, j < (n * ch).toNat →
        buf'.getD j 0 = max (-32768) (min 32767
          (a.data.getD (ch * a.position + (j : Int)).toNat 0 +
            b.data.getD (ch * b.position + (j : Int)).toNat 0)) ∧
        IsInt16 (buf'.getD j 0) ∧
        (32767 < a.data.getD (ch * a.position + (j : Int)).toNat 0 +
            b.data.getD (ch * b.position + (j : Int)).toNat 0 → buf'.getD j 0 = 32767) ∧
        (a.data.getD (ch * a.position + (j : Int)).toNat 0 +
            b.data.getD (ch * b.position + (j : Int)).toNat 0 < -32768 →
          buf'.getD j 0 = -32768) := by
  refine ⟨{ earcons_ := [a, b].map (advanced n), rate_ := rate, channels_ := ch },
    [a, b].foldl (mixedWith ch n) (List.replicate (n * ch).toNat 0), ?_, ?_, ?_⟩
  · unfold FillAudioBuffer
    simp only [ne_eq, not_true_eq_false, if_false]
    rw [fillLoop_eq ch n hn [a, b] _ (by
      intro e he
      simp only [List.mem_cons, List.mem_singleton, List.not_mem_nil, or_false] at he
      rcases he with he | he <;> subst he <;> omega)]
  · simp [mixedWith_length]
  · intro j hj
    have hsa := getD_isInt16 a.data hda (ch * a.position + (j : Int)).toNat
    have hjn : (j : Int) < n * ch := by omega
    have hval : (List.foldl (mixedWith ch n) (List.replicate (n * ch).toNat 0) [a, b]).getD j 0 =
        max (-32768) (min 32767
          (a.data.getD (ch * a.position + (j : Int)).toNat 0 +
            b.data.getD (ch * b.position + (j : Int)).toNat 0)) := by
      simp only [List.foldl_cons, List.foldl_nil]
      rw [mixedWith_getD ch n _ b hb j (by simpa [mixedWith_length] using hj),
        mixedWith_getD ch n _ a ha j (by simpa using hj),
        min_eq_right hra, min_eq_right hrb]
      simp only [hjn, if_true]
      have hz : (List.replicate (n * ch).toNat (0 : Int)).getD j 0 = 0 := by
        simp [List.getD_eq_getElem?_getD, List.getElem?_replicate, hjn]
      rw [hz, zero_add]
      have : max (-32768) (min 32767 (a.data.getD (ch * a.position + (j : Int)).toNat 0)) =
          a.data.getD (ch * a.position + (j : Int)).toNat 0 := by
        unfold IsInt16 at hsa
        simp only [max_def, min_def]
        split_ifs <;> omega
      rw [this]
    rw [hval]
    generalize a.data.getD (ch * a.position + (j : Int)).toNat 0 +
      b.data.getD (ch * b.position + (j : Int)).toNat 0 = sum
    unfold IsInt16
    simp only [max_def, min_def]
    refine ⟨trivial, ?_, ?_, ?_⟩ <;> split_ifs <;> omega

/-- C8, at two concrete mono clips whose sums overflow upwards at sample 0 and
downwards at sample 1: the mixed samples are 32767, -32768 and 5 + 7. -/
theorem two_clips_mix_saturates_witness :
    (clipA.is_playing = true ∧ clipB.is_playing = true ∧ (0 : Int) ≤ 3 ∧
      0 ≤ clipA.position ∧ 0 ≤ clipB.position ∧
      3 ≤ clipA.frame_count - clipA.position ∧ 3 ≤ clipB.frame_count - clipB.position) ∧
    (FillAudioBuffer { earcons_ := [clipA, clipB], rate_ := 16000, channels_ := 1 }
        (List.replicate ((3 : Int) * 1).toNat 0) 3 1).toOption.map Prod.snd =
      some [32767, -32768, 12] ∧
    ∃ (m' : EarconManager) (buf' : List Int),
      FillAudioBuffer { earcons_ := [clipA, clipB], rate_ := 16000, channels_ := 1 }
        (List.replicate ((3 : Int) * 1).toNat 0) 3 1 = .ok (m', buf') ∧
      buf'.length = ((3 : Int) * 1).toNat ∧
      ∀ j : Nat, j < ((3 : Int) * 1).toNat →
        buf'.getD j 0 = max (-32768) (min 32767
          (clipA.data.getD (1 * clipA.position + (j : Int)).toNat 0 +
            clipB.data.getD (1 * clipB.position + (j : Int)).toNat 0)) ∧
        IsInt16 (buf'.getD j 0) ∧
        (32767 < clipA.data.getD (1 * clipA.position + (j : Int)).toNat 0 +
            clipB.data.getD (1 * clipB.position + (j : Int)).toNat 0 → buf'.getD j 0 = 32767) ∧
        (clipA.data.getD (1 * clipA.position + (j : Int)).toNat 0 +
            clipB.data.getD (1 * clipB.position + (j : Int)).toNat 0 < -32768 →
          buf'.getD j 0 = -32768) :=
  ⟨by decide, by decide,
    two_clips_mix_saturates 16000 1 3 clipA clipB rfl rfl (by decide) (by decide) (by decide)
      (by decide) (by decide) (by unfold IsInt16; decide)⟩

/-- C10. In a manager whose clips all have `0 ≤ position ≤ frame_count`, a
call `FillAudioBuffer(buf, n, channels)` with `n ≥ 0` and the manager's channel
count returns normally; every clip is advanced as the specification says
(`advanced`: a playing clip moves by `k = min (F - p) n` frames and stays
playing exactly when `p + k < F`, a clip that is not playing is untouched) and
the caller's array is the result of mixing the clips in, one after the other,
as the specification says (`mixedWith`: a playing clip is added, with
saturation, into the first `k` frames; the samples from frame `k` on, and the
whole array for a clip that is not playing, are left alone). -/
theorem FillAudioBuffer_spec (m : EarconManager) (buf : List Int) (n : Int) (hn : 0 ≤ n)
    (hpos : ∀ e ∈ m.earcons_, 0 ≤ e.position ∧ e.position ≤ e.frame_count) :
    FillAudioBuffer m buf n m.channels_ =
      .ok ({ m with earcons_ := m.earcons_.map (advanced n) },
           m.earcons_.foldl (mixedWith m.channels_ n) buf) ∧
    (∀ e ∈ m.earcons_, e.is_playing = false →
      advanced n e = e ∧ ∀ b : List Int, mixedWith m.channels_ n b e = b) ∧
    (∀ e ∈ m.earcons_, e.is_playing = true →
      (advanced n e).position = e.position + min (e.frame_count - e.position) n ∧
      ((advanced n e).is_playing = true ↔
        e.position + min (e.frame_count - e.position) n < e.frame_count) ∧
      (advanced n e).frame_count = e.frame_count ∧ (advanced n e).data = e.data ∧
      ∀ (b : List Int) (j : Nat), j < b.length →
        (mixedWith m.channels_ n b e).length = b.length ∧
        ((j : Int) < min (e.frame_count - e.position) n * m.channels_ →
          (mixedWith m.channels_ n b e).getD j 0 = max (-32768) (min 32767
            (b.getD j 0 + e.data.getD (m.channels_ * e.position + (j : Int)).toNat 0))) ∧
        (min (e.frame_count - e.position) n * m.channels_ ≤ (j : Int) →
          (mixedWith m.channels_ n b e).getD j 0 = b.getD j 0)) := by
  refine ⟨?_, ?_, ?_⟩
  · unfold FillAudioBuffer
    rw [fillLoop_eq m.channels_ n hn m.earcons_ buf hpos]
    simp
  · intro e _ he
    simp [advanced, mixedWith, he]
  · intro e _ he
    refine ⟨by simp [advanced, he], by simp [advanced, he], by simp [advanced, he],
      by simp [advanced, he], ?_⟩
    intro b j hj
    refine ⟨mixedWith_length _ _ _ _, fun hlt => ?_, fun hge => ?_⟩
    · rw [mixedWith_getD _ _ _ _ he j hj, if_pos hlt]
    · rw [mixedWith_getD _ _ _ _ he j hj, if_neg (by omega)]

/-- C10, at a concrete stereo manager (`mixer3`) and a call for two frames:
the first clip plays its last frame and stops, the second is untouched, the
third advances by two frames and keeps playing. -/
theorem FillAudioBuffer_spec_witness :
    ((0 : Int) ≤ 2 ∧ ∀ e ∈ mixer3.earcons_, 0 ≤ e.position ∧ e.position ≤ e.frame_count) ∧
    FillAudioBuffer mixer3 [100, 200, 300, 32767] 2 mixer3.channels_ =
      .ok ({ mixer3 with earcons_ := mixer3.earcons_.map (advanced 2) },
           mixer3.earcons_.foldl (mixedWith mixer3.channels_ 2) [100, 200, 300, 32767]) ∧
    mixer3.earcons_.foldl (mixedWith mixer3.channels_ 2) [100, 200, 300, 32767] =
      [113, 224, 330, 32767] ∧
    (mixer3.earcons_.map (advanced 2)).map (fun e => (e.position, e.is_playing)) =
      [(2, false), (0, false), (2, true)] :=
  ⟨by decide,
    (FillAudioBuffer_spec mixer3 [100, 200, 300, 32767] 2 (by decide) (by decide)).1,
    by decide, by decide⟩

/-- C9, the code at the scenario's input. For every clip data, loop flag and
resampling library, loading 100 mono frames at 8000 Hz into a manager for
16000 Hz stereo output does not return: `LoadEarcon` hands the manager's
channel count 2 to `Resampler::Receive`, whose first check ends the process
with `exit(-1)`. -/
theorem LoadEarcon_mono_8000_into_stereo_16000 {H F : Type} (lib : Libresample H F)
    (fuel : Nat) (earcons : List Earcon) (data : List Int) (loop : Bool) :
    LoadEarcon lib fuel { earcons_ := earcons, rate_ := 16000, channels_ := 2 }
      100 data 1 8000 loop = .error (.exit (-1)) := by
  simp [LoadEarcon, convertChannels, Resampler.Receive]

end EarconManager

/-! ## Theorems: the speech service -/

namespace TtsEngine

/-- The loop of `GetVoiceIndex` returns -1 exactly when no voice matches. -/
theorem voiceIndexFrom_eq_neg_one (pattern : TtsVoice) :
    ∀ (voices : List TtsVoice) (i : Int), 0 ≤ i →
      (voiceIndexFrom pattern voices i = -1 ↔ ∀ v ∈ voices, VoiceMatches v pattern = false)
  | [], i, _ => by simp [voiceIndexFrom]
  | v :: vs, i, hi => by
    have ih := voiceIndexFrom_eq_neg_one pattern vs (i + 1) (by omega)
    cases hm : VoiceMatches v pattern
    · simp [voiceIndexFrom, hm, ih]
    · simp only [voiceIndexFrom, hm, if_true, List.mem_cons, forall_eq_or_imp]
      constructor
      · intro h; omega
      · intro h; simp at h

theorem GetVoiceIndex_eq_neg_one (e : TtsEngine) (pattern : TtsVoice) :
    e.GetVoiceIndex pattern = -1 ↔ ∀ v ∈ e.voices, VoiceMatches v pattern = false :=
  voiceIndexFrom_eq_neg_one pattern e.voices 0 (le_refl 0)

end TtsEngine

namespace TtsService

theorem discardAll_eq (l : List Utterance) : discardAll l = [] := by
  induction l with
  | nil => rfl
  | cons u l ih => exact ih

theorem Reset_avail {rb : RingBuffer Int} (h : rb.WF) :
    rb.Reset.ReadAvail = 0 ∧ rb.Reset.WriteAvail = rb.frame_capacity_ ∧
    rb.Reset.IsFinished = false := by
  obtain ⟨hN, hC, hcap, _⟩ := h
  refine ⟨by simp [RingBuffer.ReadAvail, RingBuffer.Reset], ?_, rfl⟩
  have hpos : ¬ rb.capacity_ < 0 := by
    rw [hcap]
    have := Int.mul_pos hC hN
    omega
  simp only [RingBuffer.WriteAvail, RingBuffer.writeAvailSamples, RingBuffer.Reset, ne_eq,
    not_true_eq_false, if_false, hpos]
  rw [hcap]
  exact Int.mul_tdiv_cancel _ (by omega)

/-- C12. `Stop` on a running service whose ring buffer is a well-formed buffer
in any state: afterwards `ReadAvail()` is 0, `WriteAvail()` is the frame
capacity, the buffer is not finished, the utterance queue is empty and the
utterance-running flag is false, whatever they were; the earcon manager (play
state and position of every earcon) and the other fields are as before. On a
service that is not running `Stop` changes nothing. -/
theorem Stop_spec (s : TtsService) (hwf : s.ring_buffer_.WF) :
    (s.service_running_ = true →
      (Stop s).ring_buffer_.ReadAvail = 0 ∧
      (Stop s).ring_buffer_.WriteAvail = s.ring_buffer_.GetFrameCapacity ∧
      (Stop s).ring_buffer_.IsFinished = false ∧
      (Stop s).utterances_ = [] ∧
      (Stop s).utterance_running_ = false ∧
      (Stop s).earcon_manager_ = s.earcon_manager_ ∧
      (Stop s).service_running_ = true ∧
      (Stop s).current_utterance_ = s.current_utterance_ ∧
      (Stop s).stop_when_finished_ = s.stop_when_finished_) ∧
    (s.service_running_ = false → Stop s = s) := by
  have hr := Reset_avail hwf
  constructor
  · intro hrun
    have e : Stop s = { s with
        ring_buffer_ := s.ring_buffer_.Reset
        utterances_ := discardAll s.utterances_
        utterance_running_ := false
        signals_ := s.signals_ + 1 } := by
      simp [Stop, hrun]
    rw [e]
    exact ⟨hr.1, hr.2.1, hr.2.2, discardAll_eq _, rfl, rfl, hrun, rfl, rfl⟩
  · intro hrun
    simp [Stop, hrun]

/-- C15. `GetStatus` returns `TTS_ERROR` when the service is not running; on a
running service it returns `TTS_IDLE` exactly when the utterance queue is
empty and the utterance-running flag is false, and `TTS_BUSY` otherwise; the
service is as before. -/
theorem GetStatus_spec (s : TtsService) :
    (s.service_running_ = false → (GetStatus s).1 = .TTS_ERROR) ∧
    (s.service_running_ = true →
      ((GetStatus s).1 = .TTS_IDLE ↔ (s.utterances_ = [] ∧ s.utterance_running_ = false)) ∧
      ((GetStatus s).1 = .TTS_BUSY ↔ ¬ (s.utterances_ = [] ∧ s.utterance_running_ = false))) ∧
    (GetStatus s).2 = s := by
  refine ⟨?_, ?_, ?_⟩
  · intro h
    simp [GetStatus, h]
  · intro h
    unfold GetStatus
    simp only [h, Bool.not_true, Bool.false_eq_true, if_false]
    by_cases hq : s.utterances_ = [] <;> cases hu : s.utterance_running_ <;>
      simp [hq, List.isEmpty_iff]
  · unfold GetStatus
    split_ifs <;> rfl

/-- C16. `Speak` on a service that is not running returns with the service
exactly as before, for every text and every options pointer (null or not): no
utterance is queued and no field changes. -/
theorem Speak_not_running (s : TtsService) (text : String)
    (options : Option UtteranceOptions) (h : s.service_running_ = false) :
    Speak s text options = some s := by
  simp [Speak, h]

/-- C17. `Speak(text, options)` on a running service with non-null options
returns with exactly one utterance appended at the tail of the queue; the
utterance has the given text and a copy of the options with the same
completion callback, rate, pitch and volume; its voice index is 0 when the
options have no voice pattern or no voice of the engine matches the pattern,
and the index `GetVoiceIndex` returns for the pattern when some voice matches;
the other fields of the service are as before. -/
theorem Speak_running (s : TtsService) (text : String) (o : UtteranceOptions)
    (h : s.service_running_ = true) :
    ∃ (u : Utterance) (o' : UtteranceOptions),
      Speak s text (some o) =
        some { s with utterances_ := s.utterances_ ++ [u], signals_ := s.signals_ + 1 } ∧
      u.text = text ∧ u.options = some o' ∧
      o'.completion = o.completion ∧ o'.rate = o.rate ∧ o'.pitch = o.pitch ∧
      o'.volume = o.volume ∧ o'.voice_options = o.voice_options ∧
      (o.voice_options = none → u.voice_index = 0) ∧
      (∀ pattern, o.voice_options = some pattern →
        (∃ v ∈ s.engine_.voices, TtsEngine.VoiceMatches v pattern = true) →
        u.voice_index = s.engine_.GetVoiceIndex pattern) ∧
      (∀ pattern, o.voice_options = some pattern →
        (¬ ∃ v ∈ s.engine_.voices, TtsEngine.VoiceMatches v pattern = true) →
        u.voice_index = 0) := by
  refine ⟨{ text := text
            voice_index :=
              match o.voice_options with
              | none => 0
              | some voice_options =>
                if s.engine_.GetVoiceIndex voice_options = -1 then 0
                else s.engine_.GetVoiceIndex voice_options
            options := some o.copy },
    o.copy, ?_, rfl, rfl, rfl, rfl, rfl, rfl, ?_, ?_, ?_, ?_⟩
  · simp only [Speak, h, Bool.not_true, Bool.false_eq_true, if_false]
  · unfold UtteranceOptions.copy
    cases o.voice_options <;> rfl
  · intro hnone
    simp [hnone]
  · intro pattern hp hex
    have hne : s.engine_.GetVoiceIndex pattern ≠ -1 := by
      intro heq
      rw [TtsEngine.GetVoiceIndex_eq_neg_one] at heq
      obtain ⟨v, hv, hm⟩ := hex
      rw [heq v hv] at hm
      exact absurd hm (by simp)
    simp [hp, hne]
  · intro pattern hp hex
    have heq : s.engine_.GetVoiceIndex pattern = -1 := by
      rw [TtsEngine.GetVoiceIndex_eq_neg_one]
      intro v hv
      by_contra hcon
      exact hex ⟨v, hv, by simpa using hcon⟩
    simp [hp, heq]

/-- C18. `Receive` returns `TTS_CALLBACK_HALT` with the service (and so the
ring buffer) exactly as before whenever the service is not running or the
utterance-running flag is false, for every rate, channel count, data and frame
count, and whatever the other threads would do during a wait. -/
theorem Receive_halts (wait : TtsService → TtsService) (fuel : Nat) (s : TtsService)
    (rate num_channels : Int) (data : List Int) (num_frames : Int)
    (h : s.service_running_ = false ∨ s.utterance_running_ = false) :
    Receive wait fuel s rate num_channels data num_frames = .ok (.TTS_CALLBACK_HALT, s) := by
  unfold Receive
  rcases h with h | h <;> simp [h]

/-- A loop that stores `v` in the `n` elements from index `start` on. -/
theorem foldl_set_from (v : Int) (start n : Nat) (l : List Int) :
    (List.range n).foldl (fun a k => a.set (start + k) v) l =
      (List.range l.length).map
        (fun j => if start ≤ j ∧ j < start + n then v else l.getD j 0) := by
  induction n with
  | zero =>
    have : ∀ j : Nat, ¬ (start ≤ j ∧ j < start + 0) := fun j => by omega
    simp only [List.range_zero, List.foldl_nil, this, if_false]
    rw [RingBuffer.map_getD_range l 0 l.length (le_refl _), List.take_length]
  | succ n ih =>
    rw [List.range_succ, List.foldl_append, ih]
    simp only [List.foldl_cons, List.foldl_nil]
    apply List.ext_getElem
    · simp
    · intro i h1 h2
      simp only [List.length_map, List.length_range] at h2
      simp only [List.getElem_set, List.getElem_map, List.getElem_range]
      by_cases hK : start + n = i
      · subst hK
        simp
      · simp only [hK, if_false]
        have : (start ≤ i ∧ i < start + (n + 1)) ↔ (start ≤ i ∧ i < start + n) := by omega
        simp only [this]

theorem ReadAvail_nonneg {rb : RingBuffer Int} (h : rb.WF) : 0 ≤ rb.ReadAvail := by
  have hb := RingBuffer.readAvailSamples_bounds h
  have hm := RingBuffer.ReadAvail_mul h
  have hN : 0 < rb.channel_count_ := h.1
  by_contra hneg
  have : rb.ReadAvail * rb.channel_count_ < 0 :=
    Int.mul_neg_of_neg_of_pos (by omega) hN
  omega

/-- The value of `copy_len`, case by case, and its bounds. -/
theorem copy_len_eq (s : TtsService) (frame_count : Int) :
    copy_len s frame_count =
      if s.ring_buffer_.IsFinished = true then min s.ring_buffer_.ReadAvail frame_count
      else if frame_count ≤ s.ring_buffer_.ReadAvail then frame_count else 0 := by
  unfold copy_len
  simp only [min_def, ge_iff_le]
  split_ifs <;> omega

theorem copy_len_bounds (s : TtsService) (frame_count : Int) (hwf : s.ring_buffer_.WF)
    (h0 : 0 ≤ frame_count) :
    0 ≤ copy_len s frame_count ∧ copy_len s frame_count ≤ frame_count ∧
    copy_len s frame_count ≤ s.ring_buffer_.ReadAvail := by
  have := ReadAvail_nonneg hwf
  rw [copy_len_eq]
  simp only [min_def]
  split_ifs <;> omega

/-- The first part of `FillAudioBuffer` puts the `copy_len` oldest frames of
the ring buffer at the start of the caller's array and zeros after them. -/
theorem drain_samples (s : TtsService) (samples : List Int) (frame_count : Int)
    (hwf : s.ring_buffer_.WF) (h0 : 0 ≤ frame_count)
    (hlen : samples.length = (frame_count * s.ring_buffer_.channel_count_).toNat) :
    (s.ring_buffer_.Read samples (copy_len s frame_count)).1 = true ∧
    (drain s samples frame_count s.ring_buffer_.channel_count_).1 =
      (s.ring_buffer_.Read samples (copy_len s frame_count)).2.1 ∧
    (drain s samples frame_count s.ring_buffer_.channel_count_).2 =
      s.ring_buffer_.contents.take (copy_len s frame_count * s.ring_buffer_.channel_count_).toNat ++
        List.replicate
          ((frame_count - copy_len s frame_count) * s.ring_buffer_.channel_count_).toNat 0 := by
  have hb := copy_len_bounds s frame_count hwf h0
  have hN : 0 < s.ring_buffer_.channel_count_ := hwf.1
  generalize hk : copy_len s frame_count = k at hb
  have hL : k * s.ring_buffer_.channel_count_ ≤ s.ring_buffer_.readAvailSamples := by
    rw [← RingBuffer.ReadAvail_mul hwf]
    exact (RingBuffer.frames_le_iff hwf _ _).mpr hb.2.2
  have hkN : 0 ≤ k * s.ring_buffer_.channel_count_ := Int.mul_nonneg hb.1 (le_of_lt hN)
  have hfN : k * s.ring_buffer_.channel_count_ ≤ frame_count * s.ring_buffer_.channel_count_ :=
    (RingBuffer.frames_le_iff hwf _ _).mpr hb.2.1
  have hout := RingBuffer.Read_out hwf samples k hL (by omega)
  refine ⟨hout.1, by simp only [drain, hk], ?_⟩
  simp only [drain, hk]
  rw [hout.2]
  have hclen := RingBuffer.contents_length s.ring_buffer_
  generalize s.ring_buffer_.contents = c at hclen ⊢
  generalize s.ring_buffer_.readAvailSamples = m at hclen hL
  generalize hNdef : s.ring_buffer_.channel_count_ = N at *
  have hfun : (fun (a : List Int) (j : Nat) => a.set (k * N + (j : Int)).toNat 0) =
      (fun a j => a.set ((k * N).toNat + j) 0) := by
    funext a j
    congr 1
    omega
  rw [hfun, foldl_set_from]
  apply List.ext_getElem
  · simp only [List.length_map, List.length_range, List.length_append, List.length_take,
      List.length_drop, List.length_replicate]
    have : ((frame_count - k) * N).toNat = (frame_count * N).toNat - (k * N).toNat := by
      rw [sub_mul]; omega
    omega
  · intro i h1 h2
    simp only [List.length_map, List.length_range, List.length_append, List.length_take,
      List.length_drop] at h1
    simp only [List.getElem_map, List.getElem_range]
    have hsub : ((frame_count - k) * N).toNat = (frame_count * N).toNat - (k * N).toNat := by
      rw [sub_mul]; omega
    by_cases hi : i < (k * N).toNat
    · have hnot : ¬ ((k * N).toNat ≤ i ∧
          i < (k * N).toNat + (frame_count * N - k * N).toNat) := by omega
      rw [if_neg hnot, List.getD_eq_getElem?_getD]
      rw [List.getElem?_append_left (by simp; omega),
        List.getElem_append_left (by simp; omega)]
      rw [List.getElem?_eq_getElem (by simp; omega)]
      rfl
    · have hyes : (k * N).toNat ≤ i ∧
          i < (k * N).toNat + (frame_count * N - k * N).toNat := by omega
      rw [if_pos hyes, List.getElem_append_right (by simp; omega)]
      simp

/-- C13, amended. In `FillAudioBuffer` on a well-formed ring buffer, for a
request of `frame_count ≥ 0` frames: when the buffer is marked finished the
number of frames copied from it is `min(ReadAvail(), frame_count)`; when it is
not marked finished the number is `frame_count` if `ReadAvail() ≥ frame_count`
and 0 otherwise. The `Read` of that many frames succeeds, and before the
earcons are mixed in the caller's array holds that many oldest frames of the
ring buffer followed by zeros. -/
theorem FillAudioBuffer_copies (s : TtsService) (samples : List Int) (frame_count : Int)
    (hwf : s.ring_buffer_.WF) (h0 : 0 ≤ frame_count)
    (hlen : samples.length = (frame_count * s.ring_buffer_.channel_count_).toNat) :
    (s.ring_buffer_.IsFinished = true →
      copy_len s frame_count = min s.ring_buffer_.ReadAvail frame_count) ∧
    (s.ring_buffer_.IsFinished = false → frame_count ≤ s.ring_buffer_.ReadAvail →
      copy_len s frame_count = frame_count) ∧
    (s.ring_buffer_.IsFinished = false → s.ring_buffer_.ReadAvail < frame_count →
      copy_len s frame_count = 0) ∧
    (s.ring_buffer_.Read samples (copy_len s frame_count)).1 = true ∧
    (drain s samples frame_count s.ring_buffer_.channel_count_).2 =
      s.ring_buffer_.contents.take (copy_len s frame_count * s.ring_buffer_.channel_count_).toNat ++
        List.replicate
          ((frame_count - copy_len s frame_count) * s.ring_buffer_.channel_count_).toNat 0 := by
  have hd := drain_samples s samples frame_count hwf h0 hlen
  have he := copy_len_eq s frame_count
  refine ⟨fun hf => ?_, fun hf hle => ?_, fun hf hlt => ?_, hd.1, hd.2.2⟩
  · rw [he, if_pos hf]
  · rw [he, if_neg (by simp [hf]), if_pos hle]
  · rw [he, if_neg (by simp [hf]), if_neg (by omega)]

/-- C13, at a concrete service (`servicePartly`: ring buffer of four mono
frames, not marked finished, holding one frame) and a request for two frames:
the premises hold and the call copies no frame from the ring buffer. -/
theorem FillAudioBuffer_copies_witness :
    ((0 : Int) ≤ 2 ∧
      [9, 9].length = ((2 : Int) * servicePartly.ring_buffer_.channel_count_).toNat) ∧
    (servicePartly.ring_buffer_.Read [9, 9] (copy_len servicePartly 2)).1 = true ∧
    (drain servicePartly [9, 9] 2 servicePartly.ring_buffer_.channel_count_).2 =
      servicePartly.ring_buffer_.contents.take
          (copy_len servicePartly 2 * servicePartly.ring_buffer_.channel_count_).toNat ++
        List.replicate
          ((2 - copy_len servicePartly 2) * servicePartly.ring_buffer_.channel_count_).toNat 0 ∧
    copy_len servicePartly 2 = 0 :=
  have h := FillAudioBuffer_copies servicePartly [9, 9] 2
    (RingBuffer.Write_WF (RingBuffer.new_WF (by decide) (by decide)) [5] 1)
    (by decide) (by decide)
  ⟨by decide, h.2.2.2.1, h.2.2.2.2, h.2.2.1 (by decide) (by decide)⟩

/-- C13 as stated fails. On `servicePartly` the ring buffer is not marked
finished and `ReadAvail()` is 1; for a request of two frames
`min(ReadAvail(), frame_count)` is 1, but `copy_len` is 0: the caller's array
comes back as two zero frames and the frame stays in the ring buffer. -/
theorem FillAudioBuffer_partly_filled :
    servicePartly.ring_buffer_.IsFinished = false ∧
    servicePartly.ring_buffer_.ReadAvail = 1 ∧
    ¬ (copy_len servicePartly 2 = min servicePartly.ring_buffer_.ReadAvail 2) ∧
    (FillAudioBuffer servicePartly [9, 9] 2 1).toOption.map (fun r => r.2.2) = some [0, 0] ∧
    (FillAudioBuffer servicePartly [9, 9] 2 1).toOption.map
      (fun r => r.2.1.ring_buffer_.contents) = some [5] := by
  decide

theorem fillLoop_idle (channels n : Int) :
    ∀ (es : List Earcon) (data : List Int), (∀ e ∈ es, e.is_playing = false) →
      EarconManager.fillLoop channels n es data = (es, data)
  | [], _, _ => rfl
  | e :: es, data, h => by
    have he := h e (List.mem_cons_self _ _)
    rw [EarconManager.fillLoop]
    simp only [EarconManager.fillOne, he, Bool.not_false, if_true]
    rw [fillLoop_idle channels n es data (fun x hx => h x (List.mem_cons_of_mem _ hx))]

/-- Apart from a zero-frame read from a full ring buffer, `FillAudioBuffer`
with no earcon playing removes `copy_len` frames from the ring buffer and
returns them, followed by zeros, in the caller's array. -/
theorem FillAudioBuffer_fills (s : TtsService) (samples : List Int) (frame_count : Int)
    (hwf : s.ring_buffer_.WF) (h0 : 0 ≤ frame_count)
    (hlen : samples.length = (frame_count * s.ring_buffer_.channel_count_).toNat)
    (hch : s.earcon_manager_.channels_ = s.ring_buffer_.channel_count_)
    (hidle : ∀ e ∈ s.earcon_manager_.earcons_, e.is_playing = false)
    (hok : 1 ≤ copy_len s frame_count ∨ s.ring_buffer_.ReadAvail < s.ring_buffer_.frame_capacity_) :
    ∃ (b : Bool) (s' : TtsService),
      FillAudioBuffer s samples frame_count s.ring_buffer_.channel_count_ =
        .ok (b, s',
          s.ring_buffer_.contents.take
              (copy_len s frame_count * s.ring_buffer_.channel_count_).toNat ++
            List.replicate
              ((frame_count - copy_len s frame_count) * s.ring_buffer_.channel_count_).toNat 0) ∧
      s'.ring_buffer_.ReadAvail = s.ring_buffer_.ReadAvail - copy_len s frame_count ∧
      s'.ring_buffer_.contents =
        s.ring_buffer_.contents.drop
          (copy_len s frame_count * s.ring_buffer_.channel_count_).toNat ∧
      s'.earcon_manager_ = s.earcon_manager_ := by
  have hd := drain_samples s samples frame_count hwf h0 hlen
  have hb := copy_len_bounds s frame_count hwf h0
  have hN : 0 < s.ring_buffer_.channel_count_ := hwf.1
  have hL : copy_len s frame_count * s.ring_buffer_.channel_count_ ≤
      s.ring_buffer_.readAvailSamples := by
    rw [← RingBuffer.ReadAvail_mul hwf]
    exact (RingBuffer.frames_le_iff hwf _ _).mpr hb.2.2
  have hav := RingBuffer.Read_avail hwf samples (copy_len s frame_count) hb.1 hb.2.2 hok
  have hne2 : 1 ≤ copy_len s frame_count ∨
      s.ring_buffer_.readAvailSamples < s.ring_buffer_.capacity_ := by
    rcases hok with hok | hok
    · exact Or.inl hok
    · right
      rw [← RingBuffer.ReadAvail_mul hwf, hwf.2.2.1]
      exact Int.mul_lt_mul_of_pos_right hok hN
  have hcont := RingBuffer.Read_contents hwf samples (copy_len s frame_count) hb.1 hL hne2
  unfold FillAudioBuffer
  simp only [EarconManager.FillAudioBuffer, hch, ne_eq, not_true_eq_false, if_false]
  rw [fillLoop_idle _ _ _ _ hidle, hd.2.2, hd.2.1]
  have hem : EarconManager.mk s.earcon_manager_.earcons_ s.earcon_manager_.rate_
      s.ring_buffer_.channel_count_ = s.earcon_manager_ := by
    rw [← hch]
  cases hs : s.stop_when_finished_
  · exact ⟨_, _, rfl, hav.2.1, hcont.2, hem⟩
  · exact ⟨_, _, rfl, hav.2.1, hcont.2, hem⟩

/-- C14, the code at a failing input. On `serviceFull` (ring buffer of four
mono frames, not marked finished, holding the frames 1, 2, 3, 4, no earcon) a
request for five frames is answered by five zero frames, and the four frames
are gone from the ring buffer: `ReadAvail()` is 4 before and 0 after the call.
The frames removed are not the frames returned. A request for zero frames
removes the four frames as well. -/
theorem FillAudioBuffer_full_buffer :
    serviceFull.ring_buffer_.ReadAvail = 4 ∧
    serviceFull.ring_buffer_.contents = [1, 2, 3, 4] ∧
    serviceFull.earcon_manager_.IsAnythingPlaying = false ∧
    (FillAudioBuffer serviceFull [9, 9, 9, 9, 9] 5 1).toOption.map (fun r => r.2.2) =
      some [0, 0, 0, 0, 0] ∧
    (FillAudioBuffer serviceFull [9, 9, 9, 9, 9] 5 1).toOption.map
      (fun r => r.2.1.ring_buffer_.ReadAvail) = some 0 ∧
    (FillAudioBuffer serviceFull [] 0 1).toOption.map (fun r => r.2.2) = some [] ∧
    (FillAudioBuffer serviceFull [] 0 1).toOption.map
      (fun r => r.2.1.ring_buffer_.ReadAvail) = some 0 := by
  decide

/-! ### The receive callback -/

theorem getD_map_range (f : Nat → Int) (n j : Nat) (hj : j < n) :
    ((List.range n).map f).getD j 0 = f j := by
  rw [List.getD_eq_getElem?_getD, List.getElem?_eq_getElem (by simpa using hj)]
  simp

/-- The inner loop of the channel conversion stores `v` in the `n` elements
from `output_index` on and advances `output_index` by `n`. -/
theorem duplicate_inner (v : Int) (n : Nat) (a : List Int) (k : Nat) :
    (List.range n).foldl (fun (st : List Int × Nat) _ => (st.1.set st.2 v, st.2 + 1)) (a, k) =
      ((List.range n).foldl (fun a j => a.set (k + j) v) a, k + n) := by
  induction n with
  | zero => rfl
  | succ n ih =>
    rw [List.range_succ, List.foldl_append, ih, List.foldl_append]
    rfl

/-- After `i` frames the channel conversion has stored `data[j / N]` in every
element `j` below `i * N`. -/
theorem duplicate_outer (data : List Int) (N : Nat) (init : List Int) (i : Nat) :
    (List.range i).foldl
      (fun (st : List Int × Nat) f =>
        (List.range N).foldl
          (fun (st : List Int × Nat) _ => (st.1.set st.2 (data.getD f 0), st.2 + 1)) st)
      (init, 0) =
    ((List.range init.length).map
      (fun j => if j < i * N then data.getD (j / N) 0 else init.getD j 0), i * N) := by
  induction i with
  | zero =>
    simp only [List.range_zero, List.foldl_nil, Nat.zero_mul, Nat.not_lt_zero, if_false]
    rw [RingBuffer.map_getD_range init 0 init.length (le_refl _), List.take_length]
  | succ i ih =>
    rw [List.range_succ, List.foldl_append, ih]
    simp only [List.foldl_cons, List.foldl_nil]
    rw [duplicate_inner, foldl_set_from]
    congr 1
    · simp only [List.length_map, List.length_range]
      apply List.map_congr_left
      intro j hj
      have hj2 : j < init.length := List.mem_range.mp hj
      rw [getD_map_range _ _ _ hj2]
      by_cases h1 : j < i * N
      · have h2 : ¬ (i * N ≤ j ∧ j < i * N + N) := by omega
        have h3 : j < (i + 1) * N := by rw [Nat.succ_mul]; omega
        rw [if_neg h2, if_pos h1, if_pos h3]
      · by_cases h2 : j < i * N + N
        · have h3 : j < (i + 1) * N := by rw [Nat.succ_mul]; omega
          have h4 : j / N = i := Nat.div_eq_of_lt_le (by omega) h3
          rw [if_pos ⟨by omega, h2⟩, if_pos h3, h4]
        · have h3 : ¬ j < (i + 1) * N := by rw [Nat.succ_mul]; omega
          rw [if_neg (by omega), if_neg h1, if_neg h3]
    · rw [Nat.succ_mul]

theorem toNat_mul_nonneg {a b : Int} (ha : 0 ≤ a) (hb : 0 ≤ b) :
    (a * b).toNat = a.toNat * b.toNat := by
  obtain ⟨x, rfl⟩ := Int.eq_ofNat_of_zero_le ha
  obtain ⟨y, rfl⟩ := Int.eq_ofNat_of_zero_le hb
  have e : ((x : Int) * (y : Int)) = ((x * y : Nat) : Int) := by push_cast; rfl
  rw [e, Int.toNat_natCast, Int.toNat_natCast, Int.toNat_natCast]

/-- The channel conversion of `Receive` makes `output_num_channels` copies of
every input sample: element `j` of the result is `data[j / N]`. -/
theorem duplicateChannels_eq (data : List Int) (num_frames N : Int)
    (h0 : 0 ≤ num_frames) (hN : 0 ≤ N) :
    duplicateChannels data num_frames N =
      (List.range (num_frames.toNat * N.toNat)).map (fun j => data.getD (j / N.toNat) 0) := by
  unfold duplicateChannels
  rw [duplicate_outer]
  have hlen := toNat_mul_nonneg h0 hN
  simp only [List.length_replicate, hlen]
  apply List.map_congr_left
  intro j hj
  rw [if_pos (List.mem_range.mp hj)]

theorem waitForRoom_room (wait : TtsService → TtsService) (num_frames : Int) (fuel : Nat)
    (s : TtsService) (h : num_frames ≤ s.ring_buffer_.WriteAvail) :
    waitForRoom wait num_frames fuel s = .ok (false, s) := by
  cases fuel <;> simp [waitForRoom, not_lt.mpr h]

/-- With room in the ring buffer and matching channel counts `Receive` is one
`Write` of the frames it passes on. -/
theorem Receive_writes (wait : TtsService → TtsService) (fuel : Nat) (s : TtsService)
    (rate num_channels : Int) (data : List Int) (num_frames : Int)
    (hrun : s.service_running_ = true) (hutt : s.utterance_running_ = true)
    (hst : Started s) (hroom : num_frames ≤ s.ring_buffer_.WriteAvail)
    (hpos : 0 < num_frames)
    (hconv : num_channels = s.audio_output_.channel_count ∨
      (num_channels = 1 ∧ 1 < s.audio_output_.channel_count)) :
    Receive wait fuel s rate num_channels data num_frames =
      .ok (.TTS_CALLBACK_CONTINUE,
        { s with ring_buffer_ :=
            (s.ring_buffer_.Write
              (if num_channels = s.audio_output_.channel_count then data
               else duplicateChannels data num_frames s.audio_output_.channel_count)
              num_frames).2 }) := by
  obtain ⟨hwf, hfin, hch, _⟩ := hst
  have hw := fun d => (RingBuffer.Write_avail hwf hfin d num_frames (le_of_lt hpos) hroom
    (Or.inl (by omega))).1
  have e1 : (s.service_running_ == false || s.utterance_running_ == false) = false := by
    simp [hrun, hutt]
  have hnz : ¬ num_frames = 0 := by omega
  unfold Receive
  simp only [e1, Bool.false_eq_true, if_false]
  rw [if_neg hnz]
  simp only [RingBuffer.GetChannelCount, hch, ne_eq, not_true_eq_false, if_false]
  by_cases heq : num_channels = s.audio_output_.channel_count
  · simp only [heq, not_true_eq_false, if_false, if_true,
      waitForRoom_room wait num_frames fuel s hroom, hw data, Bool.not_true,
      Bool.false_eq_true]
  · have hmono : num_channels = 1 ∧ s.audio_output_.channel_count > 1 := by
      rcases hconv with h | h
      · exact absurd h heq
      · exact ⟨h.1, h.2⟩
    obtain ⟨h1, h2⟩ := hmono
    subst h1
    simp only [heq, not_false_eq_true, if_true, h2, and_self,
      waitForRoom_room wait num_frames fuel s hroom, if_false,
      hw (duplicateChannels data num_frames s.audio_output_.channel_count),
      Bool.not_true, Bool.false_eq_true]

/-- C19. `Receive` on a started service (well-formed ring buffer, not marked
finished, with the channel count `N` of the audio output) with the service and
the utterance running and `WriteAvail() ≥ num_frames`. For `num_frames = 0` it
returns `TTS_CALLBACK_CONTINUE` and the service is as before. For
`num_frames > 0` and input with `N` channels it returns
`TTS_CALLBACK_CONTINUE`, the stored samples grow by the `num_frames * N` input
samples and `ReadAvail()` by `num_frames`. For `num_frames > 0`, mono input
and `N > 1` it returns `TTS_CALLBACK_CONTINUE`, `ReadAvail()` grows by
`num_frames` and the stored samples grow by `num_frames * N` samples of which
sample `i * N + c` (`c < N`) is `data[i]`. For any other pair of channel
counts the call ends in `exit(1)`, so nothing is written. -/
theorem Receive_spec (wait : TtsService → TtsService) (fuel : Nat) (s : TtsService)
    (rate num_channels : Int) (data : List Int) (num_frames : Int)
    (hrun : s.service_running_ = true) (hutt : s.utterance_running_ = true)
    (hst : Started s) (hroom : num_frames ≤ s.ring_buffer_.WriteAvail) :
    (num_frames = 0 →
      Receive wait fuel s rate num_channels data num_frames =
        .ok (.TTS_CALLBACK_CONTINUE, s)) ∧
    (0 < num_frames → num_channels = s.audio_output_.channel_count →
      (num_frames * num_channels).toNat ≤ data.length →
      ∃ rb : RingBuffer Int,
        Receive wait fuel s rate num_channels data num_frames =
          .ok (.TTS_CALLBACK_CONTINUE, { s with ring_buffer_ := rb }) ∧
        rb.contents = s.ring_buffer_.contents ++ data.take (num_frames * num_channels).toNat ∧
        rb.ReadAvail = s.ring_buffer_.ReadAvail + num_frames) ∧
    (0 < num_frames → num_channels = 1 → 1 < s.audio_output_.channel_count →
      ∃ (rb : RingBuffer Int) (appended : List Int),
        Receive wait fuel s rate num_channels data num_frames =
          .ok (.TTS_CALLBACK_CONTINUE, { s with ring_buffer_ := rb }) ∧
        rb.contents = s.ring_buffer_.contents ++ appended ∧
        rb.ReadAvail = s.ring_buffer_.ReadAvail + num_frames ∧
        appended.length = (num_frames * s.audio_output_.channel_count).toNat ∧
        ∀ i c : Nat, (i : Int) < num_frames → (c : Int) < s.audio_output_.channel_count →
          appended.getD (i * s.audio_output_.channel_count.toNat + c) 0 = data.getD i 0) ∧
    (0 < num_frames → num_channels ≠ s.audio_output_.channel_count →
      ¬ (num_channels = 1 ∧ 1 < s.audio_output_.channel_count) →
      Receive wait fuel s rate num_channels data num_frames = .error (.exit 1)) := by
  have hst' := hst
  obtain ⟨hwf, hfin, hch, _⟩ := hst
  have hN : 0 < s.audio_output_.channel_count := by rw [← hch]; exact hwf.1
  refine ⟨?_, ?_, ?_, ?_⟩
  · intro h0
    simp [Receive, hrun, hutt, h0]
  · intro hpos heq hdata
    have hL : num_frames * s.ring_buffer_.channel_count_ ≤ s.ring_buffer_.writeAvailSamples := by
      rw [← RingBuffer.WriteAvail_mul hwf]
      exact (RingBuffer.frames_le_iff hwf _ _).mpr hroom
    refine ⟨_, Receive_writes wait fuel s rate num_channels data num_frames hrun hutt hst'
      hroom hpos (Or.inl heq), ?_, ?_⟩
    · rw [if_pos heq, heq, ← hch]
      exact (RingBuffer.Write_contents hwf hfin data num_frames (le_of_lt hpos) hL
        (Or.inl (by omega))).2 (by rw [hch, ← heq]; exact hdata)
    · exact (RingBuffer.Write_avail hwf hfin _ num_frames (le_of_lt hpos) hroom
        (Or.inl (by omega))).2.1
  · intro hpos hone hmany
    have hL : num_frames * s.ring_buffer_.channel_count_ ≤ s.ring_buffer_.writeAvailSamples := by
      rw [← RingBuffer.WriteAvail_mul hwf]
      exact (RingBuffer.frames_le_iff hwf _ _).mpr hroom
    have hne : ¬ num_channels = s.audio_output_.channel_count := by omega
    have hdup := duplicateChannels_eq data num_frames s.audio_output_.channel_count
      (le_of_lt hpos) (le_of_lt hN)
    have hprod := toNat_mul_nonneg (le_of_lt hpos) (le_of_lt hN)
    have hlen : (duplicateChannels data num_frames s.audio_output_.channel_count).length =
        (num_frames * s.audio_output_.channel_count).toNat := by
      rw [hdup, hprod]
      simp
    refine ⟨_, duplicateChannels data num_frames s.audio_output_.channel_count,
      Receive_writes wait fuel s rate num_channels data num_frames hrun hutt hst'
        hroom hpos (Or.inr ⟨hone, hmany⟩), ?_, ?_, hlen, ?_⟩
    · rw [if_neg hne]
      have := (RingBuffer.Write_contents hwf hfin
        (duplicateChannels data num_frames s.audio_output_.channel_count) num_frames
        (le_of_lt hpos) hL (Or.inl (by omega))).2 (by rw [hch, hlen])
      rw [this, hch, ← hlen, List.take_length]
    · exact (RingBuffer.Write_avail hwf hfin _ num_frames (le_of_lt hpos) hroom
        (Or.inl (by omega))).2.1
    · intro i c hi hc
      have hi2 : i < num_frames.toNat := by omega
      have hc2 : c < s.audio_output_.channel_count.toNat := by omega
      have hub : i * s.audio_output_.channel_count.toNat + c <
          (i + 1) * s.audio_output_.channel_count.toNat := by
        rw [Nat.succ_mul]; omega
      have hub2 : (i + 1) * s.audio_output_.channel_count.toNat ≤
          num_frames.toNat * s.audio_output_.channel_count.toNat :=
        Nat.mul_le_mul_right _ (by omega)
      rw [hdup, getD_map_range _ _ _ (by omega),
        Nat.div_eq_of_lt_le (Nat.le_add_right _ _) hub]
  · intro hpos hne hnot
    have hnot2 : ¬ (num_channels = 1 ∧ s.audio_output_.channel_count > 1) := hnot
    have hnz : ¬ num_frames = 0 := by omega
    simp [Receive, hrun, hutt, hnz, RingBuffer.GetChannelCount, hch, hne, hnot2]

/-! ### The state of a started service -/

/-- A successful `StartService` on an audio output with at least one channel
and room for at least one frame leaves a started, running service. -/
theorem StartService_Started (s : TtsService)
    (hC : 1 ≤ s.audio_output_.total_buffer_size_in_frames)
    (hN : 1 ≤ s.audio_output_.channel_count) :
    (StartService true true s).1 = true ∧ Started (StartService true true s).2 ∧
    (StartService true true s).2.service_running_ = true :=
  ⟨rfl, ⟨RingBuffer.new_WF hC hN, rfl, rfl, rfl⟩, rfl⟩

theorem Stop_Started (s : TtsService) (h : Started s) : Started (Stop s) := by
  unfold Stop
  split_ifs
  · exact h
  · exact ⟨RingBuffer.step_WF h.1 .reset, rfl, h.2.2.1, h.2.2.2⟩

theorem Speak_Started (s s' : TtsService) (text : String) (options : Option UtteranceOptions)
    (h : Started s) (hs : Speak s text options = some s') : Started s' := by
  unfold Speak at hs
  split_ifs at hs
  · cases hs; exact h
  · cases options with
    | none => simp at hs
    | some o =>
      simp only [Option.some.injEq] at hs
      subst hs
      exact h

theorem waitForRoom_Started (wait : TtsService → TtsService)
    (hwait : ∀ t, Started t → Started (wait t)) (num_frames : Int) :
    ∀ (fuel : Nat) (s s' : TtsService) (b : Bool), Started s →
      waitForRoom wait num_frames fuel s = .ok (b, s') → Started s'
  | 0, s, s', b, h, hs => by
    unfold waitForRoom at hs
    by_cases hlt : s.ring_buffer_.WriteAvail < num_frames
    · rw [if_pos hlt] at hs
      simp at hs
    · rw [if_neg hlt] at hs
      simp only [Except.ok.injEq, Prod.mk.injEq] at hs
      rw [← hs.2]
      exact h
  | fuel + 1, s, s', b, h, hs => by
    unfold waitForRoom at hs
    by_cases hlt : s.ring_buffer_.WriteAvail < num_frames
    · rw [if_pos hlt] at hs
      simp only at hs
      by_cases hh : ((wait s).service_running_ == false ||
          (wait s).utterance_running_ == false) = true
      · rw [if_pos hh] at hs
        simp only [Except.ok.injEq, Prod.mk.injEq] at hs
        rw [← hs.2]
        exact hwait s h
      · rw [if_neg hh] at hs
        exact waitForRoom_Started wait hwait num_frames fuel (wait s) s' b (hwait s h) hs
    · rw [if_neg hlt] at hs
      simp only [Except.ok.injEq, Prod.mk.injEq] at hs
      rw [← hs.2]
      exact h

theorem Write_Started (s : TtsService) (data : List Int) (len : Int) (h : Started s) :
    Started { s with ring_buffer_ := (s.ring_buffer_.Write data len).2 } :=
  ⟨RingBuffer.Write_WF h.1 data len,
    ((RingBuffer.Write_frame s.ring_buffer_ data len).1).trans h.2.1,
    ((RingBuffer.Write_frame s.ring_buffer_ data len).2.2.1).trans h.2.2.1, h.2.2.2⟩

/-- The end of `Receive`, after the channel conversion: the wait for room and
the `Write` of the array `d`. -/
theorem Receive_tail_Started (wait : TtsService → TtsService)
    (hwait : ∀ t, Started t → Started (wait t)) (fuel : Nat) (s s' : TtsService)
    (d : List Int) (num_frames : Int)
    (status : tts_callback_status) (h : Started s)
    (hs : (match waitForRoom wait num_frames fuel s with
      | .error e => (.error e : Except Abort (tts_callback_status × TtsService))
      | .ok (true, s) => .ok (.TTS_CALLBACK_HALT, s)
      | .ok (false, s) =>
        if !(s.ring_buffer_.Write d num_frames).1 then .error (.exit 0)
        else .ok (.TTS_CALLBACK_CONTINUE,
          { s with ring_buffer_ := (s.ring_buffer_.Write d num_frames).2 })) =
        .ok (status, s')) :
    Started s' := by
  cases hw : waitForRoom wait num_frames fuel s with
  | error e => simp [hw] at hs
  | ok r =>
    obtain ⟨b, t⟩ := r
    have ht := waitForRoom_Started wait hwait num_frames fuel s t b h hw
    rw [hw] at hs
    cases b
    · simp only at hs
      split at hs
      · simp at hs
      · simp only [Except.ok.injEq, Prod.mk.injEq] at hs
        rw [← hs.2]
        exact Write_Started t d num_frames ht
    · simp only [Except.ok.injEq, Prod.mk.injEq] at hs
      rw [← hs.2]
      exact ht

/-- The method `Receive` keeps a started service started, whatever it
returns. -/
theorem Receive_Started (wait : TtsService → TtsService)
    (hwait : ∀ t, Started t → Started (wait t)) (fuel : Nat) (s s' : TtsService)
    (rate num_channels : Int) (data : List Int) (num_frames : Int)
    (status : tts_callback_status) (h : Started s)
    (hs : Receive wait fuel s rate num_channels data num_frames = .ok (status, s')) :
    Started s' := by
  unfold Receive at hs
  by_cases h1 : (s.service_running_ == false || s.utterance_running_ == false) = true
  · rw [if_pos h1] at hs
    simp only [Except.ok.injEq, Prod.mk.injEq] at hs
    rw [← hs.2]
    exact h
  · rw [if_neg h1] at hs
    by_cases h2 : num_frames = 0
    · rw [if_pos h2] at hs
      simp only [Except.ok.injEq, Prod.mk.injEq] at hs
      rw [← hs.2]
      exact h
    · rw [if_neg h2] at hs
      simp only at hs
      by_cases h3 : s.audio_output_.channel_count ≠ s.ring_buffer_.GetChannelCount
      · rw [if_pos h3] at hs
        simp at hs
      · rw [if_neg h3] at hs
        by_cases h4 : num_channels ≠ s.audio_output_.channel_count
        · rw [if_pos h4] at hs
          by_cases h5 : num_channels = 1 ∧ s.audio_output_.channel_count > 1
          · rw [if_pos h5] at hs
            simp only at hs
            exact Receive_tail_Started wait hwait fuel s s' _ num_frames status h hs
          · rw [if_neg h5] at hs
            simp at hs
        · rw [if_neg h4] at hs
          simp only at hs
          exact Receive_tail_Started wait hwait fuel s s' _ num_frames status h hs

/-- The method `FillAudioBuffer` keeps a started service started. -/
theorem FillAudioBuffer_Started (s s' : TtsService) (samples out : List Int)
    (frame_count channel_count : Int) (b : Bool) (h : Started s)
    (hs : FillAudioBuffer s samples frame_count channel_count = .ok (b, s', out)) :
    Started s' := by
  unfold FillAudioBuffer at hs
  have hr := RingBuffer.Read_frame s.ring_buffer_ samples (copy_len s frame_count)
  have hwf := RingBuffer.Read_WF h.1 samples (copy_len s frame_count)
  cases he : s.earcon_manager_.FillAudioBuffer
      (drain s samples frame_count channel_count).2 frame_count channel_count with
  | error e => simp [he] at hs
  | ok r =>
    have hch : r.1.channels_ = s.earcon_manager_.channels_ := by
      unfold EarconManager.FillAudioBuffer at he
      split_ifs at he
      cases he
      rfl
    have hst : Started { s with ring_buffer_ :=
        (drain s samples frame_count channel_count).1, earcon_manager_ := r.1 } :=
      ⟨hwf, hr.1.trans h.2.1, hr.2.2.1.trans h.2.2.1, hch.trans h.2.2.2⟩
    simp only [he] at hs
    split_ifs at hs <;> cases hs <;> exact hst

end TtsService

/-! ## Theorems: loading an earcon -/

namespace EarconManager

/-- A loop that stores `f i` in the elements `2 * i` and `2 * i + 1`, for `i`
below `n`. -/
theorem foldl_set_pair (f : Nat → Int) (n : Nat) (l : List Int) :
    (List.range n).foldl (fun a i => (a.set (2 * i) (f i)).set (2 * i + 1) (f i)) l =
      (List.range l.length).map (fun j => if j < 2 * n then f (j / 2) else l.getD j 0) := by
  induction n with
  | zero =>
    simp only [List.range_zero, List.foldl_nil, Nat.mul_zero, Nat.not_lt_zero, if_false]
    rw [RingBuffer.map_getD_range l 0 l.length (le_refl _), List.take_length]
  | succ n ih =>
    rw [List.range_succ, List.foldl_append, ih]
    simp only [List.foldl_cons, List.foldl_nil]
    apply List.ext_getElem
    · simp
    · intro i h1 h2
      simp only [List.length_map, List.length_range] at h2
      simp only [List.getElem_set, List.getElem_map, List.getElem_range]
      by_cases ha : 2 * n + 1 = i
      · subst ha
        rw [if_pos rfl, if_pos (by omega)]
        congr 1
        omega
      · rw [if_neg ha]
        by_cases hb : 2 * n = i
        · subst hb
          rw [if_pos rfl, if_pos (by omega)]
          congr 1
          omega
        · rw [if_neg hb]
          have : (i < 2 * (n + 1)) ↔ (i < 2 * n) := by omega
          simp only [this]

/-- Half the sum of two 16-bit samples, truncated toward zero, is a 16-bit
sample, and the store into an `int16_t` leaves it as it is. -/
theorem half_sum_int16 (a b : Int) (ha : IsInt16 a) (hb : IsInt16 b) :
    IsInt16 (Int.tdiv (a + b) 2) ∧ toInt16 (Int.tdiv (a + b) 2) = Int.tdiv (a + b) 2 := by
  unfold IsInt16 at *
  have key : -32768 ≤ Int.tdiv (a + b) 2 ∧ Int.tdiv (a + b) 2 ≤ 32767 := by
    rcases le_total 0 (a + b) with h | h
    · rw [Int.tdiv_eq_ediv h (by decide)]
      omega
    · have e : Int.tdiv (a + b) 2 = -(Int.tdiv (-(a + b)) 2) := by
        rw [Int.neg_tdiv, neg_neg]
      rw [e, Int.tdiv_eq_ediv (by omega) (by decide)]
      omega
  refine ⟨key, ?_⟩
  unfold toInt16
  omega

/-- The channel conversion of `LoadEarcon`, case by case. -/
theorem convertChannels_spec (channels frame_count : Int) (data : List Int)
    (source_channels : Int) (h0 : 0 ≤ frame_count) (hd : ∀ v ∈ data, IsInt16 v) :
    (source_channels = 1 → channels = 2 →
      ∃ new_data, convertChannels channels frame_count data source_channels = .ok new_data ∧
        new_data.length = (frame_count * 2).toNat ∧
        ∀ i : Nat, (i : Int) < frame_count →
          new_data.getD (2 * i) 0 = data.getD i 0 ∧
          new_data.getD (2 * i + 1) 0 = data.getD i 0) ∧
    (source_channels = 2 → channels = 1 →
      ∃ new_data, convertChannels channels frame_count data source_channels = .ok new_data ∧
        new_data.length = frame_count.toNat ∧
        ∀ i : Nat, (i : Int) < frame_count →
          new_data.getD i 0 = Int.tdiv (data.getD (2 * i) 0 + data.getD (2 * i + 1) 0) 2 ∧
          IsInt16 (new_data.getD i 0)) ∧
    (source_channels = channels → (frame_count * channels).toNat ≤ data.length →
      convertChannels channels frame_count data source_channels =
        .ok (data.take (frame_count * channels).toNat)) ∧
    (¬ (source_channels = 1 ∧ channels = 2) → ¬ (source_channels = 2 ∧ channels = 1) →
      source_channels ≠ channels →
      convertChannels channels frame_count data source_channels = .error (.exit 0)) := by
  refine ⟨?_, ?_, ?_, ?_⟩
  · intro h1 h2
    subst h1 h2
    refine ⟨(List.range frame_count.toNat).foldl
      (fun a i => (a.set (2 * i) (data.getD i 0)).set (2 * i + 1) (data.getD i 0))
      (List.replicate (frame_count * 2).toNat (0 : Int)), rfl, ?_, ?_⟩
    · rw [foldl_set_pair]
      simp
    · intro i hi
      rw [foldl_set_pair]
      simp only [List.length_replicate]
      rw [TtsService.getD_map_range _ _ _ (by omega),
        TtsService.getD_map_range _ _ _ (by omega), if_pos (by omega), if_pos (by omega)]
      constructor <;> congr 1 <;> omega
  · intro h1 h2
    subst h1 h2
    refine ⟨(List.range frame_count.toNat).foldl
      (fun a i => a.set i
        (toInt16 (Int.tdiv (data.getD (2 * i) 0 + data.getD (2 * i + 1) 0) 2)))
      (List.replicate (frame_count * 1).toNat (0 : Int)), rfl, ?_, ?_⟩
    · rw [foldl_set_range (fun i _ =>
        toInt16 (Int.tdiv (data.getD (2 * i) 0 + data.getD (2 * i + 1) 0) 2))]
      simp
    · intro i hi
      rw [foldl_set_range (fun i _ =>
        toInt16 (Int.tdiv (data.getD (2 * i) 0 + data.getD (2 * i + 1) 0) 2))]
      simp only [List.length_replicate, mul_one]
      rw [TtsService.getD_map_range _ _ _ (by omega), if_pos (by omega)]
      have hh := half_sum_int16 _ _ (getD_isInt16 data hd (2 * i))
        (getD_isInt16 data hd (2 * i + 1))
      rw [hh.2]
      exact ⟨rfl, hh.1⟩
  · intro h1 hlen
    subst h1
    have hne1 : ¬ (source_channels = 1 ∧ source_channels = 2) := by omega
    have hne2 : ¬ (source_channels = 2 ∧ source_channels = 1) := by omega
    simp only [convertChannels, hne1, hne2, if_false, if_true]
    rw [foldl_set_range (fun i _ => data.getD i 0)]
    simp only [List.length_replicate]
    rw [← RingBuffer.map_getD_range data 0 _ hlen]
    congr 1
    apply List.map_congr_left
    intro j hj
    rw [if_pos (List.mem_range.mp hj)]
  · intro h1 h2 h3
    simp [convertChannels, h1, h2, h3]

/-- C11. `LoadEarcon` with the manager's own rate, `frame_count ≥ 0` and
16-bit input samples. For a mono source into a stereo manager, a stereo source
into a mono manager and a source with the manager's channel count the call
returns the next id and appends one clip to the clips already loaded, which
stay as they are; the clip has `frame_count` frames, is not playing, is at
position 0 and carries the loop flag. Mono into stereo: samples `2 i` and
`2 i + 1` are both `data[i]`. Stereo into mono: sample `i` is
`(data[2 i] + data[2 i + 1]) / 2` truncated toward zero, a 16-bit value. Equal
channel counts: the stored samples are the `frame_count * channels` input
samples. Every other pair of channel counts ends the process (`exit(0)`). -/
theorem LoadEarcon_same_rate {H F : Type} (lib : Libresample H F) (fuel : Nat)
    (m : EarconManager) (frame_count : Int) (data : List Int) (source_channels : Int)
    (loop : Bool) (h0 : 0 ≤ frame_count) (hd : ∀ v ∈ data, IsInt16 v) :
    (source_channels = 1 → m.channels_ = 2 →
      ∃ new_data,
        LoadEarcon lib fuel m frame_count data source_channels m.rate_ loop =
          .ok ((m.earcons_.length : Int), { m with earcons_ := m.earcons_ ++
            [{ frame_count := frame_count, data := new_data, is_playing := false,
               position := 0, loop := loop }] }) ∧
        new_data.length = (frame_count * 2).toNat ∧
        ∀ i : Nat, (i : Int) < frame_count →
          new_data.getD (2 * i) 0 = data.getD i 0 ∧
          new_data.getD (2 * i + 1) 0 = data.getD i 0) ∧
    (source_channels = 2 → m.channels_ = 1 →
      ∃ new_data,
        LoadEarcon lib fuel m frame_count data source_channels m.rate_ loop =
          .ok ((m.earcons_.length : Int), { m with earcons_ := m.earcons_ ++
            [{ frame_count := frame_count, data := new_data, is_playing := false,
               position := 0, loop := loop }] }) ∧
        new_data.length = frame_count.toNat ∧
        ∀ i : Nat, (i : Int) < frame_count →
          new_data.getD i 0 = Int.tdiv (data.getD (2 * i) 0 + data.getD (2 * i + 1) 0) 2 ∧
          IsInt16 (new_data.getD i 0)) ∧
    (source_channels = m.channels_ → (frame_count * m.channels_).toNat ≤ data.length →
      LoadEarcon lib fuel m frame_count data source_channels m.rate_ loop =
        .ok ((m.earcons_.length : Int), { m with earcons_ := m.earcons_ ++
          [{ frame_count := frame_count, data := data.take (frame_count * m.channels_).toNat,
             is_playing := false, position := 0, loop := loop }] })) ∧
    (¬ (source_channels = 1 ∧ m.channels_ = 2) → ¬ (source_channels = 2 ∧ m.channels_ = 1) →
      source_channels ≠ m.channels_ →
      LoadEarcon lib fuel m frame_count data source_channels m.rate_ loop =
        .error (.exit 0)) := by
  have hc := convertChannels_spec m.channels_ frame_count data source_channels h0 hd
  refine ⟨?_, ?_, ?_, ?_⟩
  · intro h1 h2
    obtain ⟨new_data, he, hl, hs⟩ := hc.1 h1 h2
    exact ⟨new_data, by simp [LoadEarcon, he], hl, hs⟩
  · intro h1 h2
    obtain ⟨new_data, he, hl, hs⟩ := hc.2.1 h1 h2
    exact ⟨new_data, by simp [LoadEarcon, he], hl, hs⟩
  · intro h1 hlen
    simp [LoadEarcon, hc.2.2.1 h1 hlen]
  · intro h1 h2 h3
    simp [LoadEarcon, hc.2.2.2 h1 h2 h3]

/-- C11, at a concrete load: two mono frames into a stereo manager at the
manager's rate. -/
theorem LoadEarcon_same_rate_witness :
    ((0 : Int) ≤ 2 ∧ ∀ v ∈ [(5 : Int), -7], IsInt16 v) ∧
    (∃ new_data,
      LoadEarcon TtsService.silentLib 0 (EarconManager.new 16000 2) 2 [5, -7] 1
          (EarconManager.new 16000 2).rate_ true =
        .ok ((((EarconManager.new 16000 2).earcons_.length : Nat) : Int),
          { EarconManager.new 16000 2 with earcons_ := (EarconManager.new 16000 2).earcons_ ++
            [{ frame_count := 2, data := new_data, is_playing := false,
               position := 0, loop := true }] }) ∧
      new_data.length = ((2 : Int) * 2).toNat ∧
      ∀ i : Nat, (i : Int) < 2 →
        new_data.getD (2 * i) 0 = [(5 : Int), -7].getD i 0 ∧
        new_data.getD (2 * i + 1) 0 = [(5 : Int), -7].getD i 0) ∧
    (LoadEarcon TtsService.silentLib 0 (EarconManager.new 16000 2) 2 [5, -7] 1 16000
        true).toOption.map (fun r => r.2.earcons_.map (fun e => e.data)) =
      some [[5, 5, -7, -7]] :=
  ⟨⟨by decide, by unfold IsInt16; decide⟩,
    (LoadEarcon_same_rate TtsService.silentLib 0 (EarconManager.new 16000 2) 2 [5, -7] 1 true
      (by decide) (by unfold IsInt16; decide)).1 rfl rfl,
    by decide⟩

end EarconManager

namespace TtsService

/-- C12, at a concrete service: `Stop` on the running `serviceFull`, whose
ring buffer holds four frames. -/
theorem Stop_spec_witness :
    serviceFull.service_running_ = true ∧
    serviceFull.ring_buffer_.ReadAvail = 4 ∧
    (Stop serviceFull).ring_buffer_.ReadAvail = 0 ∧
    (Stop serviceFull).ring_buffer_.WriteAvail = serviceFull.ring_buffer_.GetFrameCapacity ∧
    (Stop serviceFull).ring_buffer_.IsFinished = false ∧
    (Stop serviceFull).utterances_ = [] ∧
    (Stop serviceFull).utterance_running_ = false :=
  have h := (Stop_spec serviceFull
    (RingBuffer.Write_WF (RingBuffer.new_WF (by decide) (by decide)) [1, 2, 3, 4] 4)).1 rfl
  ⟨rfl, by decide, h.1, h.2.1, h.2.2.1, h.2.2.2.1, h.2.2.2.2.1⟩

/-- C16, at a concrete service that was never started. -/
theorem Speak_not_running_witness :
    (new { voices := [] }
      { sample_rate := 16000, channel_count := 1, chunk_size_in_frames := 2,
        total_buffer_size_in_frames := 4 }).service_running_ = false ∧
    Speak (new { voices := [] }
      { sample_rate := 16000, channel_count := 1, chunk_size_in_frames := 2,
        total_buffer_size_in_frames := 4 }) "hello" (some optionsUS) =
      some (new { voices := [] }
        { sample_rate := 16000, channel_count := 1, chunk_size_in_frames := 2,
          total_buffer_size_in_frames := 4 }) :=
  ⟨rfl, Speak_not_running _ "hello" (some optionsUS) rfl⟩

/-- C17, at a concrete service with two voices and a pattern that the second
voice matches: the queued utterance has voice index 1. -/
theorem Speak_running_witness :
    serviceStereo.service_running_ = true ∧
    (∃ (u : Utterance) (o' : UtteranceOptions),
      Speak serviceStereo "hello" (some optionsUS) =
        some { serviceStereo with utterances_ := serviceStereo.utterances_ ++ [u],
                                  signals_ := serviceStereo.signals_ + 1 } ∧
      u.text = "hello" ∧ u.options = some o' ∧
      o'.completion = optionsUS.completion ∧ o'.rate = optionsUS.rate ∧
      o'.pitch = optionsUS.pitch ∧
      o'.volume = optionsUS.volume ∧ o'.voice_options = optionsUS.voice_options ∧
      (optionsUS.voice_options = none → u.voice_index = 0) ∧
      (∀ pattern, optionsUS.voice_options = some pattern →
        (∃ v ∈ serviceStereo.engine_.voices, TtsEngine.VoiceMatches v pattern = true) →
        u.voice_index = serviceStereo.engine_.GetVoiceIndex pattern) ∧
      (∀ pattern, optionsUS.voice_options = some pattern →
        (¬ ∃ v ∈ serviceStereo.engine_.voices, TtsEngine.VoiceMatches v pattern = true) →
        u.voice_index = 0)) ∧
    (optionsUS.voice_options.map serviceStereo.engine_.GetVoiceIndex) = some 1 :=
  ⟨rfl, Speak_running serviceStereo "hello" optionsUS rfl, by decide⟩

/-- C18, at a concrete service that runs but has no utterance running. -/
theorem Receive_halts_witness :
    (service4.service_running_ = false ∨ service4.utterance_running_ = false) ∧
    Receive id 0 service4 16000 1 [7, 8] 2 = .ok (.TTS_CALLBACK_HALT, service4) :=
  ⟨Or.inr rfl, Receive_halts id 0 service4 16000 1 [7, 8] 2 (Or.inr rfl)⟩

/-- C19, at a concrete stereo service and two mono frames: the four samples
7, 7, 8, 8 are stored. -/
theorem Receive_spec_witness :
    (serviceStereo.service_running_ = true ∧ serviceStereo.utterance_running_ = true ∧
      (2 : Int) ≤ serviceStereo.ring_buffer_.WriteAvail) ∧
    (∃ (rb : RingBuffer Int) (appended : List Int),
      Receive id 0 serviceStereo 16000 1 [7, 8] 2 =
        .ok (.TTS_CALLBACK_CONTINUE, { serviceStereo with ring_buffer_ := rb }) ∧
      rb.contents = serviceStereo.ring_buffer_.contents ++ appended ∧
      rb.ReadAvail = serviceStereo.ring_buffer_.ReadAvail + 2 ∧
      appended.length = ((2 : Int) * serviceStereo.audio_output_.channel_count).toNat ∧
      ∀ i c : Nat, (i : Int) < 2 → (c : Int) < serviceStereo.audio_output_.channel_count →
        appended.getD (i * serviceStereo.audio_output_.channel_count.toNat + c) 0 =
          [(7 : Int), 8].getD i 0) ∧
    (Receive id 0 serviceStereo 16000 1 [7, 8] 2).toOption.map
      (fun r => r.2.ring_buffer_.contents) = some [7, 7, 8, 8] :=
  ⟨⟨rfl, rfl, by decide⟩,
    (Receive_spec id 0 serviceStereo 16000 1 [7, 8] 2 rfl rfl
      ⟨RingBuffer.new_WF (by decide) (by decide), rfl, rfl, rfl⟩ (by decide)).2.2.1
      (by decide) rfl (by decide),
    by decide⟩

end TtsService

/-! ## Theorems: the voices -/

namespace TtsEngine

/-- The loop of `GetVoiceIndex` started at index `i` with the voices from `i`
on returns, when some voice matches, `i` plus the least position of a
matching voice. -/
theorem voiceIndexFrom_least (pattern : TtsVoice) :
    ∀ (voices : List TtsVoice) (i : Int) (k : Nat), k < voices.length →
      VoiceMatches (voices.getD k TtsVoice.new) pattern = true →
      (∀ j : Nat, j < k → VoiceMatches (voices.getD j TtsVoice.new) pattern = false) →
      voiceIndexFrom pattern voices i = i + k
  | [], _, k, hk, _, _ => by simp at hk
  | v :: vs, i, 0, _, hm, _ => by
    simp only [List.getD_cons_zero] at hm
    simp [voiceIndexFrom, hm]
  | v :: vs, i, k + 1, hk, hm, hlt => by
    have h0 := hlt 0 (by omega)
    simp only [List.getD_cons_zero] at h0
    simp only [List.getD_cons_succ] at hm
    have ih := voiceIndexFrom_least pattern vs (i + 1) k
      (by simpa using hk) hm
      (fun j hj => by simpa using hlt (j + 1) (by omega))
    simp only [voiceIndexFrom, h0, Bool.false_eq_true, if_false, ih]
    push_cast
    ring

/-- A pattern whose fields all have their default value matches every voice. -/
theorem VoiceMatches_default (v : TtsVoice) : VoiceMatches v TtsVoice.new = true := by
  have he : ("" : String).isEmpty = true := by decide
  simp [VoiceMatches, TtsVoice.new, he]

/-- C23. For an engine with the voices `v_0 .. v_{n-1}` and a pattern:
`GetVoiceIndex` returns -1 exactly when no voice matches the pattern; when
voice `k` matches and no voice before it does, it returns `k`, the least
matching index. `VoiceMatches` treats the default-valued fields of the pattern
(empty string, 0, unspecified enum value) as wildcards: two voices that agree
on every field where the pattern is not at its default are matched alike. So
the pattern `TtsVoice()` matches every voice, and `GetVoiceIndex` of it is 0
when the engine has at least one voice. -/
theorem GetVoiceIndex_spec (e : TtsEngine) (pattern : TtsVoice) :
    (e.GetVoiceIndex pattern = -1 ↔
      ∀ i : Nat, i < e.voices.length →
        VoiceMatches (e.voices.getD i TtsVoice.new) pattern = false) ∧
    (∀ k : Nat, k < e.voices.length →
      VoiceMatches (e.voices.getD k TtsVoice.new) pattern = true →
      (∀ j : Nat, j < k → VoiceMatches (e.voices.getD j TtsVoice.new) pattern = false) →
      e.GetVoiceIndex pattern = k) ∧
    (∀ voice other : TtsVoice,
      (pattern.name = "" ∨ other.name = voice.name) →
      (pattern.language = "" ∨ other.language = voice.language) →
      (pattern.engine = "" ∨ other.engine = voice.engine) →
      (pattern.sample_rate = 0 ∨ other.sample_rate = voice.sample_rate) →
      (pattern.quality = .TTS_UNSPECIFIED_QUALITY ∨ other.quality = voice.quality) →
      (pattern.region = "" ∨ other.region = voice.region) →
      (pattern.gender = .TTS_UNSPECIFIED_GENDER ∨ other.gender = voice.gender) →
      (pattern.age = 0 ∨ other.age = voice.age) →
      VoiceMatches other pattern = VoiceMatches voice pattern) ∧
    (∀ voice : TtsVoice, VoiceMatches voice TtsVoice.new = true) ∧
    (1 ≤ e.GetVoiceCount → e.GetVoiceIndex TtsVoice.new = 0) := by
  refine ⟨?_, ?_, ?_, VoiceMatches_default, ?_⟩
  · rw [GetVoiceIndex_eq_neg_one]
    constructor
    · intro h i hi
      apply h
      rw [List.getD_eq_getElem?_getD, List.getElem?_eq_getElem hi]
      exact List.getElem_mem hi
    · intro h v hv
      obtain ⟨i, hi, rfl⟩ := List.getElem_of_mem hv
      have := h i hi
      rwa [List.getD_eq_getElem?_getD, List.getElem?_eq_getElem hi] at this
  · intro k hk hm hlt
    have := voiceIndexFrom_least pattern e.voices 0 k hk hm hlt
    simpa [GetVoiceIndex] using this
  · intro voice other h1 h2 h3 h4 h5 h6 h7 h8
    unfold VoiceMatches
    have he : ("" : String).isEmpty = true := by decide
    have e1 : (pattern.name.isEmpty || strcasecmpEq other.name pattern.name) =
        (pattern.name.isEmpty || strcasecmpEq voice.name pattern.name) := by
      rcases h1 with h | h
      · simp [h, he]
      · rw [h]
    have e2 : (pattern.language.isEmpty || strcasecmpEq other.language pattern.language) =
        (pattern.language.isEmpty || strcasecmpEq voice.language pattern.language) := by
      rcases h2 with h | h
      · simp [h, he]
      · rw [h]
    have e3 : (pattern.engine.isEmpty || strcasecmpEq other.engine pattern.engine) =
        (pattern.engine.isEmpty || strcasecmpEq voice.engine pattern.engine) := by
      rcases h3 with h | h
      · simp [h, he]
      · rw [h]
    have e4 : (pattern.sample_rate == 0 || other.sample_rate == pattern.sample_rate) =
        (pattern.sample_rate == 0 || voice.sample_rate == pattern.sample_rate) := by
      rcases h4 with h | h
      · simp [h, he]
      · rw [h]
    have e5 : (pattern.quality == .TTS_UNSPECIFIED_QUALITY || other.quality == pattern.quality) =
        (pattern.quality == .TTS_UNSPECIFIED_QUALITY || voice.quality == pattern.quality) := by
      rcases h5 with h | h
      · simp [h, he]
      · rw [h]
    have e6 : (pattern.region.isEmpty || strcasecmpEq other.region pattern.region) =
        (pattern.region.isEmpty || strcasecmpEq voice.region pattern.region) := by
      rcases h6 with h | h
      · simp [h, he]
      · rw [h]
    have e7 : (pattern.gender == .TTS_UNSPECIFIED_GENDER || other.gender == pattern.gender) =
        (pattern.gender == .TTS_UNSPECIFIED_GENDER || voice.gender == pattern.gender) := by
      rcases h7 with h | h
      · simp [h, he]
      · rw [h]
    have e8 : (pattern.age == 0 || other.age == pattern.age) =
        (pattern.age == 0 || voice.age == pattern.age) := by
      rcases h8 with h | h
      · simp [h, he]
      · rw [h]
    rw [e1, e2, e3, e4, e5, e6, e7, e8]
  · intro h
    unfold GetVoiceCount at h
    cases hv : e.voices with
    | nil => rw [hv] at h; simp at h
    | cons v vs => simp [GetVoiceIndex, hv, voiceIndexFrom, VoiceMatches_default]

/-- C23 at the two voices of `serviceStereo`: the pattern of `optionsUS` (only
the language, `EN-us`) is not matched by voice 0 and is matched by voice 1, so
the index is 1. -/
theorem GetVoiceIndex_spec_witness :
    TtsService.serviceStereo.engine_.GetVoiceIndex
      { name := "", language := "EN-us", engine := "", sample_rate := 0,
        quality := .TTS_UNSPECIFIED_QUALITY, region := "",
        gender := .TTS_UNSPECIFIED_GENDER, age := 0 } = ((1 : Nat) : Int) :=
  (GetVoiceIndex_spec TtsService.serviceStereo.engine_ _).2.1 1 (by decide) (by decide)
    (fun j hj => by
      have hj0 : j = 0 := by omega
      subst hj0
      decide)

end TtsEngine

/-! ## Theorems: the worker, and calls with absent options -/

namespace TtsService

/-- C29, the code at the claim's input. On the started service `service4`,
`Speak("hello")` with the options left out passes the test
`options == NULL || ...` and then evaluates `new UtteranceOptions(*options)`,
which dereferences the null pointer: the call has no defined result, and no
utterance is enqueued by it. The same call with options given enqueues one
utterance with voice index 0. -/
theorem Speak_without_options :
    service4.service_running_ = true ∧
    (Speak service4 "hello" none).isNone = true ∧
    ((Speak service4 "hello" (some optionsUS)).map
      (fun s => s.utterances_.map (fun u => (u.text, u.voice_index)))) =
      some [("hello", 0)] := by
  refine ⟨by decide, by decide, by decide⟩

/-- C25, the code at the claim's input. The worker of the started, idle service
`service4` blocks in `Wait` and `GetStatus` returns `TTS_IDLE`. `Stop` is
called and signals the condition variable. The worker wakes up, finds the
service running and no utterance, sets `utterance_running_ = true`, goes
around the loop and blocks in `Wait` again: the queue is empty, there is no
current utterance, the worker is waiting, and `GetStatus` returns
`TTS_BUSY`. -/
theorem GetStatus_after_Stop_on_idle_service :
    (Run service4).1 = .waiting ∧
    (GetStatus (Run service4).2).1 = .TTS_IDLE ∧
    (Run_woken (Stop (Run service4).2)).1 = .waiting ∧
    (Run_woken (Stop (Run service4).2)).2.utterances_.isEmpty = true ∧
    (Run_woken (Stop (Run service4).2)).2.current_utterance_.isNone = true ∧
    (Run_woken (Stop (Run service4).2)).2.service_running_ = true ∧
    (GetStatus (Run_woken (Stop (Run service4).2)).2).1 = .TTS_BUSY := by
  refine ⟨by decide, by decide, by decide, by decide, by decide, by decide, by decide⟩

end TtsService

namespace EarconManager

/-- C27, the code at the claim's input. A clip of two frames at position 1
receives two samples: one is stored, and the position becomes 3, above the
frame count 2. And `LoadEarcon` of one mono frame at 8000 Hz into a mono
manager at 16000 Hz, with a resampler that puts out the two frames of the clip
and one closing frame at the final call, allocates `new_size = 2` frames and
records a frame count of 3. -/
theorem Receive_moves_position_past_frame_count :
    (EarconReceiver.Receive
      { frame_count := 2, data := [5, 0], is_playing := false, position := 1, loop := false }
      16000 1 [7, 8] 2) =
      ({ frame_count := 2, data := [5, 7], is_playing := false, position := 3, loop := false },
       .TTS_CALLBACK_CONTINUE) ∧
    Int.tdiv (1 * 16000) 8000 = 2 ∧
    (LoadEarcon tailLib 4 (EarconManager.new 16000 1) 1 [9] 1 8000 false).toOption.map
      (fun r => r.2.earcons_.map (fun e => (e.frame_count, e.data))) =
      some [(3, [9, 9])] := by
  refine ⟨by decide, by decide, by decide⟩

end EarconManager

/-! ## Theorems: the converter -/

namespace Resampler

variable {H F D : Type}

/-- The final call of `ProcessInFloats` made by `Done`, spelled out. -/
theorem ProcessInFloats_final (lib : Libresample H F) (destination_ : TtsDataReceiver D)
    (r : Resampler H F) (d : D) :
    ProcessInFloats lib destination_ r d 0 true 0 =
      match destination_.Receive d r.dest_rate_ 1 (finalArray lib r) (finalStep lib r).2.1 with
      | .error e => .error e
      | .ok (d, callback_status) =>
        .ok ({ r with resample_handle_ := (finalStep lib r).1,
                      out_floats_ := (finalStep lib r).2.2.2,
                      out_int16s_ := finalArray lib r },
             d, 0 + (finalStep lib r).2.2.1, callback_status) := by
  rfl

/-- The drained samples are the samples put out by the final step, clamped. -/
theorem finalArray_take (lib : Libresample H F) (r : Resampler H F) :
    (finalArray lib r).take (finalStep lib r).2.1.toNat =
      (List.range (min (finalStep lib r).2.1.toNat r.out_int16s_.length)).map
        (fun j => EarconManager.clamp
          (lib.toInt ((finalStep lib r).2.2.2.getD j (lib.ofInt16 0)))) := by
  unfold finalArray
  rw [EarconManager.foldl_set_range (fun j _ =>
    toInt16 (clip (lib.toInt ((finalStep lib r).2.2.2.getD j (lib.ofInt16 0)))))]
  rw [← List.map_take, List.take_range]
  apply List.map_congr_left
  intro j hj
  simp only [List.mem_range, lt_min_iff] at hj
  rw [if_pos (by omega), EarconManager.toInt16_clip]
  rfl

/-- C22, a call that does not reach the destination's `Done()`. A resampler
that drains no sample forwards zero samples to an `EarconReceiver` whose clip
is complete; that `Receive` returns `TTS_CALLBACK_HALT`, and `Resampler::Done`
returns this status at once: the destination has been called once, with
`Receive`, and its `Done()` has not been called. -/
theorem Done_without_destination_Done :
    (Done TtsService.silentLib (recorded EarconReceiver.receiver)
      (Resampler.new TtsService.silentLib 8000 16000 2)
      ({ frame_count := 2, data := [9, 9], is_playing := false, position := 2, loop := false },
       [])).toOption.map (fun x => (x.2.1.2, x.2.2)) =
      some ([Call.receive 16000 1 [] 0], .TTS_CALLBACK_HALT) := by
  decide

/-- C22, amended. A call of `Resampler::Done` in which the destination's
`Receive` returns (with the receiver state `d1` and the status `status1`):
the resampler makes one call of `resample_process`, with no input sample and
the final flag set (`finalStep`), and its handle is the one that call returns;
the samples drained by that call, clamped to `[-32768, 32767]`, are forwarded
with one call of the destination's `Receive`, at the destination rate and one
channel. When that `Receive` returns `TTS_CALLBACK_CONTINUE`, the destination's
`Done()` is then called once and its status is returned; when it returns
another status, that status is returned and the destination's `Done()` is not
called. -/
theorem Done_spec (lib : Libresample H F) (destination_ : TtsDataReceiver D)
    (r : Resampler H F) (d d1 : D) (status1 : tts_callback_status)
    (hrecv : destination_.Receive d r.dest_rate_ 1 (finalArray lib r) (finalStep lib r).2.1 =
      .ok (d1, status1)) :
    finalStep lib r = lib.resample_process r.resample_handle_ r.factor_ r.in_floats_ 0 1
      r.out_floats_ r.buffer_size_ ∧
    (finalArray lib r).take (finalStep lib r).2.1.toNat =
      (List.range (min (finalStep lib r).2.1.toNat r.out_int16s_.length)).map
        (fun j => EarconManager.clamp
          (lib.toInt ((finalStep lib r).2.2.2.getD j (lib.ofInt16 0)))) ∧
    ∃ r1 : Resampler H F,
      r1.resample_handle_ = (finalStep lib r).1 ∧
      (status1 ≠ .TTS_CALLBACK_CONTINUE →
        Done lib (recorded destination_) r (d, []) =
          .ok (r1,
            (d1, [Call.receive r.dest_rate_ 1
              ((finalArray lib r).take (finalStep lib r).2.1.toNat) (finalStep lib r).2.1]),
            status1)) ∧
      (status1 = .TTS_CALLBACK_CONTINUE →
        ∀ (d2 : D) (status2 : tts_callback_status),
          destination_.Done d1 = .ok (d2, status2) →
          Done lib (recorded destination_) r (d, []) =
            .ok (r1,
              (d2, [Call.receive r.dest_rate_ 1
                ((finalArray lib r).take (finalStep lib r).2.1.toNat) (finalStep lib r).2.1,
                Call.done]),
              status2)) := by
  refine ⟨rfl, finalArray_take lib r,
    { r with resample_handle_ := (finalStep lib r).1, out_floats_ := (finalStep lib r).2.2.2,
             out_int16s_ := finalArray lib r }, rfl, ?_, ?_⟩
  · intro hne
    unfold Done
    rw [ProcessInFloats_final]
    simp only [recorded, hrecv, List.nil_append]
    rw [if_pos hne]
  · intro heq d2 status2 hdone
    unfold Done
    rw [ProcessInFloats_final]
    simp only [recorded, hrecv, List.nil_append]
    rw [if_neg (by simp [heq])]
    simp only [hdone, List.singleton_append]

/-- C22, amended, at a converter that drains nothing into an `EarconReceiver`
whose clip is not yet complete: one `Receive` with no sample, then one
`Done()`, whose status `TTS_CALLBACK_HALT` is returned. -/
theorem Done_spec_witness :
    EarconReceiver.receiver.Receive
      { frame_count := 2, data := [0, 0], is_playing := false, position := 0, loop := false }
      (Resampler.new TtsService.silentLib 8000 16000 2).dest_rate_ 1
      (finalArray TtsService.silentLib (Resampler.new TtsService.silentLib 8000 16000 2))
      (finalStep TtsService.silentLib (Resampler.new TtsService.silentLib 8000 16000 2)).2.1 =
      .ok ({ frame_count := 2, data := [0, 0], is_playing := false, position := 0,
             loop := false }, .TTS_CALLBACK_CONTINUE) ∧
    (Done TtsService.silentLib (recorded EarconReceiver.receiver)
      (Resampler.new TtsService.silentLib 8000 16000 2)
      ({ frame_count := 2, data := [0, 0], is_playing := false, position := 0, loop := false },
       [])).toOption.map (fun x => (x.2.1.2, x.2.2)) =
      some ([Call.receive 16000 1 [] 0, Call.done], .TTS_CALLBACK_HALT) := by
  refine ⟨rfl, ?_⟩
  obtain ⟨_, _, r1, _, _, h⟩ := Done_spec TtsService.silentLib EarconReceiver.receiver
    (Resampler.new TtsService.silentLib 8000 16000 2)
    { frame_count := 2, data := [0, 0], is_playing := false, position := 0, loop := false }
    { frame_count := 2, data := [0, 0], is_playing := false, position := 0, loop := false }
    .TTS_CALLBACK_CONTINUE rfl
  rw [h rfl _ .TTS_CALLBACK_HALT rfl]
  rfl

end Resampler

namespace Resampler

variable {H F D : Type}

/-- What `ProcessInFloats` without final padding returns. -/
theorem ProcessInFloats_ok (lib : Libresample H F) (destination_ : TtsDataReceiver D)
    (r r1 : Resampler H F) (d d1 : D) (n idx idx1 : Int) (st : tts_callback_status)
    (h : ProcessInFloats lib destination_ r d n false idx = .ok (r1, d1, idx1, st)) :
    r1.buffer_size_ = r.buffer_size_ ∧
    idx1 = idx + (lib.resample_process r.resample_handle_ r.factor_
      (r.in_floats_.drop idx.toNat) (n - idx) 0 r.out_floats_ r.buffer_size_).2.2.1 := by
  unfold ProcessInFloats at h
  simp only [Bool.false_and, Bool.false_eq_true, if_false] at h
  split at h
  · exact absurd h (by simp)
  · simp only [Except.ok.injEq, Prod.mk.injEq] at h
    obtain ⟨h1, _, h3, _⟩ := h
    subst h1
    exact ⟨rfl, h3.symm⟩

theorem ProcessInFloats_fuel (lib : Libresample H F) (destination_ : TtsDataReceiver D)
    (hdest : ∀ d rate ch data n, destination_.Receive d rate ch data n ≠ .error .fuel)
    (r : Resampler H F) (d : D) (n idx : Int) :
    ProcessInFloats lib destination_ r d n false idx ≠ .error .fuel := by
  intro h
  unfold ProcessInFloats at h
  simp only [Bool.false_and, Bool.false_eq_true, if_false] at h
  split at h
  · rename_i e he
    simp only [Except.error.injEq] at h
    subst h
    exact hdest _ _ _ _ _ he
  · exact absurd h (by simp)

/-- The loop of `ProcessBuffer` leaves `buffer_size_` as it is. -/
theorem processBufferLoop_buffer_size (lib : Libresample H F)
    (destination_ : TtsDataReceiver D) (n : Int) :
    ∀ (fuel : Nat) (r r1 : Resampler H F) (d d1 : D) (idx : Int) (st : tts_callback_status),
      processBufferLoop lib destination_ n fuel r d idx = .ok (r1, d1, st) →
      r1.buffer_size_ = r.buffer_size_
  | 0, r, r1, d, d1, idx, st, h => by
    unfold processBufferLoop at h
    split_ifs at h
    simp only [Except.ok.injEq, Prod.mk.injEq] at h
    rw [← h.1]
  | fuel + 1, r, r1, d, d1, idx, st, h => by
    unfold processBufferLoop at h
    by_cases hlt : idx < n
    · rw [if_pos hlt] at h
      cases hp : ProcessInFloats lib destination_ r d n false idx with
      | error e => rw [hp] at h; exact absurd h (by simp)
      | ok v =>
        obtain ⟨r2, d2, idx2, st2⟩ := v
        rw [hp] at h
        simp only at h
        have hb := (ProcessInFloats_ok lib destination_ r r2 d d2 n idx idx2 st2 hp).1
        by_cases hst : st2 ≠ .TTS_CALLBACK_CONTINUE
        · rw [if_pos hst] at h
          simp only [Except.ok.injEq, Prod.mk.injEq] at h
          rw [← h.1, hb]
        · rw [if_neg hst] at h
          rw [processBufferLoop_buffer_size lib destination_ n fuel r2 r1 d2 d1 idx2 st h, hb]
    · rw [if_neg hlt] at h
      simp only [Except.ok.injEq, Prod.mk.injEq] at h
      rw [← h.1]

/-- The method `ProcessBuffer` leaves `buffer_size_` as it is. -/
theorem ProcessBuffer_buffer_size (lib : Libresample H F) (destination_ : TtsDataReceiver D)
    (fuel : Nat) (r r1 : Resampler H F) (d d1 : D) (data : List Int) (n : Int)
    (st : tts_callback_status)
    (h : ProcessBuffer lib destination_ fuel r d data n = .ok (r1, d1, st)) :
    r1.buffer_size_ = r.buffer_size_ := by
  unfold ProcessBuffer at h
  dsimp only at h
  have := processBufferLoop_buffer_size lib destination_ n fuel _ r1 d d1 0 st h
  exact this

/-- With a library that uses at least one input sample in every call that is
given some, and a destination that returns, the loop of `ProcessBuffer` ends
within as many iterations as there are samples left. -/
theorem processBufferLoop_fuel (lib : Libresample H F) (destination_ : TtsDataReceiver D)
    (B : Int)
    (hlib : ∀ h f xs (k : Int) out, 0 < k → 1 ≤ (lib.resample_process h f xs k 0 out B).2.2.1)
    (hdest : ∀ d rate ch data n, destination_.Receive d rate ch data n ≠ .error .fuel)
    (n : Int) :
    ∀ (fuel : Nat) (r : Resampler H F) (d : D) (idx : Int),
      r.buffer_size_ = B → (n - idx).toNat ≤ fuel →
      processBufferLoop lib destination_ n fuel r d idx ≠ .error .fuel
  | 0, r, d, idx, hB, hf => by
    unfold processBufferLoop
    rw [if_neg (by omega)]
    simp
  | fuel + 1, r, d, idx, hB, hf => by
    unfold processBufferLoop
    by_cases hlt : idx < n
    · rw [if_pos hlt]
      cases hp : ProcessInFloats lib destination_ r d n false idx with
      | error e =>
        simp only
        intro h
        simp only [Except.error.injEq] at h
        subst h
        exact ProcessInFloats_fuel lib destination_ hdest r d n idx hp
      | ok v =>
        obtain ⟨r2, d2, idx2, st2⟩ := v
        simp only
        obtain ⟨hb, hidx⟩ := ProcessInFloats_ok lib destination_ r r2 d d2 n idx idx2 st2 hp
        by_cases hst : st2 ≠ .TTS_CALLBACK_CONTINUE
        · rw [if_pos hst]; simp
        · rw [if_neg hst]
          have hu := hlib r.resample_handle_ r.factor_ (r.in_floats_.drop idx.toNat) (n - idx)
            r.out_floats_ (by omega)
          rw [hB] at hidx
          exact processBufferLoop_fuel lib destination_ B hlib hdest n fuel r2 d2 idx2
            (by rw [hb, hB]) (by omega)
    · rw [if_neg hlt]; simp

theorem ProcessBuffer_fuel (lib : Libresample H F) (destination_ : TtsDataReceiver D)
    (B : Int)
    (hlib : ∀ h f xs (k : Int) out, 0 < k → 1 ≤ (lib.resample_process h f xs k 0 out B).2.2.1)
    (hdest : ∀ d rate ch data n, destination_.Receive d rate ch data n ≠ .error .fuel)
    (fuel : Nat) (r : Resampler H F) (d : D) (data : List Int) (n : Int)
    (hB : r.buffer_size_ = B) (hf : n.toNat ≤ fuel) :
    ProcessBuffer lib destination_ fuel r d data n ≠ .error .fuel := by
  unfold ProcessBuffer
  exact processBufferLoop_fuel lib destination_ B hlib hdest n fuel _ d 0 hB (by simpa using hf)

/-- No chunk when no sample is left. -/
theorem chunks_zero (B : Nat) (hB : 1 ≤ B) (data : List Int) : chunks B data 0 = [] := by
  unfold chunks
  have : (0 + B - 1) / B = 0 := by
    rw [Nat.zero_add]
    exact Nat.div_eq_of_lt (by omega)
  rw [this]
  rfl

/-- The first chunk, and the chunks of what is left after it. -/
theorem chunks_pos (B : Nat) (hB : 1 ≤ B) (data : List Int) (n : Nat) (hn : 1 ≤ n) :
    chunks B data n =
      (data, ((min B n : Nat) : Int)) :: chunks B (data.drop (min B n)) (n - min B n) := by
  unfold chunks
  by_cases hle : n ≤ B
  · have h1 : (n + B - 1) / B = 1 := by
      apply Nat.div_eq_of_lt_le <;> omega
    have h2 : (n - min B n + B - 1) / B = 0 := by
      rw [min_eq_right hle]
      exact Nat.div_eq_of_lt (by omega)
    have h3 : List.range 1 = [0] := rfl
    rw [h1, h2, h3]
    simp
  · have hlt : B < n := by omega
    have h1 : (n + B - 1) / B = (n - min B n + B - 1) / B + 1 := by
      rw [min_eq_left (by omega)]
      have : n + B - 1 = (n - B + B - 1) + B := by omega
      rw [this, Nat.add_div_right _ (by omega)]
    rw [h1, List.range_succ_eq_map, List.map_cons, List.map_map]
    rw [min_eq_left (by omega : B ≤ n)]
    congr 1
    · simp
      omega
    · apply List.map_congr_left
      intro k _
      simp only [Function.comp, List.drop_drop]
      have e1 : B + k * B = (k + 1) * B := by ring
      have e2 : n - B - k * B = n - (k + 1) * B := by
        rw [Nat.sub_sub, e1]
      rw [e1, e2]

/-- The loop of `Receive` feeds the chunks of the specification, whatever
`ProcessBuffer` does with them, within as many iterations as there are
samples. -/
theorem receiveLoop_eq (lib : Libresample H F) (destination_ : TtsDataReceiver D)
    (fuel B : Nat) (hB : 1 ≤ B) :
    ∀ (k : Nat) (r : Resampler H F) (d : D) (ptr : List Int) (n : Nat),
      r.buffer_size_ = B → n ≤ k →
      receiveLoop lib destination_ fuel k r d ptr n =
        feedChunks lib destination_ fuel (chunks B ptr n) r d
  | 0, r, d, ptr, n, hbuf, hk => by
    have hn : n = 0 := by omega
    subst hn
    rw [chunks_zero B hB]
    unfold receiveLoop feedChunks
    rw [hbuf]
    have h0 : ¬ ((0 : Int) > (B : Int)) := by omega
    simp only [Nat.cast_zero, if_neg h0, if_true]
  | k + 1, r, d, ptr, n, hbuf, hk => by
    by_cases hn : n = 0
    · subst hn
      rw [chunks_zero B hB]
      unfold receiveLoop feedChunks
      rw [hbuf]
      have h0 : ¬ ((0 : Int) > (B : Int)) := by omega
      simp only [Nat.cast_zero, if_neg h0, if_true]
    · rw [chunks_pos B hB ptr n (by omega)]
      unfold receiveLoop feedChunks
      rw [hbuf]
      have hto : (if (n : Int) > (B : Int) then (B : Int) else (n : Int)) =
          ((min B n : Nat) : Int) := by
        split_ifs with h
        · rw [min_eq_left (by omega)]
        · rw [min_eq_right (by omega)]
      simp only [hto]
      have hne : ¬ ((min B n : Nat) : Int) = 0 := by
        have : 1 ≤ min B n := le_min hB (by omega)
        omega
      rw [if_neg hne]
      cases hp : ProcessBuffer lib destination_ fuel r d ptr ((min B n : Nat) : Int) with
      | error e => rfl
      | ok v =>
        obtain ⟨r1, d1, st⟩ := v
        simp only
        by_cases hst : st ≠ .TTS_CALLBACK_CONTINUE
        · rw [if_pos hst, if_pos hst]
        · rw [if_neg hst, if_neg hst]
          have hb := ProcessBuffer_buffer_size lib destination_ fuel r r1 d d1 ptr _ st hp
          have hrem : (n : Int) - ((min B n : Nat) : Int) = ((n - min B n : Nat) : Int) := by
            have : min B n ≤ n := min_le_right _ _
            omega
          rw [hrem, Int.toNat_ofNat]
          exact receiveLoop_eq lib destination_ fuel B hB k r1 d1 _ _ (by rw [hb, hbuf])
            (by have : 1 ≤ min B n := le_min hB (by omega)
                omega)

/-- Feeding chunks that are not longer than the iteration budget does not run
out of it, with a library that uses at least one input sample in every call
that is given some and a destination that returns. -/
theorem feedChunks_fuel (lib : Libresample H F) (destination_ : TtsDataReceiver D)
    (B : Int)
    (hlib : ∀ h f xs (k : Int) out, 0 < k → 1 ≤ (lib.resample_process h f xs k 0 out B).2.2.1)
    (hdest : ∀ d rate ch data n, destination_.Receive d rate ch data n ≠ .error .fuel)
    (fuel : Nat) :
    ∀ (cs : List (List Int × Int)) (r : Resampler H F) (d : D),
      r.buffer_size_ = B → (∀ c ∈ cs, c.2.toNat ≤ fuel) →
      feedChunks lib destination_ fuel cs r d ≠ .error .fuel
  | [], r, d, _, _ => by simp [feedChunks]
  | c :: cs, r, d, hbuf, hc => by
    unfold feedChunks
    cases hp : ProcessBuffer lib destination_ fuel r d c.1 c.2 with
    | error e =>
      simp only
      intro h
      simp only [Except.error.injEq] at h
      subst h
      exact ProcessBuffer_fuel lib destination_ B hlib hdest fuel r d c.1 c.2 hbuf
        (hc c (List.mem_cons_self _ _)) hp
    | ok v =>
      obtain ⟨r1, d1, st⟩ := v
      simp only
      by_cases hst : st ≠ .TTS_CALLBACK_CONTINUE
      · rw [if_pos hst]; simp
      · rw [if_neg hst]
        have hb := ProcessBuffer_buffer_size lib destination_ fuel r r1 d d1 c.1 c.2 st hp
        exact feedChunks_fuel lib destination_ B hlib hdest fuel cs r1 d1 (by rw [hb, hbuf])
          (fun x hx => hc x (List.mem_cons_of_mem _ hx))

theorem chunks_length (B : Nat) (data : List Int) (n : Nat) :
    (chunks B data n).length = (n + B - 1) / B := by
  simp [chunks]

/-- The shape of the chunks: chunk `k` starts at sample `k * B`, has between 1
and `B` samples, has `B` samples unless it is the last, and the last ends at
sample `n`. -/
theorem chunks_shape (B : Nat) (hB : 1 ≤ B) (data : List Int) (n k : Nat)
    (hk : k < (chunks B data n).length) :
    ∃ size : Nat,
      (chunks B data n)[k]? = some (data.drop (k * B), (size : Int)) ∧
      1 ≤ size ∧ size ≤ B ∧
      (k + 1 < (chunks B data n).length → size = B) ∧
      (k + 1 = (chunks B data n).length → k * B + size = n) := by
  rw [chunks_length] at hk ⊢
  have h1 : (k + 1) * B ≤ n + B - 1 := (Nat.le_div_iff_mul_le (by omega)).mp hk
  have h1b : k * B + B ≤ n + B - 1 := by rw [← Nat.succ_mul]; exact h1
  refine ⟨min B (n - k * B), ?_, ?_, min_le_left _ _, ?_, ?_⟩
  · unfold chunks
    rw [List.getElem?_map, List.getElem?_range hk]
    rfl
  · exact le_min hB (by omega)
  · intro h2
    have h3 : (k + 2) * B ≤ n + B - 1 := (Nat.le_div_iff_mul_le (by omega)).mp h2
    have h3b : k * B + 2 * B ≤ n + B - 1 := by
      have : (k + 2) * B = k * B + 2 * B := by ring
      omega
    exact min_eq_left (by omega)
  · intro h2
    have h3 : ¬ (k + 2) * B ≤ n + B - 1 := by
      rw [← Nat.le_div_iff_mul_le (by omega)]
      omega
    have h3b : (k + 2) * B = k * B + 2 * B := by ring
    rw [min_eq_right (by omega)]
    omega

/-- C21. A call `Receive(rate, 1, data, num_samples)` with the configured
source rate, a working buffer of `B ≥ 1` samples and `num_samples ≥ 0` makes at
most `num_samples` turns of its loop and is the feeding of the chunks
`chunks B data num_samples` to `ProcessBuffer`, in order: the status of the
first chunk whose status is not `TTS_CALLBACK_CONTINUE` is returned at once and
no later chunk is processed, and `TTS_CALLBACK_CONTINUE` is returned when there
is no such chunk. Chunk `k` starts at input sample `k * B`; it has between 1
and `B` samples, exactly `B` unless it is the last, and the last chunk ends at
sample `num_samples`: the chunks follow one another without overlap and cover
the input exactly. The call ends (it does not run out of iterations) when
libresample uses at least one input sample in every call that is given some
and the destination's `Receive` ends. -/
theorem Receive_chunks (lib : Libresample H F) (destination_ : TtsDataReceiver D)
    (fuel : Nat) (r : Resampler H F) (d : D) (rate : Int) (data : List Int)
    (num_samples B : Nat) (hB : 1 ≤ B) (hbuf : r.buffer_size_ = B)
    (hrate : rate = r.source_rate_) (hfuel : num_samples ≤ fuel) :
    Receive lib destination_ fuel r d rate 1 data num_samples =
      feedChunks lib destination_ fuel (chunks B data num_samples) r d ∧
    (∀ k : Nat, k < (chunks B data num_samples).length →
      ∃ size : Nat,
        (chunks B data num_samples)[k]? = some (data.drop (k * B), (size : Int)) ∧
        1 ≤ size ∧ size ≤ B ∧
        (k + 1 < (chunks B data num_samples).length → size = B) ∧
        (k + 1 = (chunks B data num_samples).length → k * B + size = num_samples)) ∧
    ((∀ h f xs (k : Int) out,
        0 < k → 1 ≤ (lib.resample_process h f xs k 0 out (B : Int)).2.2.1) →
      (∀ d rate ch data n, destination_.Receive d rate ch data n ≠ .error .fuel) →
      Receive lib destination_ fuel r d rate 1 data num_samples ≠ .error .fuel) := by
  have hrecv : Receive lib destination_ fuel r d rate 1 data num_samples =
      feedChunks lib destination_ fuel (chunks B data num_samples) r d := by
    unfold Receive
    rw [if_neg (by simp), if_neg (by simp [hrate])]
    exact receiveLoop_eq lib destination_ fuel B hB fuel r d data num_samples hbuf hfuel
  refine ⟨hrecv, fun k hk => chunks_shape B hB data num_samples k hk, fun hlib hdest => ?_⟩
  rw [hrecv]
  apply feedChunks_fuel lib destination_ B hlib hdest fuel _ r d hbuf
  intro c hc
  obtain ⟨k, hk, rfl⟩ := List.getElem_of_mem hc
  obtain ⟨size, h1, _, _, h4, h5⟩ := chunks_shape B hB data num_samples k hk
  rw [List.getElem?_eq_getElem hk] at h1
  simp only [Option.some.injEq] at h1
  rw [h1]
  simp only [Int.toNat_ofNat]
  by_cases hlast : k + 1 = (chunks B data num_samples).length
  · have := h5 hlast
    omega
  · have hs := h4 (by omega)
    have h6 : (k + 2) * B ≤ num_samples + B - 1 := by
      have hk2 : k + 2 ≤ (chunks B data num_samples).length := by omega
      rw [chunks_length] at hk2
      exact (Nat.le_div_iff_mul_le (by omega)).mp hk2
    have h7 : (k + 2) * B = k * B + B + B := by ring
    omega

/-- C21 at a converter with a working buffer of two samples that doubles the
rate into an `EarconReceiver` with room for eight frames: three input samples
are fed as a chunk of two and a chunk of one, and the call returns
`TTS_CALLBACK_CONTINUE` with six frames stored. -/
theorem Receive_chunks_witness :
    (1 ≤ 2 ∧ (Resampler.new tailLib 8000 16000 2).buffer_size_ = ((2 : Nat) : Int) ∧
      (8000 : Int) = (Resampler.new tailLib 8000 16000 2).source_rate_ ∧ 3 ≤ 3) ∧
    Receive tailLib EarconReceiver.receiver 3 (Resampler.new tailLib 8000 16000 2)
        { frame_count := 8, data := [0, 0, 0, 0, 0, 0, 0, 0], is_playing := false,
          position := 0, loop := false } 8000 1 [1, 2, 3] ((3 : Nat) : Int) =
      feedChunks tailLib EarconReceiver.receiver 3 (chunks 2 [1, 2, 3] 3)
        (Resampler.new tailLib 8000 16000 2)
        { frame_count := 8, data := [0, 0, 0, 0, 0, 0, 0, 0], is_playing := false,
          position := 0, loop := false } ∧
    chunks 2 [1, 2, 3] 3 = [([1, 2, 3], 2), ([3], 1)] ∧
    (Receive tailLib EarconReceiver.receiver 3 (Resampler.new tailLib 8000 16000 2)
        { frame_count := 8, data := [0, 0, 0, 0, 0, 0, 0, 0], is_playing := false,
          position := 0, loop := false } 8000 1 [1, 2, 3] ((3 : Nat) : Int)).toOption.map
      (fun x => (x.2.1.data, x.2.1.position, x.2.2)) =
      some ([1, 1, 2, 2, 3, 3, 0, 0], 6, .TTS_CALLBACK_CONTINUE) :=
  ⟨⟨by decide, rfl, rfl, by decide⟩,
    (Receive_chunks tailLib EarconReceiver.receiver 3 (Resampler.new tailLib 8000 16000 2)
      { frame_count := 8, data := [0, 0, 0, 0, 0, 0, 0, 0], is_playing := false,
        position := 0, loop := false } 8000 [1, 2, 3] 3 2 (by decide) rfl rfl (by decide)).1,
    by decide, by decide⟩

end Resampler

/-! ## Theorems: the mix of many clips -/

namespace EarconManager

/-- Sample `j` after the clips `es` have been mixed in one after the other is
the sample before with the samples of the active clips added in order, each
sum clamped. -/
theorem foldl_mixedWith_getD (channels n : Int) (j : Nat) :
    ∀ (es : List Earcon) (buf : List Int), j < buf.length →
      (es.foldl (mixedWith channels n) buf).getD j 0 =
        (activeSamples channels n es j).foldl (fun acc v => clamp (acc + v)) (buf.getD j 0)
  | [], buf, _ => by simp [activeSamples]
  | e :: es, buf, hj => by
    rw [List.foldl_cons, foldl_mixedWith_getD channels n j es _
      (by rw [mixedWith_length]; exact hj)]
    unfold activeSamples
    rw [List.filterMap_cons]
    cases hplay : e.is_playing
    · simp [mixedWith, hplay]
    · rw [mixedWith_getD channels n buf e hplay j hj]
      by_cases hlt : (j : Int) < min (e.frame_count - e.position) n * channels
      · simp [hlt, clamp]
      · simp [hlt]

theorem foldl_mixedWith_length (channels n : Int) :
    ∀ (es : List Earcon) (buf : List Int),
      (es.foldl (mixedWith channels n) buf).length = buf.length
  | [], _ => rfl
  | e :: es, buf => by
    rw [List.foldl_cons, foldl_mixedWith_length channels n es, mixedWith_length]

/-- Adding with a clamp after every term is adding exactly, as long as every
partial sum fits an `int16_t`. -/
theorem foldl_clamp_exact :
    ∀ (vs : List Int) (v : Int),
      (∀ k : Nat, 1 ≤ k → k ≤ vs.length → IsInt16 (v + (vs.take k).sum)) →
      vs.foldl (fun acc x => clamp (acc + x)) v = v + vs.sum
  | [], v, _ => by simp
  | x :: vs, v, h => by
    have h1 := h 1 (le_refl 1) (by simp)
    simp only [List.take_succ_cons, List.take_zero, List.sum_cons, List.sum_nil, add_zero] at h1
    have hc : clamp (v + x) = v + x := by
      unfold clamp; unfold IsInt16 at h1; omega
    rw [List.foldl_cons, hc, foldl_clamp_exact vs (v + x)]
    · simp only [List.sum_cons]; ring
    · intro k hk1 hk2
      have := h (k + 1) (by omega) (by simp; omega)
      simp only [List.take_succ_cons, List.sum_cons] at this
      rw [add_assoc]
      exact this

/-- C26, mixes that are not the exact sum clamped once. Three playing mono
clips of one frame with the samples 30000, 30000 and -30000 are mixed into a
frame of silence: the sum is clamped after the second clip (60000 becomes
32767) and the result is 2767, not the exact sum 30000. With the same clips
loaded in the order 30000, -30000, 30000 the result is 30000: the mix depends
on the order of the clips. -/
theorem FillAudioBuffer_depends_on_order :
    (FillAudioBuffer
      { earcons_ := [oneSample 30000, oneSample 30000, oneSample (-30000)], rate_ := 16000,
        channels_ := 1 } [0] 1 1).toOption.map (fun r => r.2) = some [2767] ∧
    (FillAudioBuffer
      { earcons_ := [oneSample 30000, oneSample (-30000), oneSample 30000], rate_ := 16000,
        channels_ := 1 } [0] 1 1).toOption.map (fun r => r.2) = some [30000] ∧
    clamp (0 + (30000 + 30000 + -30000)) = 30000 := by
  refine ⟨by decide, by decide, by decide⟩

/-- C26, amended. In a manager whose clips all have
`0 ≤ position ≤ frame_count`, a call `FillAudioBuffer(buf, n, channels)` with
`n ≥ 0` and the manager's channel count returns normally with an array as long
as `buf`, and each sample `j` of it is the sample `buf[j]` with the samples of
the clips active at `j` added in the order of the clips, the sum being clamped
to `[-32768, 32767]` after every clip. When `buf[j]` and every partial sum fit
`[-32768, 32767]`, this is the exact integer sum of `buf[j]` and the samples of
all active clips, clamped once. -/
theorem FillAudioBuffer_mix (m : EarconManager) (buf : List Int) (n : Int) (hn : 0 ≤ n)
    (hpos : ∀ e ∈ m.earcons_, 0 ≤ e.position ∧ e.position ≤ e.frame_count) :
    ∃ (m1 : EarconManager) (out : List Int),
      FillAudioBuffer m buf n m.channels_ = .ok (m1, out) ∧
      out.length = buf.length ∧
      ∀ j : Nat, j < buf.length →
        out.getD j 0 =
          (activeSamples m.channels_ n m.earcons_ j).foldl (fun acc v => clamp (acc + v))
            (buf.getD j 0) ∧
        ((∀ k : Nat, k ≤ (activeSamples m.channels_ n m.earcons_ j).length →
            IsInt16 (buf.getD j 0 + ((activeSamples m.channels_ n m.earcons_ j).take k).sum)) →
          out.getD j 0 =
            clamp (buf.getD j 0 + (activeSamples m.channels_ n m.earcons_ j).sum)) := by
  refine ⟨{ m with earcons_ := m.earcons_.map (advanced n) },
    m.earcons_.foldl (mixedWith m.channels_ n) buf, ?_,
    foldl_mixedWith_length m.channels_ n m.earcons_ buf, ?_⟩
  · unfold FillAudioBuffer
    rw [fillLoop_eq m.channels_ n hn m.earcons_ buf hpos]
    simp
  · intro j hj
    refine ⟨foldl_mixedWith_getD m.channels_ n j m.earcons_ buf hj, fun h => ?_⟩
    rw [foldl_mixedWith_getD m.channels_ n j m.earcons_ buf hj,
      foldl_clamp_exact _ _ (fun k _ hk => h k hk)]
    have hall := h _ (le_refl _)
    rw [List.take_length] at hall
    unfold clamp
    unfold IsInt16 at hall
    omega

/-- C26, amended, at the stereo manager `mixer3` and a call for two frames on
an array of four samples. -/
theorem FillAudioBuffer_mix_witness :
    ((0 : Int) ≤ 2 ∧ ∀ e ∈ mixer3.earcons_, 0 ≤ e.position ∧ e.position ≤ e.frame_count) ∧
    ∃ (m1 : EarconManager) (out : List Int),
      FillAudioBuffer mixer3 [100, 200, 300, 32767] 2 mixer3.channels_ = .ok (m1, out) ∧
      out.length = [(100 : Int), 200, 300, 32767].length ∧
      ∀ j : Nat, j < [(100 : Int), 200, 300, 32767].length →
        out.getD j 0 =
          (activeSamples mixer3.channels_ 2 mixer3.earcons_ j).foldl
            (fun acc v => clamp (acc + v)) ([(100 : Int), 200, 300, 32767].getD j 0) ∧
        ((∀ k : Nat, k ≤ (activeSamples mixer3.channels_ 2 mixer3.earcons_ j).length →
            IsInt16 ([(100 : Int), 200, 300, 32767].getD j 0 +
              ((activeSamples mixer3.channels_ 2 mixer3.earcons_ j).take k).sum)) →
          out.getD j 0 =
            clamp ([(100 : Int), 200, 300, 32767].getD j 0 +
              (activeSamples mixer3.channels_ 2 mixer3.earcons_ j).sum)) :=
  ⟨by decide, FillAudioBuffer_mix mixer3 [100, 200, 300, 32767] 2 (by decide) (by decide)⟩

end EarconManager

/-! ## Theorems: WAV files -/

namespace EarconManager

theorem readU8_some {data : List Nat} {i v : Int} (h : readU8 data i = some v) :
    0 ≤ i ∧ i < data.length ∧ 0 ≤ v ∧ v < 256 := by
  unfold readU8 at h
  by_cases hi : 0 ≤ i
  · rw [if_pos hi] at h
    cases hg : data.get? i.toNat with
    | none => rw [hg] at h; simp at h
    | some b =>
      rw [hg] at h
      simp only [Option.map_some', Option.some.injEq] at h
      have hlt : i.toNat < data.length := by
        by_contra hc
        rw [List.get?_eq_none.mpr (by omega)] at hg
        exact absurd hg (by simp)
      have : b % 256 < 256 := Nat.mod_lt _ (by decide)
      refine ⟨hi, by omega, by omega, by omega⟩
  · rw [if_neg hi] at h
    exact absurd h (by simp)

theorem readU16_some {data : List Nat} {i v : Int} (h : readU16 data i = some v) :
    0 ≤ i ∧ i + 1 < data.length ∧ 0 ≤ v ∧ v < 65536 := by
  unfold readU16 at h
  cases h0 : readU8 data i with
  | none => rw [h0] at h; simp at h
  | some b0 =>
    cases h1 : readU8 data (i + 1) with
    | none => rw [h0, h1] at h; simp at h
    | some b1 =>
      rw [h0, h1] at h
      simp only [Option.some.injEq] at h
      have a := readU8_some h0
      have b := readU8_some h1
      refine ⟨a.1, b.2.1, by omega, by omega⟩

theorem readU32_some {data : List Nat} {i v : Int} (h : readU32 data i = some v) :
    0 ≤ i ∧ i + 3 < data.length ∧ 0 ≤ v ∧ v < 4294967296 := by
  unfold readU32 at h
  cases h0 : readU16 data i with
  | none => rw [h0] at h; simp at h
  | some b0 =>
    cases h1 : readU16 data (i + 2) with
    | none => rw [h0, h1] at h; simp at h
    | some b1 =>
      rw [h0, h1] at h
      simp only [Option.some.injEq] at h
      have a := readU16_some h0
      have b := readU16_some h1
      refine ⟨a.1, by omega, by omega, by omega⟩

/-- A step of the walk that goes on has read the 8 bytes of a chunk header
inside the array and moves `pos` by the size it read, which passed the bounds
test, and 8. -/
theorem chunkStep_next {data : List Nat} {filelen : Int} {w w1 : WavWalk}
    (h : chunkStep data filelen w = .next w1) :
    0 ≤ w.pos ∧ w.pos + 7 < data.length ∧
    ∃ chunk_bytes : Int, 0 ≤ chunk_bytes ∧ chunk_bytes ≤ toUInt32 (filelen - w.pos) ∧
      w1.pos = toInt32 (w.pos + chunk_bytes + 8) := by
  unfold chunkStep withRead at h
  cases h1 : readU32 data w.pos with
  | none => rw [h1] at h; simp at h
  | some label =>
    cases h2 : readU32 data (w.pos + 4) with
    | none => rw [h1, h2] at h; simp at h
    | some cb =>
      rw [h1, h2] at h
      simp only at h
      have a := readU32_some h1
      have b := readU32_some h2
      refine ⟨a.1, by omega, cb, b.2.2.1, ?_, ?_⟩
      · by_contra hc
        have : chunkAccepted filelen w.pos cb = false := by
          unfold chunkAccepted
          simp only [Bool.not_eq_false', decide_eq_true_eq]
          omega
        rw [this] at h
        simp at h
      · generalize FourCharUInt32 "fmt " = fmt at h
        generalize FourCharUInt32 "data" = dat at h
        repeat' split at h
        all_goals first
          | (simp only [WalkResult.next.injEq] at h; rw [← h])
          | (simp at h)

theorem chunkStep_ne_fuel (data : List Nat) (filelen : Int) (w : WavWalk) :
    chunkStep data filelen w ≠ .fuel := by
  intro h
  unfold chunkStep withRead at h
  generalize FourCharUInt32 "fmt " = fmt at h
  generalize FourCharUInt32 "data" = dat at h
  cases h1 : readU32 data w.pos with
  | none => rw [h1] at h; exact WalkResult.noConfusion h
  | some label =>
    cases h2 : readU32 data (w.pos + 4) with
    | none => rw [h1, h2] at h; exact WalkResult.noConfusion h
    | some cb =>
      rw [h1, h2] at h
      simp only at h
      repeat' split at h
      all_goals exact WalkResult.noConfusion h

/-- The walk over a file of fewer than 2^31 - 8 bytes ends within one turn for
every 8 bytes of the file, and one more. -/
theorem walk_fuel (data : List Nat) (filelen : Int) (hlen : (data.length : Int) ≤ filelen)
    (hmax : filelen + 8 < 2147483648) :
    ∀ (fuel : Nat) (w : WavWalk),
      (0 ≤ w.pos → w.pos + 8 ≤ filelen → filelen - w.pos < 8 * (fuel : Int)) →
      (fuel = 0 → 0 ≤ w.pos ∧ w.pos ≤ filelen) →
      walk data filelen fuel w ≠ .fuel
  | 0, w, h1, h2 => by
    obtain ⟨h3, h4⟩ := h2 rfl
    unfold walk
    have : ¬ toUInt32 (filelen - w.pos) ≥ 8 := by
      unfold toUInt32
      by_cases h5 : w.pos + 8 ≤ filelen
      · have := h1 h3 h5
        omega
      · omega
    rw [if_neg this]
    simp
  | fuel + 1, w, h1, _ => by
    unfold walk
    by_cases hc : toUInt32 (filelen - w.pos) ≥ 8
    · rw [if_pos hc]
      cases hs : chunkStep data filelen w with
      | next w1 =>
        simp only
        obtain ⟨p0, p1, cb, c0, c1, c2⟩ := chunkStep_next hs
        have hu : toUInt32 (filelen - w.pos) = filelen - w.pos := by
          unfold toUInt32; omega
        rw [hu] at c1
        have hp : w1.pos = w.pos + cb + 8 := by
          rw [c2]; unfold toInt32; omega
        apply walk_fuel data filelen hlen hmax fuel w1
        · intro _ h6
          have := h1 p0 (by omega)
          omega
        · intro hf
          subst hf
          have := h1 p0 (by omega)
          omega
      | err => simp
      | undefined => simp
      | fuel => exact absurd hs (chunkStep_ne_fuel data filelen w)
    · rw [if_neg hc]
      simp

/-- The walk of `LoadEarconFromWavFile` over a file of at least 40 and fewer
than 2^31 - 8 bytes does not use up its budget. -/
theorem LoadEarconFromWavFile_walk_ends (bytes : List Nat) (h40 : 40 ≤ bytes.length)
    (hmax : bytes.length + 8 < 2147483648) :
    walk (bytes.take (toUInt32 bytes.length).toNat) (toUInt32 bytes.length)
      (toUInt32 bytes.length).toNat
      { channels := 0, rate := 0, frames := 0, audio_data := [0], pos := 12 } ≠ .fuel := by
  have hu : toUInt32 (bytes.length : Int) = (bytes.length : Int) := by
    unfold toUInt32; omega
  rw [hu]
  apply walk_fuel
  · simp
  · omega
  · intro _ _
    simp only [Int.toNat_ofNat]
    omega
  · intro h
    simp only [Int.toNat_ofNat] at h
    omega

/-- The id that `LoadEarcon` returns is the number of earcons before the
call. -/
theorem LoadEarcon_id {H F : Type} (lib : Libresample H F) (fuel : Nat) (m m1 : EarconManager)
    (frame_count : Int) (data : List Int) (source_channels source_rate : Int) (loop : Bool)
    (id : Int)
    (h : LoadEarcon lib fuel m frame_count data source_channels source_rate loop =
      .ok (id, m1)) :
    id = m.earcons_.length := by
  unfold LoadEarcon at h
  simp only at h
  split at h
  · exact absurd h (by simp)
  · split at h
    · simp only [Except.ok.injEq, Prod.mk.injEq] at h
      exact h.1.symm
    · split at h
      · exact absurd h (by simp)
      · split at h
        · exact absurd h (by simp)
        · simp only [Except.ok.injEq, Prod.mk.injEq] at h
          exact h.1.symm

/-- Whenever `LoadEarconFromWavFile` returns -1, the manager is as before the
call. -/
theorem LoadEarconFromWavFile_minus_one {H F : Type} (lib : Libresample H F) (fuel : Nat)
    (m m1 : EarconManager) (file : Option (List Nat)) (loop : Bool)
    (h : LoadEarconFromWavFile lib fuel m file loop = some (.ok (-1, m1))) : m1 = m := by
  unfold LoadEarconFromWavFile at h
  have key : ∀ m2 : EarconManager,
      (some (Except.ok ((-1 : Int), m)) : Option (Except Abort (Int × EarconManager))) =
        some (.ok (-1, m2)) → m2 = m := by
    intro m2 h2
    simp only [Option.some.injEq, Except.ok.injEq, Prod.mk.injEq, true_and] at h2
    exact h2.symm
  cases file with
  | none => exact key m1 h
  | some bytes =>
  dsimp only at h
  generalize FourCharUInt32 "RIFF" = riff at h
  generalize FourCharUInt32 "WAVE" = wave at h
  repeat' split at h
  all_goals first
    | exact key m1 h
    | (simp only [Option.some.injEq] at h
       have := LoadEarcon_id _ _ _ _ _ _ _ _ _ _ h
       omega)
    | (simp at h)

/-- C28, the code at a file that was cut short. In the file `wavCutData` of 48
bytes the walk reaches the data chunk at `pos = 36`, whose size field says 8.
The test `filelen - pos < chunk_bytes` compares 12 with 8, so the chunk is
accepted, although `pos + 8 + chunk_bytes = 52` is more than `filelen = 48`:
the test leaves the 8 bytes of the chunk header out. The data chunk has
`8 / 2 = 4` frames, of which two are in the file; copying the third reads
outside the array, so the step, and the call, are undefined. In the file
`wavCutList`, where the accepted chunk is not a data chunk, the step moves
`pos` to 52, past `filelen`. -/
theorem chunk_accepted_past_end_of_file :
    wavCutData.length = 48 ∧
    chunkStep wavCutData 48
        { channels := 0, rate := 0, frames := 0, audio_data := [0], pos := 12 } =
      .next { channels := 1, rate := 8000, frames := 0, audio_data := [0], pos := 36 } ∧
    readU32 wavCutData 36 = some (FourCharUInt32 "data") ∧
    readU32 wavCutData (36 + 4) = some 8 ∧
    chunkAccepted 48 36 8 = true ∧
    ¬ ((36 : Int) + 8 + 8 ≤ 48) ∧
    readSamples wavCutData (36 + 8) 2 = some [1, 2] ∧
    readSamples wavCutData (36 + 8) 3 = none ∧
    chunkStep wavCutData 48
        { channels := 1, rate := 8000, frames := 0, audio_data := [0], pos := 36 } =
      .undefined ∧
    (LoadEarconFromWavFile TtsService.silentLib 8 (EarconManager.new 8000 1)
      (some wavCutData) false).isNone = true ∧
    (∀ w, chunkStep wavCutList 48
        { channels := 1, rate := 8000, frames := 0, audio_data := [0], pos := 36 } =
      .next w → ¬ (w.pos ≤ 48)) := by
  refine ⟨by decide, by decide, by decide, by decide, by decide, by decide, by decide,
    by decide, by decide, by decide, ?_⟩
  intro w hw
  have h : chunkStep wavCutList 48
      { channels := 1, rate := 8000, frames := 0, audio_data := [0], pos := 36 } =
      .next { channels := 1, rate := 8000, frames := 0, audio_data := [0], pos := 52 } := by
    decide
  rw [h] at hw
  simp only [WalkResult.next.injEq] at hw
  rw [← hw]
  decide

/-- C24, the code at a malformed file. The file `wavCutList` has 48 bytes, a
RIFF/WAVE header, a well-formed format chunk and no data chunk; its last
chunk says it has 8 bytes and the file ends after 4 of them. The walk accepts
that chunk and moves `pos` to 52; `filelen - pos` is then `48 - 52` in
`unsigned int`, that is 4294967292, so the loop goes on and reads the label of
a chunk at `data[52]`, outside the array: the call is undefined, it does not
return -1. The complete file `wavTwoSamples` is loaded as a clip of two
frames. In the file `wavWrappedRate` the format chunk declares 268435456 Hz
and a byte rate of 0, which differs from `samplerate * channels * 2`; the
expected byte rate is computed in `unsigned int`, where
`268435456 * 1 * 16` is 0, so the chunk passes, the call returns the id 0 and
the manager has a clip more than before. -/
theorem LoadEarconFromWavFile_cut_short :
    wavCutList.length = 48 ∧
    readU32 wavCutList 0 = some (FourCharUInt32 "RIFF") ∧
    readU32 wavCutList 8 = some (FourCharUInt32 "WAVE") ∧
    chunkStep wavCutList 48
        { channels := 1, rate := 8000, frames := 0, audio_data := [0], pos := 36 } =
      .next { channels := 1, rate := 8000, frames := 0, audio_data := [0], pos := 52 } ∧
    toUInt32 (48 - 52) = 4294967292 ∧
    readU32 wavCutList 52 = none ∧
    chunkStep wavCutList 48
        { channels := 1, rate := 8000, frames := 0, audio_data := [0], pos := 52 } =
      .undefined ∧
    (LoadEarconFromWavFile TtsService.silentLib 8 (EarconManager.new 8000 1)
      (some wavCutList) false).isNone = true ∧
    (LoadEarconFromWavFile TtsService.silentLib 8 (EarconManager.new 8000 1)
      (some wavTwoSamples) false).map (fun r => r.toOption) =
      some (some (0, { earcons_ := [{ frame_count := 2, data := [1, -2], is_playing := false,
                                      position := 0, loop := false }],
                       rate_ := 8000, channels_ := 1 })) ∧
    readU32 wavWrappedRate (12 + 8 + 4) = some 268435456 ∧
    readU32 wavWrappedRate (12 + 8 + 8) = some 0 ∧
    toUInt32 (toUInt32 (268435456 * 1) * 16) / 8 = 0 ∧
    (LoadEarconFromWavFile TtsService.silentLib 8 (EarconManager.new 16000 1)
      (some wavWrappedRate) false).map (fun r => r.toOption) =
      some (some (0, { earcons_ := [{ frame_count := 0, data := [], is_playing := false,
                                      position := 0, loop := false }],
                       rate_ := 16000, channels_ := 1 })) := by
  refine ⟨by decide, by decide, by decide, by decide, by decide, by decide, by decide,
    by decide, by decide, by decide, by decide, by decide, by decide⟩

end EarconManager

/-! ## Theorems: control messages -/

namespace NaClTtsInstance

theorem sizeMinusOne_pos (L : Nat) (h1 : 1 ≤ L) (h2 : L < 4294967296) :
    sizeMinusOne L = L - 1 := by
  unfold sizeMinusOne
  omega

theorem getD_mid (pre : List Char) (c : Char) (suf : List Char) (d : Char) :
    (pre ++ c :: suf).getD pre.length d = c := by
  rw [List.getD_eq_getElem?_getD, List.getElem?_append_right (le_refl _)]
  simp

theorem getD_mid_succ (pre : List Char) (c c2 : Char) (suf : List Char) (d : Char) :
    (pre ++ c :: c2 :: suf).getD (pre.length + 1) d = c2 := by
  have := getD_mid (pre ++ [c]) c2 suf d
  simpa using this

/-- A turn of the loop at a backslash that is not the last character. -/
theorem handleLoop_escape (pre : List Char) (c : Char) (suf : List Char)
    (hlen : (pre ++ '\\' :: c :: suf).length < 4294967296) (fuel : Nat)
    (mn : List Char) (args : List (List Char)) (arg : List Char) :
    handleLoop (pre ++ '\\' :: c :: suf) (fuel + 1) pre.length (mn, args, arg) =
      handleLoop (pre ++ '\\' :: c :: suf) fuel (pre.length + 1 + 1) (mn, args, arg ++ [c]) := by
  rw [handleLoop]
  have hL : (pre ++ '\\' :: c :: suf).length = pre.length + suf.length + 2 := by
    simp; omega
  rw [if_pos (by rw [hL]; omega), sizeMinusOne_pos _ (by rw [hL]; omega) hlen,
    getD_mid, getD_mid_succ]
  rw [if_pos ⟨by rw [hL]; omega, rfl⟩]

/-- A turn of the loop at a character that is neither a backslash nor the
separator. -/
theorem handleLoop_plain (pre : List Char) (c : Char) (suf : List Char)
    (hc1 : c ≠ '\\') (hc2 : c ≠ ':') (fuel : Nat)
    (mn : List Char) (args : List (List Char)) (arg : List Char) :
    handleLoop (pre ++ c :: suf) (fuel + 1) pre.length (mn, args, arg) =
      handleLoop (pre ++ c :: suf) fuel (pre.length + 1) (mn, args, arg ++ [c]) := by
  rw [handleLoop]
  have hL : (pre ++ c :: suf).length = pre.length + suf.length + 1 := by
    simp; omega
  rw [if_pos (by rw [hL]; omega), getD_mid]
  rw [if_neg (fun h => hc1 h.2), if_neg]
  rintro (h | h)
  · rw [hL] at h; omega
  · exact hc2 h

/-- A turn of the loop at a separator. -/
theorem handleLoop_separator (pre : List Char) (suf : List Char) (fuel : Nat)
    (mn : List Char) (args : List (List Char)) (arg : List Char) :
    handleLoop (pre ++ ':' :: suf) (fuel + 1) pre.length (mn, args, arg) =
      if mn.isEmpty then handleLoop (pre ++ ':' :: suf) fuel (pre.length + 1) (arg, args, [])
      else handleLoop (pre ++ ':' :: suf) fuel (pre.length + 1) (mn, args ++ [arg], []) := by
  rw [handleLoop]
  have hL : (pre ++ ':' :: suf).length = pre.length + suf.length + 1 := by
    simp; omega
  rw [if_pos (by rw [hL]; omega), getD_mid]
  rw [if_neg (fun h => by have := h.2; revert this; decide), if_pos (Or.inr (by decide))]

/-- The last turn of the loop, at the end of the message. -/
theorem handleLoop_end (message : List Char) (fuel : Nat)
    (hlen : message.length < 4294967296)
    (mn : List Char) (args : List (List Char)) (arg : List Char) :
    handleLoop message (fuel + 1) message.length (mn, args, arg) =
      if mn.isEmpty then some (arg, args, []) else some (mn, args ++ [arg], []) := by
  have hstop : ∀ st, handleLoop message fuel (message.length + 1) st = some st := by
    intro st
    cases fuel with
    | zero => rw [handleLoop, if_neg (by omega)]
    | succ f =>
      obtain ⟨a, b, c⟩ := st
      rw [handleLoop, if_neg (by omega)]
  rw [handleLoop, if_pos (le_refl _)]
  have h1 : ¬ (message.length < sizeMinusOne message.length ∧
      message.getD message.length (Char.ofNat 0) = '\\') := by
    intro h
    have h2 := h.2
    rw [List.getD_eq_getElem?_getD, List.getElem?_eq_none (le_refl _)] at h2
    revert h2
    decide
  rw [if_neg h1, if_pos (Or.inl rfl), hstop, hstop]

theorem escapeField_nil : escapeField [] = [] := rfl

theorem escapeField_cons_special (c : Char) (f : List Char) (h : c = ':' ∨ c = '\\') :
    escapeField (c :: f) = '\\' :: c :: escapeField f := by
  simp [escapeField, List.flatMap_cons, h]

theorem escapeField_cons_plain (c : Char) (f : List Char) (h : ¬ (c = ':' ∨ c = '\\')) :
    escapeField (c :: f) = c :: escapeField f := by
  simp [escapeField, List.flatMap_cons, h]

theorem escapeField_length (f : List Char) : f.length ≤ (escapeField f).length := by
  induction f with
  | nil => simp [escapeField_nil]
  | cons c f ih =>
    by_cases h : c = ':' ∨ c = '\\'
    · rw [escapeField_cons_special c f h]; simp; omega
    · rw [escapeField_cons_plain c f h]; simp; omega

/-- The turns of the loop over an escaped field add the field to `arg`. -/
theorem handleLoop_field :
    ∀ (f pre suf : List Char) (fuel : Nat) (mn : List Char) (args : List (List Char))
      (arg : List Char),
      (pre ++ escapeField f ++ suf).length < 4294967296 →
      handleLoop (pre ++ escapeField f ++ suf) (fuel + f.length) pre.length (mn, args, arg) =
        handleLoop (pre ++ escapeField f ++ suf) fuel (pre.length + (escapeField f).length)
          (mn, args, arg ++ f)
  | [], pre, suf, fuel, mn, args, arg, _ => by
    simp [escapeField_nil]
  | c :: f, pre, suf, fuel, mn, args, arg, hlen => by
    by_cases h : c = ':' ∨ c = '\\'
    · have hA : pre ++ escapeField (c :: f) ++ suf = pre ++ '\\' :: c :: (escapeField f ++ suf) := by
        rw [escapeField_cons_special c f h]; simp
      have hB : pre ++ escapeField (c :: f) ++ suf = (pre ++ ['\\', c]) ++ escapeField f ++ suf := by
        rw [escapeField_cons_special c f h]; simp
      have ih := handleLoop_field f (pre ++ ['\\', c]) suf fuel mn args (arg ++ [c])
        (by rw [← hB]; exact hlen)
      have hstep := handleLoop_escape pre c (escapeField f ++ suf) (by rw [← hA]; exact hlen)
        (fuel + f.length) mn args arg
      rw [← hA] at hstep
      rw [← hB] at ih
      have e1 : fuel + (c :: f).length = fuel + f.length + 1 := by simp; omega
      have e2 : (pre ++ ['\\', c]).length = pre.length + 1 + 1 := by simp
      have e3 : pre.length + (escapeField (c :: f)).length =
          pre.length + 1 + 1 + (escapeField f).length := by
        rw [escapeField_cons_special c f h]; simp; omega
      have e4 : arg ++ c :: f = arg ++ [c] ++ f := by simp
      rw [e1, hstep, e3, e4, ← e2]
      exact ih
    · have hA : pre ++ escapeField (c :: f) ++ suf = pre ++ c :: (escapeField f ++ suf) := by
        rw [escapeField_cons_plain c f h]; simp
      have hB : pre ++ escapeField (c :: f) ++ suf = (pre ++ [c]) ++ escapeField f ++ suf := by
        rw [escapeField_cons_plain c f h]; simp
      have ih := handleLoop_field f (pre ++ [c]) suf fuel mn args (arg ++ [c])
        (by rw [← hB]; exact hlen)
      have hstep := handleLoop_plain pre c (escapeField f ++ suf) (fun hc => h (Or.inr hc))
        (fun hc => h (Or.inl hc)) (fuel + f.length) mn args arg
      rw [← hA] at hstep
      rw [← hB] at ih
      have e1 : fuel + (c :: f).length = fuel + f.length + 1 := by simp; omega
      have e2 : (pre ++ [c]).length = pre.length + 1 := by simp
      have e3 : pre.length + (escapeField (c :: f)).length =
          pre.length + 1 + (escapeField f).length := by
        rw [escapeField_cons_plain c f h]; simp; omega
      have e4 : arg ++ c :: f = arg ++ [c] ++ f := by simp
      rw [e1, hstep, e3, e4, ← e2]
      exact ih

/-- The turns of the loop over the arguments, each after its separator, and
the last turn: every argument is appended to `args`. -/
theorem handleLoop_tail :
    ∀ (rest : List (List Char)) (pre : List Char) (extra : Nat) (mn : List Char)
      (args : List (List Char)) (arg : List Char),
      (pre ++ rest.flatMap (fun a => ':' :: escapeField a)).length < 4294967296 →
      (mn ≠ [] ∨ arg ≠ []) →
      handleLoop (pre ++ rest.flatMap (fun a => ':' :: escapeField a))
          (extra + (rest.map (fun a => a.length + 1)).sum + 1) pre.length (mn, args, arg) =
        some (if mn.isEmpty then (arg, args ++ rest, []) else (mn, args ++ [arg] ++ rest, []))
  | [], pre, extra, mn, args, arg, hlen, _ => by
    simp only [List.flatMap_nil, List.append_nil, List.map_nil, List.sum_nil, add_zero] at hlen ⊢
    rw [handleLoop_end pre extra hlen]
    split_ifs <;> rfl
  | a :: rest, pre, extra, mn, args, arg, hlen, hne => by
    have hA : pre ++ (a :: rest).flatMap (fun a => ':' :: escapeField a) =
        pre ++ ':' :: (escapeField a ++ rest.flatMap (fun a => ':' :: escapeField a)) := by
      simp [List.flatMap_cons]
    have hB : pre ++ (a :: rest).flatMap (fun a => ':' :: escapeField a) =
        (pre ++ [':']) ++ escapeField a ++ rest.flatMap (fun a => ':' :: escapeField a) := by
      simp [List.flatMap_cons]
    have hC : pre ++ (a :: rest).flatMap (fun a => ':' :: escapeField a) =
        (pre ++ ':' :: escapeField a) ++ rest.flatMap (fun a => ':' :: escapeField a) := by
      simp [List.flatMap_cons]
    have e1 : extra + ((a :: rest).map (fun a => a.length + 1)).sum + 1 =
        (extra + (rest.map (fun a => a.length + 1)).sum + 1) + a.length + 1 := by
      simp only [List.map_cons, List.sum_cons]; omega
    have e2 : (pre ++ [':']).length = pre.length + 1 := by simp
    have e3 : (pre ++ ':' :: escapeField a).length =
        (pre ++ [':']).length + (escapeField a).length := by simp; omega
    have hstep := handleLoop_separator pre
      (escapeField a ++ rest.flatMap (fun a => ':' :: escapeField a))
      ((extra + (rest.map (fun a => a.length + 1)).sum + 1) + a.length) mn args arg
    rw [← hA] at hstep
    have hfield := fun mn1 args1 => handleLoop_field a (pre ++ [':'])
      (rest.flatMap (fun a => ':' :: escapeField a))
      (extra + (rest.map (fun a => a.length + 1)).sum + 1) mn1 args1 []
      (by rw [← hB]; exact hlen)
    rw [← hB] at hfield
    have ih := fun mn1 args1 (h1 : mn1 ≠ []) => handleLoop_tail rest (pre ++ ':' :: escapeField a)
      extra mn1 args1 a (by rw [← hC]; exact hlen) (Or.inl h1)
    rw [← hC] at ih
    rw [e1, hstep]
    by_cases hmn : mn.isEmpty = true
    · have harg : arg ≠ [] := by
        rcases hne with h | h
        · exact absurd (by simpa using hmn) h
        · exact h
      rw [if_pos hmn, if_pos hmn, ← e2, hfield, ← e3, List.nil_append, ih arg args harg]
      have : arg.isEmpty = false := by
        cases arg with
        | nil => exact absurd rfl harg
        | cons _ _ => rfl
      simp [this]
    · have hmn2 : mn ≠ [] := by
        intro h; apply hmn; rw [h]; rfl
      rw [if_neg hmn, if_neg hmn, ← e2, hfield, ← e3, List.nil_append, ih mn _ hmn2]
      simp [hmn]

theorem encodeMessage_eq (m : List Char) (args : List (List Char)) :
    encodeMessage m args = escapeField m ++ args.flatMap (fun a => ':' :: escapeField a) := by
  unfold encodeMessage
  induction args generalizing m with
  | nil => simp [List.intercalate]
  | cons a rest ih =>
    have := ih a
    simp only [List.intercalate, List.map_cons, List.intersperse_cons_cons, List.flatten_cons,
      List.flatMap_cons] at this ⊢
    rw [this]
    simp

theorem encodeMessage_length (m : List Char) (args : List (List Char)) :
    m.length + (args.map (fun a => a.length + 1)).sum ≤ (encodeMessage m args).length := by
  rw [encodeMessage_eq, List.length_append]
  have h1 := escapeField_length m
  have h2 : (args.map (fun a => a.length + 1)).sum ≤
      (args.flatMap (fun a => ':' :: escapeField a)).length := by
    induction args with
    | nil => simp
    | cons a rest ih =>
      have := escapeField_length a
      simp only [List.map_cons, List.sum_cons, List.flatMap_cons, List.length_append,
        List.length_cons]
      omega
  omega

/-- C30. For a method name `m` that is not empty and arguments `a_1 .. a_k`
(`k ≥ 0`, any characters), the message in which every `:` and every backslash
of a field is preceded by a backslash and the fields are joined with `:` is
split by `HandleMessage` into the method name `m` and the arguments
`[a_1, .., a_k]`: the loop ends and the dispatch gets exactly these. The
message is one that a `std::string` of Native Client can hold (fewer than
2^32 characters). -/
theorem HandleMessage_round_trip (m : List Char) (args : List (List Char)) (hm : m ≠ [])
    (hlen : (encodeMessage m args).length < 4294967296) :
    HandleMessage (encodeMessage m args) = some (m, args) := by
  unfold HandleMessage
  have hlen2 := encodeMessage_length m args
  obtain ⟨extra, hx⟩ := Nat.exists_eq_add_of_le hlen2
  have e1 : (encodeMessage m args).length + 1 =
      (extra + (args.map (fun a => a.length + 1)).sum + 1) + m.length := by omega
  rw [e1, encodeMessage_eq] at *
  have hfield := handleLoop_field m [] (args.flatMap (fun a => ':' :: escapeField a))
    (extra + (args.map (fun a => a.length + 1)).sum + 1) [] [] [] (by simpa using hlen)
  simp only [List.nil_append, List.length_nil, Nat.zero_add] at hfield
  rw [hfield]
  have htail := handleLoop_tail args (escapeField m) extra [] [] m hlen (Or.inr hm)
  rw [htail]
  simp

/-- C30 at the method name `speak` and three arguments: one with a separator,
one with a backslash, and an empty one. -/
theorem HandleMessage_round_trip_witness :
    ("speak".toList ≠ [] ∧
      (encodeMessage "speak".toList ["a:b".toList, "c\\d".toList, []]).length < 4294967296) ∧
    encodeMessage "speak".toList ["a:b".toList, "c\\d".toList, []] =
      "speak:a\\:b:c\\\\d:".toList ∧
    HandleMessage (encodeMessage "speak".toList ["a:b".toList, "c\\d".toList, []]) =
      some ("speak".toList, ["a:b".toList, "c\\d".toList, []]) :=
  ⟨⟨by decide, by decide⟩, by decide,
    HandleMessage_round_trip "speak".toList ["a:b".toList, "c\\d".toList, []]
      (by decide) (by decide)⟩

end NaClTtsInstance


/-! ## Theorems: frame counts whose product does not fit an int -/

namespace RingBuffer

variable {T : Type} [Inhabited T]

/-- A product that fits an `int` is left as it is. -/
theorem mulInt_eq {a b : Int} (h0 : -2147483648 ≤ a * b) (h1 : a * b ≤ 2147483647) :
    mulInt a b = a * b := by
  unfold mulInt
  omega

/-- The method `Write32` is `Write` on the calls whose product fits an `int`. -/
theorem Write32_eq_Write (rb : RingBuffer T) (data : List T) (len : Int)
    (h : mulInt len rb.channel_count_ = len * rb.channel_count_) :
    Write32 rb data len = Write rb data len := by
  unfold Write32 Write
  rw [h]

/-- The method `Read32` is `Read` on the calls whose product fits an `int`. -/
theorem Read32_eq_Read (rb : RingBuffer T) (data : List T) (len : Int)
    (h : mulInt len rb.channel_count_ = len * rb.channel_count_) :
    Read32 rb data len = Read rb data len := by
  unfold Read32 Read
  rw [h]

/-- On a well-formed buffer that is not finished, a `Write` of `W ≥ 0` frames
whose product with the channel count fits an `int` returns true exactly when
`WriteAvail() ≥ W`. -/
theorem Write32_succeeds_iff {rb : RingBuffer T} (hwf : WF rb) (hf : rb.finished_ = false)
    (data : List T) (W : Int) (hW : 0 ≤ W) (hfit : W * rb.channel_count_ ≤ 2147483647) :
    (Write32 rb data W).1 = true ↔ W ≤ WriteAvail rb := by
  have hN : 0 < rb.channel_count_ := hwf.1
  have h0 : 0 ≤ W * rb.channel_count_ := Int.mul_nonneg hW (le_of_lt hN)
  rw [Write32_eq_Write rb data W (mulInt_eq (by omega) hfit), Write_true_iff,
    ← WriteAvail_mul hwf, frames_le_iff hwf]
  simp [hf]

/-- A well-formed buffer satisfies the occupancy invariant. -/
theorem WF_occupancy {rb : RingBuffer T} (hwf : WF rb) :
    0 ≤ ReadAvail rb ∧ ReadAvail rb ≤ rb.frame_capacity_ ∧
    0 ≤ WriteAvail rb ∧ WriteAvail rb ≤ rb.frame_capacity_ ∧
    ReadAvail rb + WriteAvail rb = rb.frame_capacity_ := by
  have hb := readAvailSamples_bounds hwf
  have hwa := writeAvailSamples_eq hwf
  have hr := ReadAvail_mul hwf
  have hw := WriteAvail_mul hwf
  have hN : 0 < rb.channel_count_ := hwf.1
  have hcap : rb.capacity_ = rb.frame_capacity_ * rb.channel_count_ := hwf.2.2.1
  rw [hcap] at hb hwa
  generalize ReadAvail rb = ra at *
  generalize WriteAvail rb = wa at *
  generalize rb.channel_count_ = N at *
  generalize rb.frame_capacity_ = C at *
  have hsum : (ra + wa) * N = C * N := by rw [add_mul, hr, hw, hwa]; ring
  have hsum2 : ra + wa = C := Int.eq_of_mul_eq_mul_right (by omega) hsum
  have hra : 0 ≤ ra := by
    by_contra hneg
    have : ra * N < 0 := Int.mul_neg_of_neg_of_pos (by omega) (by omega)
    omega
  have hwa0 : 0 ≤ wa := by
    by_contra hneg
    have : wa * N < 0 := Int.mul_neg_of_neg_of_pos (by omega) (by omega)
    omega
  omega

/-- The calls of `Write32` and `Read32` whose product fits an `int` keep a
buffer well formed. -/
theorem Write32_Read32_WF {rb : RingBuffer T} (hwf : WF rb) (data : List T) (len : Int)
    (h : mulInt len rb.channel_count_ = len * rb.channel_count_) :
    WF (Write32 rb data len).2 ∧ WF (Read32 rb data len).2.1 := by
  rw [Write32_eq_Write rb data len h, Read32_eq_Read rb data len h]
  exact ⟨Write_WF hwf data len, Read_WF hwf data len⟩

/-- C1, the code at a frame count whose product does not fit an `int`. On a
fresh buffer of 2 frames of 3 channels `WriteAvail()` is 2. The call
`Write(data, 1431655766)` multiplies the frame count by 3; the product
4294967298 does not fit an `int` and its low 32 bits are 2, so the test
`len > avail` compares 2 with 6, two samples are stored and the call returns
true, although `WriteAvail()` was less than 1431655766. -/
theorem Write32_of_too_many_frames :
    WriteAvail (new 2 3 : RingBuffer Int) = 2 ∧
    ¬ ((1431655766 : Int) ≤ WriteAvail (new 2 3 : RingBuffer Int)) ∧
    (1431655766 : Int) * 3 = 4294967298 ∧
    mulInt 1431655766 3 = 2 ∧
    (Write32 (new 2 3 : RingBuffer Int) [7, 8, 9] 1431655766).1 = true ∧
    (Write32 (new 2 3 : RingBuffer Int) [7, 8, 9] 1431655766).2.buffer_ = [7, 8, 0, 0, 0, 0] ∧
    (Write32 (new 2 3 : RingBuffer Int) [7, 8, 9] 1431655766).2.read_pos_ = 0 ∧
    (Write32 (new 2 3 : RingBuffer Int) [7, 8, 9] 1431655766).2.write_pos_ = 2 := by
  refine ⟨by decide, by decide, by decide, by decide, by decide, by decide, by decide,
    by decide⟩

/-- C4, the code after a call whose product does not fit an `int`. On a fresh
buffer of 2 frames of 3 channels `ReadAvail() + WriteAvail()` is 2. After
`Write(data, 1431655766)`, which stores two samples, `ReadAvail()` is 0 and
`WriteAvail()` is 1: they add up to 1. The same happens on the reading side:
on the full buffer `Read(out, 1431655766)` takes two samples, returns true and
leaves `ReadAvail() + WriteAvail() = 1`. -/
theorem occupancy_after_too_many_frames :
    ReadAvail (new 2 3 : RingBuffer Int) + WriteAvail (new 2 3 : RingBuffer Int) = 2 ∧
    ReadAvail (Write32 (new 2 3 : RingBuffer Int) [7, 8, 9] 1431655766).2 = 0 ∧
    WriteAvail (Write32 (new 2 3 : RingBuffer Int) [7, 8, 9] 1431655766).2 = 1 ∧
    ReadAvail (Write32 (new 2 3 : RingBuffer Int) [7, 8, 9] 1431655766).2 +
      WriteAvail (Write32 (new 2 3 : RingBuffer Int) [7, 8, 9] 1431655766).2 ≠ 2 ∧
    (Read32 (Write32 (new 2 3 : RingBuffer Int) [1, 2, 3, 4, 5, 6] 2).2 [0, 0, 0]
      1431655766).1 = true ∧
    ReadAvail (Read32 (Write32 (new 2 3 : RingBuffer Int) [1, 2, 3, 4, 5, 6] 2).2 [0, 0, 0]
      1431655766).2.1 +
      WriteAvail (Read32 (Write32 (new 2 3 : RingBuffer Int) [1, 2, 3, 4, 5, 6] 2).2 [0, 0, 0]
        1431655766).2.1 = 1 := by
  refine ⟨by decide, by decide, by decide, by decide, by decide, by decide⟩

end RingBuffer

end tts_service
